import Mathlib

/-!
Elevator dispatch engine (proj2-kernel/part3/elevator.c)

A shallow embedding of the kernel module's passenger, floor and elevator
code, followed by theorems about it.

Modelling conventions
* `struct list_head` queues are Lean lists, head of the list = front of the queue.
* C `int` counters and aggregates are unbounded `Int`; only the caller-supplied
  arguments of `issue_request` are treated as 32-bit values (their decrement wraps).
* An `int` used as a truth value is kept as an `Int`; `c_not` is the C operator `!`.
* Locks, `printk`, `ssleep` and `kfree` have no effect on the modelled state and are omitted.
-/

namespace OSProjects

/-! ## Constants -/

def NUM_PASSENGER_TYPES : Int := 4
def MIN_FLOOR : Int := 0
def MAX_FLOOR : Int := 9
def NUM_FLOORS : Nat := 10
def MAX_LOAD_UNITS : Int := 10
def MAX_LOAD_WEIGHT : Int := 15

/-- The C operator `!` on an `int`. -/
def c_not (x : Int) : Int := if x = 0 then 1 else 0

/-- Two's-complement wrap of a value into the range of a 32-bit `int`. -/
def int32_wrap (x : Int) : Int := (x + 2147483648) % 4294967296 - 2147483648

/-! ## Passengers -/

inductive PassengerType where
  | CHILD
  | ADULT
  | BELLHOP
  | ROOM_SERVICE
deriving DecidableEq

/-- The enumerator with a given integer value. Only applied to values that
`issue_request` has range-checked against `NUM_PASSENGER_TYPES`. -/
def PassengerType.ofInt (t : Int) : PassengerType :=
  if t = 0 then .CHILD else if t = 1 then .ADULT else if t = 2 then .BELLHOP else .ROOM_SERVICE

/-- A `PassengerNode` without its list links. The `int passenger_type` field only
ever holds an enumerator of `PassengerType` (nodes are built by
`passenger_node_create` alone), so it is typed as such. -/
structure PassengerNode where
  passenger_type : PassengerType
  destination_floor : Int
deriving DecidableEq

/-- Table `PASSENGER_UNITS[4] = {1, 1, 2, 2}`. -/
def PASSENGER_UNITS : PassengerType → Int
  | .CHILD => 1
  | .ADULT => 1
  | .BELLHOP => 2
  | .ROOM_SERVICE => 2

/-- Table `PASSENGER_WEIGHTS[4] = {0, 1, 2, 3}`. -/
def PASSENGER_WEIGHTS : PassengerType → Int
  | .CHILD => 0
  | .ADULT => 1
  | .BELLHOP => 2
  | .ROOM_SERVICE => 3

/-- Allocation of a node; `alloc_ok = false` is a failed `kcalloc` (returns `NULL`). -/
def passenger_node_create (alloc_ok : Bool) (passenger_type : PassengerType)
    (destination_floor : Int) : Option PassengerNode :=
  if alloc_ok then some ⟨passenger_type, destination_floor⟩ else none

/-! ## Floors -/

structure Floor where
  queue : List PassengerNode
  num_serviced : Int
  num_waiting : Int
  floor_num : Int
  load_in_units : Int
  load_in_weight : Int
  load_in_weight_half : Int
deriving DecidableEq

def floor_create (floor_num : Int) : Floor :=
  { queue := [], num_serviced := 0, num_waiting := 0, floor_num := floor_num,
    load_in_units := 0, load_in_weight := 0, load_in_weight_half := 0 }

def create_floors_array (num_floors : Nat) : List Floor :=
  (List.range num_floors).map (fun i => floor_create (Int.ofNat i))

def floor_enqueue_passenger (floor : Floor) (p : PassengerNode) : Floor :=
  let weight := floor.load_in_weight + PASSENGER_WEIGHTS p.passenger_type
  { floor with
    num_waiting := floor.num_waiting + 1
    load_in_units := floor.load_in_units + PASSENGER_UNITS p.passenger_type
    load_in_weight :=
      if p.passenger_type = .CHILD then
        (if floor.load_in_weight_half ≠ 0 then weight + 1 else weight)
      else weight
    load_in_weight_half :=
      if p.passenger_type = .CHILD then c_not floor.load_in_weight_half
      else floor.load_in_weight_half
    queue := floor.queue ++ [p] }

/-- Returns the removed front passenger (`none` for `NULL`) and the updated floor. -/
def floor_dequeue_passenger (floor : Floor) : Option PassengerNode × Floor :=
  match floor.queue with
  | [] => (none, floor)
  | p :: rest =>
    let weight := floor.load_in_weight - PASSENGER_WEIGHTS p.passenger_type
    (some p,
     { floor with
       queue := rest
       num_serviced := floor.num_serviced + 1
       num_waiting := floor.num_waiting - 1
       load_in_weight :=
         if p.passenger_type = .CHILD then
           (if floor.load_in_weight_half = 0 then weight - 1 else weight)
         else weight
       load_in_units := floor.load_in_units - PASSENGER_UNITS p.passenger_type
       load_in_weight_half :=
         if p.passenger_type = .CHILD then c_not floor.load_in_weight_half
         else floor.load_in_weight_half })

/-! ## Elevator -/

inductive ElevatorState where
  | OFFLINE
  | IDLE
  | LOADING
  | UP
  | DOWN
deriving DecidableEq

structure Elevator where
  queue : List PassengerNode
  state : ElevatorState
  direction : ElevatorState
  stopping : Int
  current_floor : Int
  next_floor : Int
  num_passengers : Int
  total_serviced : Int
  load_in_units : Int
  load_in_weight : Int
  load_in_weight_half : Int
deriving DecidableEq

/-- A zeroed (`kcalloc`) elevator; the enumerator with value 0 is `OFFLINE`. -/
def elevator_create : Elevator :=
  { queue := [], state := .OFFLINE, direction := .OFFLINE, stopping := 0,
    current_floor := 0, next_floor := 0, num_passengers := 0, total_serviced := 0,
    load_in_units := 0, load_in_weight := 0, load_in_weight_half := 0 }

def elevator_step (elv : Elevator) : Elevator :=
  let delta : Int := if elv.state = .UP then 1 else -1
  { elv with
    current_floor := elv.next_floor
    next_floor := elv.next_floor + delta }

/-- The `while (elv->current_floor != dest_floor)` loop of `elevator_move_to`,
bounded by a number of iterations. -/
def elevator_move_to_loop : Nat → Elevator → Int → Int → Elevator
  | 0, elv, _, _ => elv
  | n + 1, elv, dest_floor, delta =>
    if elv.current_floor ≠ dest_floor then
      elevator_move_to_loop n { elv with current_floor := elv.current_floor + delta }
        dest_floor delta
    else elv

def elevator_move_to (elv : Elevator) (dest_floor : Int) : Elevator :=
  let delta : Int := if dest_floor > elv.current_floor then 1 else -1
  let elv1 : Elevator :=
    { elv with
      state := if dest_floor > elv.current_floor then .UP else .DOWN
      next_floor := dest_floor }
  elevator_move_to_loop (dest_floor - elv.current_floor).natAbs elv1 dest_floor delta

/-- The local `can_fit` of `should_load`, for the front passenger `p`. -/
def should_load_can_fit (elv : Elevator) (p : PassengerNode) : Bool :=
  let p_weight := PASSENGER_WEIGHTS p.passenger_type
  let p_units := PASSENGER_UNITS p.passenger_type
  let p_weight_half : Bool := decide (p.passenger_type = .CHILD)
  if (elv.load_in_weight_half = 0 ∧ p_weight_half = true) ∨
      (elv.load_in_weight_half ≠ 0 ∧ p_weight_half = false) then
    decide (elv.load_in_weight + p_weight < MAX_LOAD_WEIGHT) &&
      decide (elv.load_in_units + p_units ≤ MAX_LOAD_UNITS)
  else
    decide (elv.load_in_weight + p_weight + 1 ≤ MAX_LOAD_WEIGHT) &&
      decide (elv.load_in_units + p_units ≤ MAX_LOAD_UNITS)

/-- The local `same_direction` of `should_load`, for the front passenger `p`. -/
def should_load_same_direction (elv : Elevator) (p : PassengerNode) : Bool :=
  (decide (elv.direction = .UP) && decide (p.destination_floor > elv.current_floor)) ||
    (decide (elv.direction = .DOWN) && decide (p.destination_floor < elv.current_floor))

/-- The body of `should_load` once the front passenger `p` has been read. -/
def should_load_passenger (elv : Elevator) (p : PassengerNode) : Bool :=
  should_load_can_fit elv p && should_load_same_direction elv p

/-- The function `should_load`. On an empty queue `list_first_entry` has no valid
result, which is `none` here; the only caller checks `list_empty` first. -/
def should_load (elv : Elevator) (floor : Floor) : Option Bool :=
  match floor.queue with
  | [] => none
  | p :: _ => some (should_load_passenger elv p)

def elevator_load_passenger (elv : Elevator) (p : Option PassengerNode) : Elevator :=
  match p with
  | none => elv
  | some p =>
    let weight := elv.load_in_weight + PASSENGER_WEIGHTS p.passenger_type
    { elv with
      queue := elv.queue ++ [p]
      num_passengers := elv.num_passengers + 1
      load_in_weight :=
        if p.passenger_type = .CHILD then
          (if elv.load_in_weight_half ≠ 0 then weight + 1 else weight)
        else weight
      load_in_units := elv.load_in_units + PASSENGER_UNITS p.passenger_type
      load_in_weight_half :=
        if p.passenger_type = .CHILD then c_not elv.load_in_weight_half
        else elv.load_in_weight_half }

/-- The `while (!list_empty(&floor->queue))` loop of `elevator_load_floor`,
bounded by a number of iterations. -/
def elevator_load_floor_loop : Nat → Elevator → Floor → Elevator × Floor
  | 0, elv, floor => (elv, floor)
  | n + 1, elv, floor =>
    if floor.queue = [] then (elv, floor)
    else
      match should_load elv floor with
      | some true =>
        let r := floor_dequeue_passenger floor
        elevator_load_floor_loop n (elevator_load_passenger elv r.1) r.2
      | _ => (elv, floor)

/-- The function `elevator_load_floor`, with `floor` standing for
`floors[elv->current_floor]`. Each iteration of the loop removes one passenger
from the floor queue, so the queue length bounds the number of iterations. -/
def elevator_load_floor (elv : Elevator) (floor : Floor) : Elevator × Floor :=
  let elv1 : Elevator := { elv with direction := elv.state, state := .LOADING }
  let r := elevator_load_floor_loop floor.queue.length elv1 floor
  ({ r.1 with state := r.1.direction }, r.2)

/-- The function `elevator_unload_passenger`. `list_del` unlinks the node `p`; on
lists of values the first node equal to `p` is removed, which is the same list
whenever every node before `p` that equals it has already been unlinked, as is
the case in the traversal of `elevator_unload_floor`. -/
def elevator_unload_passenger (elv : Elevator) (p : PassengerNode) : Elevator :=
  let weight := elv.load_in_weight - PASSENGER_WEIGHTS p.passenger_type
  { elv with
    queue := elv.queue.erase p
    num_passengers := elv.num_passengers - 1
    total_serviced := elv.total_serviced + 1
    load_in_weight :=
      if p.passenger_type = .CHILD then
        (if elv.load_in_weight_half = 0 then weight - 1 else weight)
      else weight
    load_in_units := elv.load_in_units - PASSENGER_UNITS p.passenger_type
    load_in_weight_half :=
      if p.passenger_type = .CHILD then c_not elv.load_in_weight_half
      else elv.load_in_weight_half }

/-- The `list_for_each_safe` traversal of `elevator_unload_floor`: `nodes` are the
nodes of the onboard queue still to be visited. -/
def elevator_unload_floor_loop : List PassengerNode → Elevator → Elevator
  | [], elv => elv
  | p :: rest, elv =>
    if p.destination_floor = elv.current_floor then
      elevator_unload_floor_loop rest (elevator_unload_passenger elv p)
    else elevator_unload_floor_loop rest elv

def elevator_unload_floor (elv : Elevator) : Elevator :=
  let elv1 : Elevator := { elv with direction := elv.state, state := .LOADING }
  let elv2 := elevator_unload_floor_loop elv1.queue elv1
  { elv2 with state := elv2.direction }

/-- The `for (i = 0; i <= MAX_FLOOR; i++)` loop of `elevator_unload_all`, by the
number of iterations left. -/
def elevator_unload_all_loop : Nat → Elevator → Elevator
  | 0, elv => elv
  | n + 1, elv => elevator_unload_all_loop n (elevator_step (elevator_unload_floor elv))

def elevator_unload_all (elv : Elevator) : Elevator :=
  let elv1 := elevator_move_to elv 0
  let elv2 : Elevator := { elv1 with state := .UP }
  let elv3 := elevator_unload_all_loop (MAX_FLOOR + 1).toNat elv2
  { elv3 with state := .OFFLINE }

/-! ## The module state and the request system call -/

/-- The globals `floors` and `elevator`. -/
structure System where
  floors : List Floor
  elevator : Elevator
deriving DecidableEq

/-- The state after `elevator_module_init`. -/
def system_init : System :=
  { floors := create_floors_array NUM_FLOORS, elevator := elevator_create }

/-- An in-place update `f` of `floors[i]`; the array is left as it is when `i` is
not an index of it (the callers range-check `i` against `MIN_FLOOR..MAX_FLOOR`). -/
def floors_update (floors : List Floor) (i : Int) (f : Floor → Floor) : List Floor :=
  if 0 ≤ i then
    match floors[i.toNat]? with
    | some fl => floors.set i.toNat (f fl)
    | none => floors
  else floors

/-- The system call `issue_request`; returns its return value and the new state. -/
def issue_request (s : System) (alloc_ok : Bool)
    (passenger_type start_floor destination_floor : Int) : Int × System :=
  let passenger_type := int32_wrap (passenger_type - 1)
  let start_floor := int32_wrap (start_floor - 1)
  let destination_floor := int32_wrap (destination_floor - 1)
  if (start_floor < MIN_FLOOR ∨ start_floor > MAX_FLOOR) ∨
      (destination_floor < MIN_FLOOR ∨ destination_floor > MAX_FLOOR) then
    (1, s)
  else if passenger_type < 0 ∨ passenger_type ≥ NUM_PASSENGER_TYPES then
    (1, s)
  else if start_floor = destination_floor then
    (0, { s with
          floors := floors_update s.floors start_floor
            (fun fl => { fl with num_serviced := fl.num_serviced + 1 }) })
  else
    match passenger_node_create alloc_ok (PassengerType.ofInt passenger_type)
        destination_floor with
    | none => (1, s)
    | some p =>
      (0, { s with
            floors := floors_update s.floors start_floor
              (fun fl => floor_enqueue_passenger fl p) })

/-! ## The scheduler, and starting and stopping -/

/-- The array access `floors[i]`; `none` when `i` is not an index of the array. -/
def floors_get (floors : List Floor) (i : Int) : Option Floor :=
  if 0 ≤ i then floors[i.toNat]? else none

/-- The function `elevator_setup_scan`, with `floor` standing for
`floors[elv->current_floor]`. The function requires a waiting passenger on that
floor; on an empty queue `list_first_entry` has no valid result (`none`). -/
def elevator_setup_scan (elv : Elevator) (floor : Floor) : Option Elevator :=
  match floor.queue with
  | [] => none
  | p :: _ =>
    let state : ElevatorState :=
      if p.destination_floor > elv.current_floor then .UP else .DOWN
    some { elv with
      state := state
      next_floor := if state = .UP then elv.current_floor + 1 else elv.current_floor - 1 }

/-- The call `elevator_setup_scan(elv)` on the globals: looks up
`floors[elv->current_floor]` (`none` when that index is out of range). -/
def system_setup_scan (s : System) : Option System :=
  match floors_get s.floors s.elevator.current_floor with
  | none => none
  | some floor =>
    match elevator_setup_scan s.elevator floor with
    | none => none
    | some elv => some { s with elevator := elv }

/-- The call `elevator_load_floor(elv)` on the globals: looks up
`floors[elv->current_floor]` (`none` when that index is out of range) and runs the
loading pass on it. -/
def system_load_floor (s : System) : Option System :=
  match floors_get s.floors s.elevator.current_floor with
  | none => none
  | some floor =>
    let r := elevator_load_floor s.elevator floor
    some { floors := s.floors.set s.elevator.current_floor.toNat r.2, elevator := r.1 }

/-- The values taken by `i` in `for (i = 0; i <= MAX_FLOOR; i++)`. -/
def floor_indices : List Int :=
  (List.range (MAX_FLOOR + 1).toNat).map Int.ofNat

/-- The `for` loop of `elevator_try_to_start_scan` over the remaining values of `i`;
falling out of the loop is the call of `schedule()`, which changes nothing. -/
def elevator_try_to_start_scan_loop : List Int → System → Option System
  | [], s => some s
  | i :: rest, s =>
    match floors_get s.floors i with
    | none => none
    | some floor =>
      if floor.queue ≠ [] then
        match system_setup_scan { s with elevator := elevator_move_to s.elevator i } with
        | none => none
        | some s1 =>
          match system_load_floor s1 with
          | none => none
          | some s2 => some { s2 with elevator := elevator_step s2.elevator }
      else elevator_try_to_start_scan_loop rest s

def elevator_try_to_start_scan (s : System) : Option System :=
  elevator_try_to_start_scan_loop floor_indices s

/-- One iteration of the `while (!kthread_should_stop())` loop of `elevator_run`. -/
def elevator_run_iteration (s : System) : Option System :=
  if s.elevator.state = .IDLE then elevator_try_to_start_scan s
  else
    let elv := elevator_unload_floor s.elevator
    if elv.num_passengers = 0 then
      some { s with elevator := { elv with state := .IDLE } }
    else
      match system_load_floor { s with elevator := elv } with
      | none => none
      | some s2 => some { s2 with elevator := elevator_step s2.elevator }

/-- The car and floors after `n` iterations of the loop of `elevator_run`. -/
def elevator_run_n : Nat → System → Option System
  | 0, s => some s
  | n + 1, s =>
    match elevator_run_iteration s with
    | none => none
    | some s1 => elevator_run_n n s1

/-- The function `elevator_start`. `spawn_error` is the outcome of `kthread_run`:
`none` for a created thread, `some e` for an error pointer with `PTR_ERR` value `e`.
Returns the return value and the elevator. -/
def elevator_start (elv : Elevator) (spawn_error : Option Int) : Int × Elevator :=
  if elv.state ≠ .OFFLINE then (1, elv)
  else
    let elv1 : Elevator := { elv with state := .IDLE, stopping := 0 }
    match spawn_error with
    | some e => (e, elv1)
    | none => (0, elv1)

/-- The function `elevator_stop`. Returns the return value, the elevator, and whether
the call ran `kthread_stop(elevator_kthread)` and spawned an `elevator_unload_all`
thread (the drain). -/
def elevator_stop (elv : Elevator) : Int × Elevator × Bool :=
  if elv.stopping ≠ 0 then (1, elv, false)
  else (0, { elv with stopping := 1 }, true)

/-! ## The status text -/

/-- An argument of `snprintf`: an `int` for `%d` or a string for `%s`. -/
inductive FormatArg where
  | int (i : Int)
  | str (s : String)

/-- The text written by `snprintf` for a format with `%d` and `%s` conversions, as a
list of characters. Truncation to the buffer size is left out: with 32-bit fields
the whole status text is shorter than `BUFFER_SIZE`. -/
def c_format : List Char → List FormatArg → List Char
  | [], _ => []
  | [c], _ => [c]
  | c :: d :: rest, args =>
    if c = '%' ∧ d = 'd' then
      match args with
      | FormatArg.int i :: args1 => (toString i).toList ++ c_format rest args1
      | _ => c_format rest args
    else if c = '%' ∧ d = 's' then
      match args with
      | FormatArg.str s :: args1 => s.toList ++ c_format rest args1
      | _ => c_format rest args
    else c :: c_format (d :: rest) args

/-- Table `ELEVATOR_STATE_STRINGS`. -/
def ELEVATOR_STATE_STRINGS : ElevatorState → String
  | .OFFLINE => "OFFLINE"
  | .IDLE => "IDLE"
  | .LOADING => "LOADING"
  | .UP => "UP"
  | .DOWN => "DOWN"

/-- The format string of `elevator_print_buf`. -/
def elevator_print_format : String :=
  "Elevator status\n" ++
  "State: \t\t\t%s\n" ++
  "Floor:\t\t\t%d\n" ++
  "Next floor:\t\t%d\n" ++
  "Load (weight):\t\t%d.%d\n" ++
  "Load (units):\t\t%d\n" ++
  "Num serviced:\t\t%d\n" ++
  "--------------------------------------------------------------\n"

def elevator_print_buf (elv : Elevator) : List Char :=
  c_format elevator_print_format.toList
    [FormatArg.str (ELEVATOR_STATE_STRINGS elv.state),
     FormatArg.int (elv.current_floor + 1),
     FormatArg.int (if elv.state ≠ .IDLE then elv.next_floor + 1 else -1),
     FormatArg.int elv.load_in_weight,
     FormatArg.int (if elv.load_in_weight_half ≠ 0 then 5 else 0),
     FormatArg.int elv.load_in_units,
     FormatArg.int elv.total_serviced]

/-- The format string of `floor_print_buf`. -/
def floor_print_format : String :=
  "Floor %d status\n" ++
  "Load (weight):\t\t%d.%d\n" ++
  "Load (units):\t\t%d\n" ++
  "Total waiting:\t\t%d\n" ++
  "Total serviced:\t\t%d\n" ++
  "--------------------------------------------------------------\n"

def floor_print_buf (floor : Floor) : List Char :=
  c_format floor_print_format.toList
    [FormatArg.int (floor.floor_num + 1),
     FormatArg.int floor.load_in_weight,
     FormatArg.int (if floor.load_in_weight_half ≠ 0 then 5 else 0),
     FormatArg.int floor.load_in_units,
     FormatArg.int floor.num_waiting,
     FormatArg.int floor.num_serviced]

/-- The texts of `floors[i]` for the remaining values of `i` in the loop of
`elevator_proc_read`, one after the other (`none` when `i` is not an index). -/
def elevator_proc_read_floors : List Int → List Floor → Option (List Char)
  | [], _ => some []
  | i :: rest, floors =>
    match floors_get floors i with
    | none => none
    | some floor =>
      match elevator_proc_read_floors rest floors with
      | none => none
      | some text => some (floor_print_buf floor ++ text)

/-- The text that a printing call of `elevator_proc_read` copies to the reader: the
elevator status followed by the status of `floors[0]` .. `floors[MAX_FLOOR]`. -/
def elevator_proc_read (s : System) : Option (List Char) :=
  match elevator_proc_read_floors floor_indices s.floors with
  | none => none
  | some text => some (elevator_print_buf s.elevator ++ text)

/-! ## Lock acquisition order -/

/-- The mutexes of the module: `elevator->lock` and `floors[i]->lock`. -/
inductive Lock where
  | elevator
  | floor (i : Int)
deriving DecidableEq

/-- A call of `mutex_lock_interruptible` (taken as acquiring the mutex) or of
`mutex_unlock`. -/
inductive LockOp where
  | lock (l : Lock)
  | unlock (l : Lock)
deriving DecidableEq

/-- The lock operations of `elevator_load_floor`, in program order. -/
def elevator_load_floor_locks (current_floor : Int) : List LockOp :=
  [LockOp.lock (Lock.floor current_floor), LockOp.lock Lock.elevator,
   LockOp.unlock Lock.elevator, LockOp.unlock (Lock.floor current_floor)]

/-- The lock operations of `floor_print_buf` on `floors[i]`. -/
def floor_print_buf_locks (i : Int) : List LockOp :=
  [LockOp.lock (Lock.floor i), LockOp.unlock (Lock.floor i)]

/-- The lock operations of a printing call of `elevator_proc_read`, in program
order: the elevator lock is held around the calls of `floor_print_buf`. -/
def elevator_proc_read_locks : List LockOp :=
  [LockOp.lock Lock.elevator] ++ floor_indices.flatMap floor_print_buf_locks ++
    [LockOp.unlock Lock.elevator]

/-- Two threads and the mutexes they hold: the scheduler thread inside
`elevator_load_floor` and a reader inside `elevator_proc_read`, each with the lock
operations it still has to run. -/
structure LockState where
  scheduler : List LockOp
  reader : List LockOp
  scheduler_holds : List Lock
  reader_holds : List Lock
deriving DecidableEq

/-- The next lock operation of a thread that holds `mine` while the other thread
holds `others`; `none` when the thread has finished or is blocked on a held mutex. -/
def thread_step (ops : List LockOp) (mine others : List Lock) :
    Option (List LockOp × List Lock) :=
  match ops with
  | [] => none
  | LockOp.lock l :: rest => if l ∈ others ∨ l ∈ mine then none else some (rest, l :: mine)
  | LockOp.unlock l :: rest => some (rest, mine.erase l)

def step_scheduler (st : LockState) : Option LockState :=
  match thread_step st.scheduler st.scheduler_holds st.reader_holds with
  | none => none
  | some r => some { st with scheduler := r.1, scheduler_holds := r.2 }

def step_reader (st : LockState) : Option LockState :=
  match thread_step st.reader st.reader_holds st.scheduler_holds with
  | none => none
  | some r => some { st with reader := r.1, reader_holds := r.2 }

/-- Both threads still have operations to run and neither can take a step. -/
def deadlocked (st : LockState) : Bool :=
  decide (st.scheduler ≠ []) && decide (st.reader ≠ []) &&
    (step_scheduler st).isNone && (step_reader st).isNone

/-- The state after the threads took steps in the given order (`true` for the
scheduler thread, `false` for the reader). -/
def run_schedule : List Bool → LockState → Option LockState
  | [], st => some st
  | true :: rest, st =>
    match step_scheduler st with
    | none => none
    | some st1 => run_schedule rest st1
  | false :: rest, st =>
    match step_reader st with
    | none => none
    | some st1 => run_schedule rest st1

/-! ## Auxiliary functions used to state and prove the properties -/

/-- The car after loading the passengers `l` one after the other. -/
def load_all (elv : Elevator) (l : List PassengerNode) : Elevator :=
  l.foldl (fun e q => elevator_load_passenger e (some q)) elv

/-- The floor after `k` calls of `floor_dequeue_passenger`. -/
def dequeue_n (k : Nat) (floor : Floor) : Floor :=
  (fun f => (floor_dequeue_passenger f).2)^[k] floor

/-- The passengers at the front of `q` that `should_load` accepts one after the
other, each one tested against the car that holds the ones before. -/
def accepted_front : Elevator → List PassengerNode → List PassengerNode
  | _, [] => []
  | elv, p :: rest =>
    if should_load_passenger elv p then
      p :: accepted_front (elevator_load_passenger elv (some p)) rest
    else []

/-- The weight of a passenger class counted in half units (Child 0.5 is 1). -/
def passenger_half_weight (t : PassengerType) : Int :=
  2 * PASSENGER_WEIGHTS t + (if t = .CHILD then 1 else 0)

/-- Sum of the load units of the passengers of a queue. -/
def units_sum (l : List PassengerNode) : Int :=
  (l.map (fun p => PASSENGER_UNITS p.passenger_type)).sum

/-- Sum of the weights of the passengers of a queue, in half units. -/
def half_weight_sum (l : List PassengerNode) : Int :=
  (l.map (fun p => passenger_half_weight p.passenger_type)).sum

/-- The aggregates of the car describe its onboard queue. -/
def CarConsistent (e : Elevator) : Prop :=
  e.load_in_units = units_sum e.queue ∧
    2 * e.load_in_weight + e.load_in_weight_half = half_weight_sum e.queue ∧
    (e.load_in_weight_half = 0 ∨ e.load_in_weight_half = 1) ∧
    e.num_passengers = (e.queue.length : Int)

/-- The aggregates describe the onboard queue and are within the capacity. -/
def CarSafe (e : Elevator) : Prop :=
  CarConsistent e ∧ e.load_in_units ≤ MAX_LOAD_UNITS ∧
    2 * e.load_in_weight + e.load_in_weight_half < 2 * MAX_LOAD_WEIGHT

/-- The states of the car reached from an empty car by loading passes (at any floor
queue), unloading passes, and any change of position, state and direction in
between. -/
inductive CarReachable : Elevator → Prop where
  | empty (e : Elevator) (hq : e.queue = []) (hn : e.num_passengers = 0)
      (hu : e.load_in_units = 0) (hw : e.load_in_weight = 0)
      (hh : e.load_in_weight_half = 0) : CarReachable e
  | load_floor (e : Elevator) (floor : Floor) (h : CarReachable e) :
      CarReachable (elevator_load_floor e floor).1
  | unload_floor (e : Elevator) (h : CarReachable e) :
      CarReachable (elevator_unload_floor e)
  | moved (e : Elevator) (st dir : ElevatorState) (cur next : Int) (h : CarReachable e) :
      CarReachable
        { e with state := st, direction := dir, current_floor := cur, next_floor := next }

/-- A car that loaded the front of a queue holding an Adult (going up from floor 0): a
concrete reachable state. -/
def reachable_example : Elevator :=
  (elevator_load_floor { elevator_create with state := ElevatorState.UP }
    { floor_create 0 with
      queue := [⟨PassengerType.ADULT, 3⟩], num_waiting := 1, load_in_units := 1,
      load_in_weight := 1 }).1

/-- The car after `issue_request(2, 5, 10)` (an Adult from floor 5 to floor 10,
internally 4 to 9), `start_elevator` and the first scan step: the Adult is onboard,
the car is between floors going up, and `stop_elevator` has just been accepted. -/
def drain_example_top : Elevator :=
  { elevator_create with
    queue := [⟨PassengerType.ADULT, 9⟩], state := ElevatorState.UP,
    direction := ElevatorState.UP, stopping := 1, current_floor := 5, next_floor := 6,
    num_passengers := 1, load_in_units := 1, load_in_weight := 1 }

/-- The same situation with an Adult going from floor 1 to floor 8 (internally 0 to 7). -/
def drain_example_seven : Elevator :=
  { elevator_create with
    queue := [⟨PassengerType.ADULT, 7⟩], state := ElevatorState.UP,
    direction := ElevatorState.UP, stopping := 1, current_floor := 1, next_floor := 2,
    num_passengers := 1, load_in_units := 1, load_in_weight := 1 }

/-- The car at the start of the `for` loop of `elevator_unload_all`. -/
def drain_start (elv : Elevator) : Elevator :=
  { elevator_move_to elv 0 with state := ElevatorState.UP }

/-- The enumerator value of a passenger class (`CHILD` is 0, .., `ROOM_SERVICE` is 3). -/
def PassengerType.toInt : PassengerType → Int
  | .CHILD => 0
  | .ADULT => 1
  | .BELLHOP => 2
  | .ROOM_SERVICE => 3

/-- The weight of a passenger class as a number: Child 0.5, Adult 1, Bellhop 2,
RoomService 3. -/
def passenger_weight (t : PassengerType) : ℚ :=
  match t with
  | .CHILD => 1 / 2
  | .ADULT => 1
  | .BELLHOP => 2
  | .ROOM_SERVICE => 3

/-- Sum of the weights of the passengers of a queue. -/
def weight_sum (l : List PassengerNode) : ℚ :=
  (l.map (fun p => passenger_weight p.passenger_type)).sum

/-- The floors reached from a freshly created floor by calls of
`floor_enqueue_passenger` and `floor_dequeue_passenger`. -/
inductive FloorReachable : Floor → Prop where
  | fresh (floor_num : Int) : FloorReachable (floor_create floor_num)
  | enqueue (f : Floor) (p : PassengerNode) (h : FloorReachable f) :
      FloorReachable (floor_enqueue_passenger f p)
  | dequeue (f : Floor) (h : FloorReachable f) :
      FloorReachable (floor_dequeue_passenger f).2

/-- The cars reached from an empty car by calls of `elevator_load_passenger` and of
`elevator_unload_passenger` (on a passenger of the onboard queue), and by the
passes `elevator_load_floor` and `elevator_unload_floor` built from them. -/
inductive CarOpsReachable : Elevator → Prop where
  | empty (e : Elevator) (hq : e.queue = []) (hn : e.num_passengers = 0)
      (hu : e.load_in_units = 0) (hw : e.load_in_weight = 0)
      (hh : e.load_in_weight_half = 0) : CarOpsReachable e
  | load_passenger (e : Elevator) (p : Option PassengerNode) (h : CarOpsReachable e) :
      CarOpsReachable (elevator_load_passenger e p)
  | unload_passenger (e : Elevator) (p : PassengerNode) (hp : p ∈ e.queue)
      (h : CarOpsReachable e) : CarOpsReachable (elevator_unload_passenger e p)
  | load_floor (e : Elevator) (floor : Floor) (h : CarOpsReachable e) :
      CarOpsReachable (elevator_load_floor e floor).1
  | unload_floor (e : Elevator) (h : CarOpsReachable e) :
      CarOpsReachable (elevator_unload_floor e)

/-- The floor after enqueuing the passengers `l` one after the other. -/
def enqueue_all (floor : Floor) (l : List PassengerNode) : Floor :=
  l.foldl floor_enqueue_passenger floor

/-- The car when it starts a scan at floor `F` with front passenger `p`: the state
written by `elevator_move_to(elv, F)` followed by `elevator_setup_scan`. -/
def scan_start_car (elv : Elevator) (F : Int) (p : PassengerNode) : Elevator :=
  { elv with
    state := if p.destination_floor > F then ElevatorState.UP else ElevatorState.DOWN
    current_floor := F
    next_floor := if p.destination_floor > F then F + 1 else F - 1 }

/-- The state after `issue_request(2, start, dest)` (an Adult) on the initial state
followed by a successful `start_elevator`. -/
def served_example (start dest : Int) : System :=
  { (issue_request system_init true 2 start dest).2 with
    elevator :=
      (elevator_start (issue_request system_init true 2 start dest).2.elevator none).2 }

/-- An idle elevator with an empty car; its other fields are arbitrary. -/
def idle_car (cur next total stopping : Int) (dir : ElevatorState) : Elevator :=
  { queue := [], state := ElevatorState.IDLE, direction := dir, stopping := stopping,
    current_floor := cur, next_floor := next, num_passengers := 0, total_serviced := total,
    load_in_units := 0, load_in_weight := 0, load_in_weight_half := 0 }

/-- Ten fresh floors on which a passenger of class `c1` for floor 7 was enqueued at
floor 2 and a passenger of class `c2` for floor 1 at floor 5, with the car `elv`. -/
def scan_example (c1 c2 : PassengerType) (elv : Elevator) : System :=
  { floors :=
      floors_update
        (floors_update (create_floors_array NUM_FLOORS) 2
          (fun fl => floor_enqueue_passenger fl ⟨c1, 7⟩))
        5 (fun fl => floor_enqueue_passenger fl ⟨c2, 1⟩)
    elevator := elv }

/-- What is observed of a scheduler state: the state and floor of the car, the
onboard queue, the queue of floor 2, the queue of floor 5, and whether every other
floor queue is empty. -/
def scan_snapshot (s : Option System) :
    Option (ElevatorState × Int × List PassengerNode × List PassengerNode ×
      List PassengerNode × Bool) :=
  match s with
  | none => none
  | some s =>
    match floors_get s.floors 2, floors_get s.floors 5 with
    | some f2, some f5 =>
      some (s.elevator.state, s.elevator.current_floor, s.elevator.queue, f2.queue, f5.queue,
        (s.floors.eraseIdx 5).eraseIdx 2 |>.all (fun fl => fl.queue.isEmpty))
    | _, _ => none

/-- The floors at which the `for` loop of `elevator_unload_all` calls
`elevator_unload_floor`: the value of `current_floor` at the start of each of the
`n` iterations. -/
def elevator_unload_all_loop_floors : Nat → Elevator → List Int
  | 0, _ => []
  | n + 1, elv =>
    elv.current_floor ::
      elevator_unload_all_loop_floors n (elevator_step (elevator_unload_floor elv))

/-- A load state with weight 14.5 (not the aggregates of any passenger list). -/
def heavy_half_car : Elevator :=
  { elevator_create with
    state := ElevatorState.UP, direction := ElevatorState.UP, load_in_units := 9,
    load_in_weight := 14, load_in_weight_half := 1 }

/-- The floor array has `NUM_FLOORS` entries and every waiting passenger has a
destination in `0..9` other than the floor it waits on (what `issue_request`
checks before it enqueues). -/
def FloorsOk (floors : List Floor) : Prop :=
  floors.length = NUM_FLOORS ∧
    ∀ (i : Nat) (fl : Floor), floors[i]? = some fl →
      ∀ p ∈ fl.queue, 0 ≤ p.destination_floor ∧ p.destination_floor ≤ 9 ∧
        p.destination_floor ≠ (i : Int)

/-- The car between two scheduler iterations: its aggregates describe the onboard
queue, and either it is idle or offline and empty, or it is on a floor in `0..9`
with `next_floor` the adjacent floor in its direction and every onboard passenger
bound for a floor from the current one on in that direction. -/
def ScanInv (e : Elevator) : Prop :=
  CarConsistent e ∧
    (((e.state = ElevatorState.IDLE ∨ e.state = ElevatorState.OFFLINE) ∧ e.queue = []) ∨
      (e.state = ElevatorState.UP ∧ 0 ≤ e.current_floor ∧ e.current_floor ≤ 9 ∧
        e.next_floor = e.current_floor + 1 ∧
        ∀ p ∈ e.queue, e.current_floor ≤ p.destination_floor ∧ p.destination_floor ≤ 9) ∨
      (e.state = ElevatorState.DOWN ∧ 0 ≤ e.current_floor ∧ e.current_floor ≤ 9 ∧
        e.next_floor = e.current_floor - 1 ∧
        ∀ p ∈ e.queue, 0 ≤ p.destination_floor ∧ p.destination_floor ≤ e.current_floor))

def RunInv (s : System) : Prop :=
  FloorsOk s.floors ∧ ScanInv s.elevator

/-- The states reached from the initial state by `issue_request` calls (with any
arguments and allocation outcome), `elevator_start` calls, and iterations of the
scheduler loop while the elevator is not `OFFLINE`; no `elevator_stop`. -/
inductive RunReachable : System → Prop where
  | init : RunReachable system_init
  | request (s : System) (alloc_ok : Bool) (type start dest : Int) (h : RunReachable s) :
      RunReachable (issue_request s alloc_ok type start dest).2
  | start (s : System) (spawn_error : Option Int) (h : RunReachable s) :
      RunReachable { s with elevator := (elevator_start s.elevator spawn_error).2 }
  | iteration (s s1 : System) (h : RunReachable s)
      (hrun : s.elevator.state ≠ ElevatorState.OFFLINE)
      (hit : elevator_run_iteration s = some s1) : RunReachable s1

/-- A stop and restart with a passenger for the top floor onboard: from the initial
state, `issue_request(2, 5, 10)` (an Adult from floor 5 to floor 10, internally 4 to
9), a successful start, one scheduler iteration (the Adult is loaded), an accepted
`elevator_stop` with its complete drain `elevator_unload_all`, a successful
`elevator_start`, and `issue_request(2, 3, 1)` (an Adult from floor 3 to floor 1,
internally 2 to 0). `none` if one of the calls is refused. -/
def restart_example : Option System :=
  match elevator_run_n 1 (served_example 5 10) with
  | none => none
  | some s3 =>
    let stopped := elevator_stop s3.elevator
    let drained := elevator_unload_all stopped.2.1
    let restarted := elevator_start drained none
    let requested := issue_request { s3 with elevator := restarted.2 } true 2 3 1
    if (issue_request system_init true 2 5 10).1 = 0 ∧ stopped.1 = 0 ∧ stopped.2.2 = true ∧
        restarted.1 = 0 ∧ requested.1 = 0 then
      some requested.2
    else none

/-- The sum of `num_serviced` over the floors. -/
def serviced_sum (floors : List Floor) : Int :=
  (floors.map (fun fl => fl.num_serviced)).sum

/-- A call of `elevator_stop` followed, when the call is accepted, by the complete
run of the drain thread `elevator_unload_all` that it spawns. -/
def stop_and_drain (s : System) : System :=
  if (elevator_stop s.elevator).2.2 = true then
    { s with elevator := elevator_unload_all (elevator_stop s.elevator).2.1 }
  else { s with elevator := (elevator_stop s.elevator).2.1 }

/-- The states reached from the initial state by `issue_request` calls (any 32-bit
arguments, any allocation outcome), `elevator_start` calls, scheduler iterations and
stops with their drain, together with the number of accepted requests whose origin
equals their destination. -/
inductive ServedReachable : System → Int → Prop where
  | init : ServedReachable system_init 0
  | request (s : System) (k : Int) (alloc_ok : Bool) (type start dest : Int)
      (ht : -2147483648 ≤ type ∧ type ≤ 2147483647)
      (hs : -2147483648 ≤ start ∧ start ≤ 2147483647)
      (hd : -2147483648 ≤ dest ∧ dest ≤ 2147483647)
      (h : ServedReachable s k) :
      ServedReachable (issue_request s alloc_ok type start dest).2
        (k + (if (issue_request s alloc_ok type start dest).1 = 0 ∧ start = dest
          then 1 else 0))
  | start (s : System) (k : Int) (spawn_error : Option Int) (h : ServedReachable s k) :
      ServedReachable { s with elevator := (elevator_start s.elevator spawn_error).2 } k
  | iteration (s s1 : System) (k : Int) (h : ServedReachable s k)
      (hit : elevator_run_iteration s = some s1) : ServedReachable s1 k
  | stop (s : System) (k : Int) (h : ServedReachable s k) :
      ServedReachable (stop_and_drain s) k

/-- The balance of the serviced counters with `k` accepted same-floor requests. -/
def ServedInv (s : System) (k : Int) : Prop :=
  s.floors.length = NUM_FLOORS ∧
    serviced_sum s.floors = s.elevator.total_serviced + s.elevator.num_passengers + k

/-- A car going up at floor 3 with one Adult for floor 6 onboard, over ten floors
with a Child for floor 8 waiting on floor 4 and an Adult for floor 0 waiting on
floor 5. -/
def sweep_example : System :=
  { floors :=
      floors_update
        (floors_update (create_floors_array NUM_FLOORS) 4
          (fun fl => floor_enqueue_passenger fl ⟨PassengerType.CHILD, 8⟩))
        5 (fun fl => floor_enqueue_passenger fl ⟨PassengerType.ADULT, 0⟩),
    elevator :=
      { elevator_create with
        queue := [⟨PassengerType.ADULT, 6⟩], state := ElevatorState.UP,
        direction := ElevatorState.UP, current_floor := 3, next_floor := 4,
        num_passengers := 1, load_in_units := 1, load_in_weight := 1 } }

theorem load_all_nil (elv : Elevator) : load_all elv [] = elv := rfl

theorem load_all_cons (elv : Elevator) (p : PassengerNode) (l : List PassengerNode) :
    load_all elv (p :: l) = load_all (elevator_load_passenger elv (some p)) l := rfl

theorem load_all_append (elv : Elevator) (l m : List PassengerNode) :
    load_all elv (l ++ m) = load_all (load_all elv l) m := by
  simp [load_all, List.foldl_append]

theorem load_all_queue (elv : Elevator) (l : List PassengerNode) :
    (load_all elv l).queue = elv.queue ++ l := by
  induction l generalizing elv with
  | nil => simp [load_all_nil]
  | cons p l ih => rw [load_all_cons, ih]; simp [elevator_load_passenger]

theorem load_all_frame (elv : Elevator) (l : List PassengerNode) :
    (load_all elv l).direction = elv.direction ∧ (load_all elv l).state = elv.state ∧
      (load_all elv l).current_floor = elv.current_floor ∧
      (load_all elv l).next_floor = elv.next_floor ∧
      (load_all elv l).stopping = elv.stopping ∧
      (load_all elv l).total_serviced = elv.total_serviced := by
  induction l generalizing elv with
  | nil => simp [load_all_nil]
  | cons p l ih => rw [load_all_cons]; simpa [elevator_load_passenger] using ih _

theorem dequeue_n_zero (floor : Floor) : dequeue_n 0 floor = floor := rfl

theorem dequeue_n_succ (k : Nat) (floor : Floor) :
    dequeue_n (k + 1) floor = dequeue_n k (floor_dequeue_passenger floor).2 := rfl

theorem floor_dequeue_passenger_cons (floor : Floor) (p : PassengerNode)
    (rest : List PassengerNode) (h : floor.queue = p :: rest) :
    (floor_dequeue_passenger floor).1 = some p ∧ (floor_dequeue_passenger floor).2.queue = rest := by
  simp [floor_dequeue_passenger, h]

theorem dequeue_n_queue (k : Nat) (floor : Floor) :
    (dequeue_n k floor).queue = floor.queue.drop k := by
  induction k generalizing floor with
  | zero => simp [dequeue_n_zero]
  | succ k ih =>
    rw [dequeue_n_succ, ih]
    cases hq : floor.queue with
    | nil => simp [floor_dequeue_passenger, hq]
    | cons p rest => simp [(floor_dequeue_passenger_cons floor p rest hq).2]

theorem should_load_passenger_congr (e1 e2 : Elevator) (p : PassengerNode)
    (hd : e1.direction = e2.direction) (hc : e1.current_floor = e2.current_floor)
    (hu : e1.load_in_units = e2.load_in_units) (hw : e1.load_in_weight = e2.load_in_weight)
    (hh : e1.load_in_weight_half = e2.load_in_weight_half) :
    should_load_passenger e1 p = should_load_passenger e2 p := by
  simp [should_load_passenger, should_load_can_fit, should_load_same_direction, hd, hc, hu, hw, hh]

theorem accepted_front_split (elv : Elevator) (q : List PassengerNode) :
    ∃ r, q = accepted_front elv q ++ r ∧
      ∀ p r1, r = p :: r1 → should_load_passenger (load_all elv (accepted_front elv q)) p = false := by
  induction q generalizing elv with
  | nil => exact ⟨[], by simp [accepted_front], by simp⟩
  | cons a q ih =>
    by_cases h : should_load_passenger elv a = true
    · obtain ⟨r, hr, hrej⟩ := ih (elevator_load_passenger elv (some a))
      refine ⟨r, ?_, ?_⟩
      · simp only [accepted_front, h, if_true, List.cons_append]
        rw [← hr]
      · simpa only [accepted_front, h, if_true, load_all_cons] using hrej
    · refine ⟨a :: q, by simp [accepted_front, h], ?_⟩
      intro p r1 hp
      simp only [List.cons.injEq] at hp
      simp only [accepted_front, h, load_all_nil]
      rw [← hp.1]
      simpa using h

theorem accepted_front_chain (elv : Elevator) (q : List PassengerNode) :
    ∀ (i : Nat) (h : i < (accepted_front elv q).length),
      should_load_passenger (load_all elv ((accepted_front elv q).take i))
        ((accepted_front elv q).get ⟨i, h⟩) = true := by
  induction q generalizing elv with
  | nil => intro i h; simp [accepted_front] at h
  | cons a q ih =>
    by_cases ha : should_load_passenger elv a = true
    · intro i h
      have hcons : accepted_front elv (a :: q) =
          a :: accepted_front (elevator_load_passenger elv (some a)) q := by
        simp [accepted_front, ha]
      cases i with
      | zero => simp [hcons, load_all_nil, ha]
      | succ i =>
        have h2 : i < (accepted_front (elevator_load_passenger elv (some a)) q).length := by
          rw [hcons] at h; simpa using h
        have := ih (elevator_load_passenger elv (some a)) i h2
        simpa [hcons, load_all_cons] using this
    · intro i h
      simp [accepted_front, ha] at h

theorem elevator_load_floor_loop_eq (n : Nat) (elv : Elevator) (floor : Floor)
    (h : floor.queue.length ≤ n) :
    elevator_load_floor_loop n elv floor =
      (load_all elv (accepted_front elv floor.queue),
        dequeue_n (accepted_front elv floor.queue).length floor) := by
  induction n generalizing elv floor with
  | zero =>
    have hq : floor.queue = [] := List.length_eq_zero.mp (Nat.le_zero.mp h)
    simp [elevator_load_floor_loop, hq, accepted_front, load_all_nil, dequeue_n_zero]
  | succ n ih =>
    cases hq : floor.queue with
    | nil => simp [elevator_load_floor_loop, hq, accepted_front, load_all_nil, dequeue_n_zero]
    | cons p rest =>
      obtain ⟨hd1, hd2⟩ := floor_dequeue_passenger_cons floor p rest hq
      by_cases hs : should_load_passenger elv p = true
      · have hlen : (floor_dequeue_passenger floor).2.queue.length ≤ n := by
          rw [hd2]; rw [hq] at h; simpa using h
        have := ih (elevator_load_passenger elv (floor_dequeue_passenger floor).1)
          (floor_dequeue_passenger floor).2 hlen
        simp only [elevator_load_floor_loop, hq, should_load, hs, accepted_front, if_true,
          load_all_cons, List.length_cons, dequeue_n_succ]
        simp only [reduceCtorEq, if_false]
        rw [this, hd1, hd2]
      · have hs2 : should_load_passenger elv p = false := by simpa using hs
        simp [elevator_load_floor_loop, hq, should_load, hs2, accepted_front, load_all_nil,
          dequeue_n_zero]

/-- The loading pass in closed form: the accepted front of the queue is moved. -/
theorem elevator_load_floor_eq (elv : Elevator) (floor : Floor) :
    elevator_load_floor elv floor =
      ({ load_all { elv with direction := elv.state, state := .LOADING }
            (accepted_front { elv with direction := elv.state, state := .LOADING } floor.queue)
          with state := elv.state },
        dequeue_n (accepted_front { elv with direction := elv.state, state := .LOADING }
          floor.queue).length floor) := by
  unfold elevator_load_floor
  simp only [elevator_load_floor_loop_eq _ _ _ (le_refl _)]
  simp [(load_all_frame _ _).1]

theorem elevator_load_passenger_same_direction (elv : Elevator) (a p : PassengerNode) :
    should_load_same_direction (elevator_load_passenger elv (some a)) p =
      should_load_same_direction elv p := by
  simp [should_load_same_direction, elevator_load_passenger]

theorem accepted_front_same_direction (elv : Elevator) (q : List PassengerNode) :
    ∀ p ∈ accepted_front elv q, should_load_same_direction elv p = true := by
  induction q generalizing elv with
  | nil => intro p hp; simp [accepted_front] at hp
  | cons a q ih =>
    intro p hp
    by_cases ha : should_load_passenger elv a = true
    · simp only [accepted_front, ha, if_true, List.mem_cons] at hp
      rcases hp with rfl | hp
      · simp only [should_load_passenger, Bool.and_eq_true] at ha
        exact ha.2
      · rw [← elevator_load_passenger_same_direction elv a p]
        exact ih _ p hp
    · simp [accepted_front, ha] at hp

theorem elevator_load_floor_split (elv : Elevator) (floor : Floor) :
    floor.queue =
        accepted_front { elv with direction := elv.state, state := .LOADING } floor.queue ++
          (elevator_load_floor elv floor).2.queue ∧
      (elevator_load_floor elv floor).1.queue = elv.queue ++
        accepted_front { elv with direction := elv.state, state := .LOADING } floor.queue := by
  obtain ⟨r, hr, _⟩ :=
    accepted_front_split { elv with direction := elv.state, state := .LOADING } floor.queue
  rw [elevator_load_floor_eq]
  refine ⟨?_, ?_⟩
  · simp only [dequeue_n_queue]
    generalize accepted_front { elv with direction := elv.state, state := .LOADING }
      floor.queue = A at hr ⊢
    rw [hr]
    simp
  · simp [load_all_queue]

/-! ## Lemmas on unloading -/

theorem elevator_unload_floor_loop_spec (nodes : List PassengerNode) :
    ∀ (elv : Elevator) (kept : List PassengerNode),
      elv.queue = kept ++ nodes →
      (∀ p ∈ kept, p.destination_floor ≠ elv.current_floor) →
      (elevator_unload_floor_loop nodes elv).queue =
          kept ++ nodes.filter (fun p => decide (p.destination_floor ≠ elv.current_floor)) ∧
        (elevator_unload_floor_loop nodes elv).total_serviced = elv.total_serviced +
          ((nodes.filter (fun p => decide (p.destination_floor = elv.current_floor))).length : Int) ∧
        (elevator_unload_floor_loop nodes elv).current_floor = elv.current_floor ∧
        (elevator_unload_floor_loop nodes elv).next_floor = elv.next_floor ∧
        (elevator_unload_floor_loop nodes elv).direction = elv.direction ∧
        (elevator_unload_floor_loop nodes elv).state = elv.state ∧
        (elevator_unload_floor_loop nodes elv).stopping = elv.stopping := by
  induction nodes with
  | nil => intro elv kept hq _; simp [elevator_unload_floor_loop, hq]
  | cons a rest ih =>
    intro elv kept hq hkept
    by_cases ha : a.destination_floor = elv.current_floor
    · have hnot : a ∉ kept := fun hmem => hkept a hmem ha
      have hq2 : (elevator_unload_passenger elv a).queue = kept ++ rest := by
        simp [elevator_unload_passenger, hq, List.erase_append_right _ hnot]
      have hc : (elevator_unload_passenger elv a).current_floor = elv.current_floor := rfl
      have := ih (elevator_unload_passenger elv a) kept hq2 (by rw [hc]; exact hkept)
      simp only [elevator_unload_floor_loop, ha, if_true]
      rw [hc] at this
      obtain ⟨h1, h2, h3, h4, h5, h6, h7⟩ := this
      refine ⟨?_, ?_, h3, h4, h5, h6, h7⟩
      · rw [h1]; simp [ha]
      · rw [h2]; simp [ha, elevator_unload_passenger]; ring
    · have hq2 : elv.queue = (kept ++ [a]) ++ rest := by simp [hq]
      have hk2 : ∀ p ∈ kept ++ [a], p.destination_floor ≠ elv.current_floor := by
        intro p hp
        rcases List.mem_append.mp hp with h | h
        · exact hkept p h
        · simp only [List.mem_singleton] at h; rw [h]; exact ha
      have := ih elv (kept ++ [a]) hq2 hk2
      simp only [elevator_unload_floor_loop, ha, if_false]
      obtain ⟨h1, h2, h3, h4, h5, h6, h7⟩ := this
      refine ⟨?_, ?_, h3, h4, h5, h6, h7⟩
      · rw [h1]; simp [ha]
      · rw [h2]; simp [ha]

/-! ## Lemmas on the aggregates -/

theorem units_sum_cons (p : PassengerNode) (l : List PassengerNode) :
    units_sum (p :: l) = PASSENGER_UNITS p.passenger_type + units_sum l := by
  simp [units_sum]

theorem half_weight_sum_cons (p : PassengerNode) (l : List PassengerNode) :
    half_weight_sum (p :: l) = passenger_half_weight p.passenger_type + half_weight_sum l := by
  simp [half_weight_sum]

theorem units_sum_append (l m : List PassengerNode) :
    units_sum (l ++ m) = units_sum l + units_sum m := by
  simp [units_sum]

theorem half_weight_sum_append (l m : List PassengerNode) :
    half_weight_sum (l ++ m) = half_weight_sum l + half_weight_sum m := by
  simp [half_weight_sum]

theorem passenger_units_pos (t : PassengerType) : 1 ≤ PASSENGER_UNITS t := by
  cases t <;> simp [PASSENGER_UNITS]

theorem passenger_half_weight_bounds (t : PassengerType) :
    1 ≤ passenger_half_weight t ∧ passenger_half_weight t ≤ 3 * PASSENGER_UNITS t := by
  cases t <;> simp [passenger_half_weight, PASSENGER_WEIGHTS, PASSENGER_UNITS]

theorem half_weight_sum_le (l : List PassengerNode) :
    half_weight_sum l ≤ 3 * units_sum l := by
  induction l with
  | nil => simp [half_weight_sum, units_sum]
  | cons p l ih =>
    rw [half_weight_sum_cons, units_sum_cons]
    have := (passenger_half_weight_bounds p.passenger_type).2
    omega

theorem units_sum_filter_le (f : PassengerNode → Bool) (l : List PassengerNode) :
    units_sum (l.filter f) ≤ units_sum l := by
  induction l with
  | nil => simp
  | cons p l ih =>
    have := passenger_units_pos p.passenger_type
    by_cases hf : f p = true
    · simp only [List.filter_cons, hf, if_true, units_sum_cons]; omega
    · simp only [List.filter_cons, hf, units_sum_cons]; simp only [Bool.false_eq_true, if_false]
      omega

theorem half_weight_sum_filter_le (f : PassengerNode → Bool) (l : List PassengerNode) :
    half_weight_sum (l.filter f) ≤ half_weight_sum l := by
  induction l with
  | nil => simp
  | cons p l ih =>
    have := (passenger_half_weight_bounds p.passenger_type).1
    by_cases hf : f p = true
    · simp only [List.filter_cons, hf, if_true, half_weight_sum_cons]; omega
    · simp only [List.filter_cons, hf, half_weight_sum_cons]
      simp only [Bool.false_eq_true, if_false]
      omega

theorem units_sum_erase (p : PassengerNode) (l : List PassengerNode) (h : p ∈ l) :
    units_sum (l.erase p) = units_sum l - PASSENGER_UNITS p.passenger_type := by
  have hp := ((List.perm_cons_erase h).map (fun q => PASSENGER_UNITS q.passenger_type)).sum_eq
  simp only [List.map_cons, List.sum_cons] at hp
  simp only [units_sum]
  omega

theorem half_weight_sum_erase (p : PassengerNode) (l : List PassengerNode) (h : p ∈ l) :
    half_weight_sum (l.erase p) = half_weight_sum l - passenger_half_weight p.passenger_type := by
  have hp := ((List.perm_cons_erase h).map
    (fun q => passenger_half_weight q.passenger_type)).sum_eq
  simp only [List.map_cons, List.sum_cons] at hp
  simp only [half_weight_sum]
  omega

theorem elevator_load_passenger_consistent (e : Elevator) (p : PassengerNode)
    (h : CarConsistent e) : CarConsistent (elevator_load_passenger e (some p)) := by
  obtain ⟨hu, hw, hh, hn⟩ := h
  have hp : passenger_half_weight p.passenger_type =
      2 * PASSENGER_WEIGHTS p.passenger_type +
        (if p.passenger_type = PassengerType.CHILD then 1 else 0) := rfl
  refine ⟨?_, ?_, ?_, ?_⟩
  · simp [elevator_load_passenger, units_sum_append, units_sum_cons, units_sum, hu]
  · simp only [elevator_load_passenger, half_weight_sum_append, half_weight_sum_cons, ← hw, hp,
      c_not]
    simp only [half_weight_sum, List.map_nil, List.sum_nil]
    rcases hh with hh | hh <;> by_cases hc : p.passenger_type = PassengerType.CHILD <;>
      simp [hh, hc, PASSENGER_WEIGHTS] <;> omega
  · simp only [elevator_load_passenger, c_not]
    rcases hh with hh | hh <;> by_cases hc : p.passenger_type = PassengerType.CHILD <;>
      simp [hh, hc]
  · simp [elevator_load_passenger, hn]

theorem elevator_unload_passenger_consistent (e : Elevator) (p : PassengerNode)
    (h : CarConsistent e) (hmem : p ∈ e.queue) :
    CarConsistent (elevator_unload_passenger e p) := by
  obtain ⟨hu, hw, hh, hn⟩ := h
  have hp : passenger_half_weight p.passenger_type =
      2 * PASSENGER_WEIGHTS p.passenger_type +
        (if p.passenger_type = PassengerType.CHILD then 1 else 0) := rfl
  have hpos : 0 < e.queue.length := List.length_pos_of_mem hmem
  refine ⟨?_, ?_, ?_, ?_⟩
  · simp [elevator_unload_passenger, units_sum_erase p e.queue hmem, hu]
  · simp only [elevator_unload_passenger, half_weight_sum_erase p e.queue hmem, ← hw, hp, c_not]
    rcases hh with hh | hh <;> by_cases hc : p.passenger_type = PassengerType.CHILD <;>
      simp [hh, hc, PASSENGER_WEIGHTS] <;> omega
  · simp only [elevator_unload_passenger, c_not]
    rcases hh with hh | hh <;> by_cases hc : p.passenger_type = PassengerType.CHILD <;>
      simp [hh, hc]
  · simp only [elevator_unload_passenger, hn, List.length_erase_of_mem hmem]
    omega

theorem elevator_unload_floor_loop_consistent (nodes : List PassengerNode) :
    ∀ (elv : Elevator) (kept : List PassengerNode),
      elv.queue = kept ++ nodes →
      (∀ p ∈ kept, p.destination_floor ≠ elv.current_floor) →
      CarConsistent elv → CarConsistent (elevator_unload_floor_loop nodes elv) := by
  induction nodes with
  | nil => intro elv kept _ _ hc; simpa [elevator_unload_floor_loop] using hc
  | cons a rest ih =>
    intro elv kept hq hkept hcons
    by_cases ha : a.destination_floor = elv.current_floor
    · have hnot : a ∉ kept := fun hmem => hkept a hmem ha
      have hmem : a ∈ elv.queue := by rw [hq]; simp
      have hq2 : (elevator_unload_passenger elv a).queue = kept ++ rest := by
        simp [elevator_unload_passenger, hq, List.erase_append_right _ hnot]
      have hc : (elevator_unload_passenger elv a).current_floor = elv.current_floor := rfl
      simp only [elevator_unload_floor_loop, ha, if_true]
      exact ih (elevator_unload_passenger elv a) kept hq2 (by rw [hc]; exact hkept)
        (elevator_unload_passenger_consistent elv a hcons hmem)
    · have hq2 : elv.queue = (kept ++ [a]) ++ rest := by simp [hq]
      have hk2 : ∀ p ∈ kept ++ [a], p.destination_floor ≠ elv.current_floor := by
        intro p hp
        rcases List.mem_append.mp hp with h | h
        · exact hkept p h
        · simp only [List.mem_singleton] at h; rw [h]; exact ha
      simp only [elevator_unload_floor_loop, ha, if_false]
      exact ih elv (kept ++ [a]) hq2 hk2 hcons

theorem CarConsistent_congr (e1 e2 : Elevator) (hq : e1.queue = e2.queue)
    (hn : e1.num_passengers = e2.num_passengers) (hu : e1.load_in_units = e2.load_in_units)
    (hw : e1.load_in_weight = e2.load_in_weight)
    (hh : e1.load_in_weight_half = e2.load_in_weight_half) (h : CarConsistent e1) :
    CarConsistent e2 := by
  unfold CarConsistent at *
  rw [← hq, ← hn, ← hu, ← hw, ← hh]; exact h

theorem CarSafe_congr (e1 e2 : Elevator) (hq : e1.queue = e2.queue)
    (hn : e1.num_passengers = e2.num_passengers) (hu : e1.load_in_units = e2.load_in_units)
    (hw : e1.load_in_weight = e2.load_in_weight)
    (hh : e1.load_in_weight_half = e2.load_in_weight_half) (h : CarSafe e1) :
    CarSafe e2 := by
  refine ⟨CarConsistent_congr e1 e2 hq hn hu hw hh h.1, ?_, ?_⟩
  · rw [← hu]; exact h.2.1
  · rw [← hw, ← hh]; exact h.2.2

theorem elevator_load_passenger_safe (e : Elevator) (p : PassengerNode) (h : CarSafe e)
    (hfit : should_load_can_fit e p = true) :
    CarSafe (elevator_load_passenger e (some p)) := by
  refine ⟨elevator_load_passenger_consistent e p h.1, ?_, ?_⟩
  · simp only [should_load_can_fit] at hfit
    have hu : e.load_in_units + PASSENGER_UNITS p.passenger_type ≤ MAX_LOAD_UNITS := by
      split at hfit <;> simp at hfit <;> exact hfit.2
    simpa [elevator_load_passenger] using hu
  · obtain ⟨⟨hu, hw, hh, _⟩, hub, _⟩ := h
    have hle := half_weight_sum_le e.queue
    have hpu := passenger_units_pos p.passenger_type
    simp only [should_load_can_fit, MAX_LOAD_WEIGHT, MAX_LOAD_UNITS] at hfit hub
    simp only [elevator_load_passenger, c_not, MAX_LOAD_WEIGHT]
    rcases hh with hh | hh <;> by_cases hc : p.passenger_type = PassengerType.CHILD <;>
      simp [hh, hc, PASSENGER_WEIGHTS, PASSENGER_UNITS, MAX_LOAD_WEIGHT, MAX_LOAD_UNITS]
        at hfit hpu ⊢ <;> omega

theorem load_all_accepted_front_safe (q : List PassengerNode) :
    ∀ e : Elevator, CarSafe e → CarSafe (load_all e (accepted_front e q)) := by
  induction q with
  | nil => intro e h; simpa [accepted_front, load_all_nil] using h
  | cons a q ih =>
    intro e h
    by_cases ha : should_load_passenger e a = true
    · simp only [accepted_front, ha, if_true, load_all_cons]
      apply ih
      apply elevator_load_passenger_safe e a h
      simp only [should_load_passenger, Bool.and_eq_true] at ha
      exact ha.1
    · simpa [accepted_front, ha, load_all_nil] using h

theorem elevator_load_floor_safe (e : Elevator) (floor : Floor) (h : CarSafe e) :
    CarSafe (elevator_load_floor e floor).1 := by
  rw [elevator_load_floor_eq]
  have h1 : CarSafe { e with direction := e.state, state := ElevatorState.LOADING } :=
    CarSafe_congr e _ rfl rfl rfl rfl rfl h
  exact CarSafe_congr _ _ rfl rfl rfl rfl rfl (load_all_accepted_front_safe floor.queue _ h1)

theorem elevator_unload_floor_safe (e : Elevator) (h : CarSafe e) :
    CarSafe (elevator_unload_floor e) := by
  have h1 : CarConsistent { e with direction := e.state, state := ElevatorState.LOADING } :=
    CarConsistent_congr e _ rfl rfl rfl rfl rfl h.1
  have hc := elevator_unload_floor_loop_consistent e.queue
    { e with direction := e.state, state := ElevatorState.LOADING } [] (by simp) (by simp) h1
  have hc2 : CarConsistent (elevator_unload_floor e) :=
    CarConsistent_congr _ _ rfl rfl rfl rfl rfl hc
  have hq := (elevator_unload_floor_loop_spec e.queue
    { e with direction := e.state, state := ElevatorState.LOADING } [] (by simp) (by simp)).1
  have hq2 : (elevator_unload_floor e).queue =
      e.queue.filter (fun p => decide (p.destination_floor ≠ e.current_floor)) := by
    simpa [elevator_unload_floor] using hq
  obtain ⟨⟨hu, hw, _, _⟩, hub, hwb⟩ := h
  refine ⟨hc2, ?_, ?_⟩
  · rw [hc2.1, hq2]
    have := units_sum_filter_le (fun p => decide (p.destination_floor ≠ e.current_floor)) e.queue
    omega
  · rw [hc2.2.1, hq2]
    have := half_weight_sum_filter_le
      (fun p => decide (p.destination_floor ≠ e.current_floor)) e.queue
    omega

theorem CarReachable_safe (e : Elevator) (h : CarReachable e) : CarSafe e := by
  induction h with
  | empty e hq hn hu hw hh =>
    simp [CarSafe, CarConsistent, hq, hn, hu, hw, hh, units_sum, half_weight_sum,
      MAX_LOAD_UNITS, MAX_LOAD_WEIGHT]
  | load_floor e floor _ ih => exact elevator_load_floor_safe e floor ih
  | unload_floor e _ ih => exact elevator_unload_floor_safe e ih
  | moved e st dir cur next _ ih => exact CarSafe_congr e _ rfl rfl rfl rfl rfl ih

/-! ## Lemmas on moving and on the drain -/

theorem elevator_move_to_loop_arrives (n : Nat) :
    ∀ (elv : Elevator) (dest delta : Int),
      ((delta = 1 ∧ dest - elv.current_floor = n) ∨
        (delta = -1 ∧ elv.current_floor - dest = n)) →
      elevator_move_to_loop n elv dest delta = { elv with current_floor := dest } := by
  induction n with
  | zero =>
    intro elv dest delta h
    have hc : elv.current_floor = dest := by omega
    simp [elevator_move_to_loop, ← hc]
  | succ n ih =>
    intro elv dest delta h
    have hc : elv.current_floor ≠ dest := by omega
    simp only [elevator_move_to_loop, hc, ne_eq, not_false_eq_true, if_true]
    rw [ih { elv with current_floor := elv.current_floor + delta } dest delta
      (by simp only; omega)]

/-- The loop of `elevator_move_to` ends with the car at `dest_floor`; nothing but
`state`, `next_floor` and `current_floor` is written. -/
theorem elevator_move_to_eq (elv : Elevator) (dest_floor : Int) :
    elevator_move_to elv dest_floor =
      { elv with
        state := if dest_floor > elv.current_floor then ElevatorState.UP
          else ElevatorState.DOWN
        next_floor := dest_floor
        current_floor := dest_floor } := by
  unfold elevator_move_to
  rw [elevator_move_to_loop_arrives]
  by_cases h : dest_floor > elv.current_floor
  · left; simp only [h, if_true]; exact ⟨trivial, by omega⟩
  · right; simp only [h, if_false]; exact ⟨trivial, by omega⟩

theorem elevator_unload_floor_frame (elv : Elevator) :
    (elevator_unload_floor elv).state = elv.state ∧
      (elevator_unload_floor elv).direction = elv.state ∧
      (elevator_unload_floor elv).current_floor = elv.current_floor ∧
      (elevator_unload_floor elv).next_floor = elv.next_floor ∧
      (elevator_unload_floor elv).stopping = elv.stopping := by
  obtain ⟨_, _, h3, h4, h5, _, h7⟩ := elevator_unload_floor_loop_spec elv.queue
    { elv with direction := elv.state, state := ElevatorState.LOADING } [] (by simp) (by simp)
  simp only [elevator_unload_floor]
  exact ⟨h5, h5, h3, h4, h7⟩

theorem elevator_unload_floor_queue (elv : Elevator) :
    (elevator_unload_floor elv).queue =
      elv.queue.filter (fun p => decide (p.destination_floor ≠ elv.current_floor)) := by
  have h := (elevator_unload_floor_loop_spec elv.queue
    { elv with direction := elv.state, state := ElevatorState.LOADING } [] (by simp) (by simp)).1
  simpa [elevator_unload_floor] using h

/-- A sweep of `n` unload passes going up from a car whose next floor is the one
above: the passes are at floors `current_floor .. current_floor + n - 1`. -/
theorem elevator_unload_all_loop_sweep (n : Nat) :
    ∀ elv : Elevator, elv.state = ElevatorState.UP → elv.next_floor = elv.current_floor + 1 →
      (elevator_unload_all_loop n elv).queue =
          elv.queue.filter (fun p => decide (p.destination_floor < elv.current_floor ∨
            elv.current_floor + n ≤ p.destination_floor)) ∧
        (elevator_unload_all_loop n elv).current_floor = elv.current_floor + n := by
  induction n with
  | zero =>
    intro elv _ _
    refine ⟨?_, by simp [elevator_unload_all_loop]⟩
    simp only [elevator_unload_all_loop, Nat.cast_zero, add_zero]
    symm
    rw [List.filter_eq_self]
    intro p _
    simp only [decide_eq_true_eq]
    omega
  | succ n ih =>
    intro elv hs hn
    obtain ⟨f1, _, f3, f4, _⟩ := elevator_unload_floor_frame elv
    have hq := elevator_unload_floor_queue elv
    have hs2 : (elevator_step (elevator_unload_floor elv)).state = ElevatorState.UP := by
      simp [elevator_step, f1, hs]
    have hc2 : (elevator_step (elevator_unload_floor elv)).current_floor =
        elv.current_floor + 1 := by
      simp [elevator_step, f4, hn]
    have hn2 : (elevator_step (elevator_unload_floor elv)).next_floor =
        (elevator_step (elevator_unload_floor elv)).current_floor + 1 := by
      simp [elevator_step, f1, hs]
    have hq2 : (elevator_step (elevator_unload_floor elv)).queue =
        elv.queue.filter (fun p => decide (p.destination_floor ≠ elv.current_floor)) := by
      simpa [elevator_step] using hq
    obtain ⟨i1, i2⟩ := ih (elevator_step (elevator_unload_floor elv)) hs2 hn2
    simp only [elevator_unload_all_loop]
    refine ⟨?_, by rw [i2, hc2]; push_cast; ring⟩
    rw [i1, hq2, hc2, List.filter_filter]
    apply List.filter_congr
    intro p _
    simp only [Bool.and_eq_true, decide_eq_true_eq, Nat.cast_add, Nat.cast_one]
    by_cases h1 : p.destination_floor < elv.current_floor <;>
      by_cases h2 : elv.current_floor + ((n : Int) + 1) ≤ p.destination_floor <;>
      simp [h1, h2] <;> omega

/-- The drain in closed form: the unload passes are at floors 0, 0, 1, .., 8, so the
passengers left onboard are those whose destination is not in 0..8, and the car
ends at floor 9 in state `OFFLINE`. -/
theorem elevator_unload_all_queue (elv : Elevator) :
    (elevator_unload_all elv).queue =
        elv.queue.filter (fun p => decide (p.destination_floor < 0 ∨ 9 ≤ p.destination_floor)) ∧
      (elevator_unload_all elv).current_floor = 9 ∧
      (elevator_unload_all elv).state = ElevatorState.OFFLINE := by
  have hloop : elevator_unload_all_loop (MAX_FLOOR + 1).toNat
      { elevator_move_to elv 0 with state := ElevatorState.UP } =
      elevator_unload_all_loop 9 (elevator_step (elevator_unload_floor
        { elevator_move_to elv 0 with state := ElevatorState.UP })) := rfl
  obtain ⟨f1, _, f3, f4, _⟩ := elevator_unload_floor_frame
    { elevator_move_to elv 0 with state := ElevatorState.UP }
  have hq := elevator_unload_floor_queue
    { elevator_move_to elv 0 with state := ElevatorState.UP }
  simp only [elevator_move_to_eq] at f1 f3 f4 hq
  have hs2 : (elevator_step (elevator_unload_floor
      { elevator_move_to elv 0 with state := ElevatorState.UP })).state = ElevatorState.UP := by
    simp [elevator_step, elevator_move_to_eq, f1]
  have hc2 : (elevator_step (elevator_unload_floor
      { elevator_move_to elv 0 with state := ElevatorState.UP })).current_floor = 0 := by
    simp [elevator_step, elevator_move_to_eq, f4]
  have hn2 : (elevator_step (elevator_unload_floor
      { elevator_move_to elv 0 with state := ElevatorState.UP })).next_floor =
      (elevator_step (elevator_unload_floor
        { elevator_move_to elv 0 with state := ElevatorState.UP })).current_floor + 1 := by
    simp [elevator_step, elevator_move_to_eq, f1, f4]
  have hq2 : (elevator_step (elevator_unload_floor
      { elevator_move_to elv 0 with state := ElevatorState.UP })).queue =
      elv.queue.filter (fun p => decide (p.destination_floor ≠ 0)) := by
    simpa [elevator_step, elevator_move_to_eq] using hq
  obtain ⟨i1, i2⟩ := elevator_unload_all_loop_sweep 9 _ hs2 hn2
  simp only [elevator_unload_all, hloop]
  refine ⟨?_, by rw [i2, hc2]; norm_num, trivial⟩
  rw [i1, hq2, hc2, List.filter_filter]
  apply List.filter_congr
  intro p _
  by_cases h1 : p.destination_floor < 0 <;> by_cases h2 : 9 ≤ p.destination_floor <;>
    simp [h1, h2] <;> omega

/-- The drain is ten iterations of its loop from `drain_start`, then `OFFLINE`. -/
theorem elevator_unload_all_eq_loop (elv : Elevator) :
    elevator_unload_all elv =
      { elevator_unload_all_loop 10 (drain_start elv) with state := ElevatorState.OFFLINE } :=
  rfl

/-- The car after `k + 1` iterations of the drain loop is the car after `k`
iterations followed by one more unload pass and step. -/
theorem elevator_unload_all_loop_succ (k : Nat) (elv : Elevator) :
    elevator_unload_all_loop (k + 1) elv =
      elevator_step (elevator_unload_floor (elevator_unload_all_loop k elv)) := by
  induction k generalizing elv with
  | zero => rfl
  | succ k ih =>
    have h : elevator_unload_all_loop (k + 1 + 1) elv =
        elevator_unload_all_loop (k + 1) (elevator_step (elevator_unload_floor elv)) := rfl
    rw [h, ih]
    rfl

/-! ## Lemmas on the floor aggregates and on weights as numbers -/

theorem passenger_half_weight_cast (t : PassengerType) :
    ((passenger_half_weight t : Int) : ℚ) = 2 * passenger_weight t := by
  cases t <;> simp [passenger_half_weight, passenger_weight, PASSENGER_WEIGHTS] <;> norm_num

theorem half_weight_sum_cast (l : List PassengerNode) :
    ((half_weight_sum l : Int) : ℚ) = 2 * weight_sum l := by
  induction l with
  | nil => simp [half_weight_sum, weight_sum]
  | cons p l ih =>
    have hw : weight_sum (p :: l) = passenger_weight p.passenger_type + weight_sum l := by
      simp [weight_sum]
    rw [half_weight_sum_cons, hw]
    push_cast
    rw [ih, passenger_half_weight_cast]
    ring

/-- From the integer form of the weight aggregate (in half units) to the effective
weight `load_in_weight + 0.5 * load_in_weight_half`. -/
theorem effective_weight_of_half_units (w h : Int) (l : List PassengerNode)
    (hw : 2 * w + h = half_weight_sum l) :
    (w : ℚ) + (1 / 2 : ℚ) * (h : ℚ) = weight_sum l := by
  have hq : ((2 * w + h : Int) : ℚ) = ((half_weight_sum l : Int) : ℚ) := by rw [hw]
  rw [half_weight_sum_cast] at hq
  push_cast at hq
  linarith

/-- The aggregates of a floor describe its queue (weights in half units). -/
theorem FloorReachable_consistent (f : Floor) (h : FloorReachable f) :
    f.num_waiting = (f.queue.length : Int) ∧ f.load_in_units = units_sum f.queue ∧
      2 * f.load_in_weight + f.load_in_weight_half = half_weight_sum f.queue ∧
      (f.load_in_weight_half = 0 ∨ f.load_in_weight_half = 1) := by
  induction h with
  | fresh n => simp [floor_create, units_sum, half_weight_sum]
  | enqueue f p _ ih =>
    obtain ⟨hn, hu, hw, hh⟩ := ih
    have hp : passenger_half_weight p.passenger_type =
        2 * PASSENGER_WEIGHTS p.passenger_type +
          (if p.passenger_type = PassengerType.CHILD then 1 else 0) := rfl
    refine ⟨?_, ?_, ?_, ?_⟩
    · simp [floor_enqueue_passenger, hn]
    · simp [floor_enqueue_passenger, units_sum_append, units_sum_cons, units_sum, hu]
    · simp only [floor_enqueue_passenger, half_weight_sum_append, half_weight_sum_cons, ← hw,
        hp, c_not]
      simp only [half_weight_sum, List.map_nil, List.sum_nil]
      rcases hh with hh | hh <;> by_cases hc : p.passenger_type = PassengerType.CHILD <;>
        simp [hh, hc, PASSENGER_WEIGHTS] <;> omega
    · simp only [floor_enqueue_passenger, c_not]
      rcases hh with hh | hh <;> by_cases hc : p.passenger_type = PassengerType.CHILD <;>
        simp [hh, hc]
  | dequeue f _ ih =>
    obtain ⟨hn, hu, hw, hh⟩ := ih
    cases hq : f.queue with
    | nil =>
      have hsame : (floor_dequeue_passenger f).2 = f := by simp [floor_dequeue_passenger, hq]
      rw [hsame]
      exact ⟨hn, hu, hw, hh⟩
    | cons p rest =>
      have hp : passenger_half_weight p.passenger_type =
          2 * PASSENGER_WEIGHTS p.passenger_type +
            (if p.passenger_type = PassengerType.CHILD then 1 else 0) := rfl
      rw [hq] at hn hu hw
      rw [units_sum_cons] at hu
      rw [half_weight_sum_cons, hp] at hw
      refine ⟨?_, ?_, ?_, ?_⟩
      · simp only [floor_dequeue_passenger, hq, hn, List.length_cons]
        push_cast
        ring
      · simp only [floor_dequeue_passenger, hq, hu]
        ring
      · simp only [floor_dequeue_passenger, hq, c_not]
        rcases hh with hh | hh <;> by_cases hc : p.passenger_type = PassengerType.CHILD <;>
          simp [hh, hc, PASSENGER_WEIGHTS] at hw ⊢ <;> omega
      · simp only [floor_dequeue_passenger, hq, c_not]
        rcases hh with hh | hh <;> by_cases hc : p.passenger_type = PassengerType.CHILD <;>
          simp [hh, hc]

theorem load_all_consistent (l : List PassengerNode) :
    ∀ e : Elevator, CarConsistent e → CarConsistent (load_all e l) := by
  induction l with
  | nil => intro e h; simpa [load_all_nil] using h
  | cons p l ih =>
    intro e h
    rw [load_all_cons]
    exact ih _ (elevator_load_passenger_consistent e p h)

theorem elevator_load_floor_consistent (e : Elevator) (floor : Floor) (h : CarConsistent e) :
    CarConsistent (elevator_load_floor e floor).1 := by
  rw [elevator_load_floor_eq]
  have h1 : CarConsistent { e with direction := e.state, state := ElevatorState.LOADING } :=
    CarConsistent_congr e _ rfl rfl rfl rfl rfl h
  exact CarConsistent_congr _ _ rfl rfl rfl rfl rfl (load_all_consistent _ _ h1)

theorem elevator_unload_floor_consistent (e : Elevator) (h : CarConsistent e) :
    CarConsistent (elevator_unload_floor e) := by
  have h1 : CarConsistent { e with direction := e.state, state := ElevatorState.LOADING } :=
    CarConsistent_congr e _ rfl rfl rfl rfl rfl h
  have hc := elevator_unload_floor_loop_consistent e.queue
    { e with direction := e.state, state := ElevatorState.LOADING } [] (by simp) (by simp) h1
  exact CarConsistent_congr _ _ rfl rfl rfl rfl rfl hc

theorem CarOpsReachable_consistent (e : Elevator) (h : CarOpsReachable e) :
    CarConsistent e := by
  induction h with
  | empty e hq hn hu hw hh =>
    simp [CarConsistent, hq, hn, hu, hw, hh, units_sum, half_weight_sum]
  | load_passenger e p _ ih =>
    cases p with
    | none => simpa [elevator_load_passenger] using ih
    | some p => exact elevator_load_passenger_consistent e p ih
  | unload_passenger e p hp _ ih => exact elevator_unload_passenger_consistent e p ih hp
  | load_floor e floor _ ih => exact elevator_load_floor_consistent e floor ih
  | unload_floor e _ ih => exact elevator_unload_floor_consistent e ih

/-! ## Lemmas on the `stopping` flag and on the floor queue -/

theorem elevator_load_floor_frame (e : Elevator) (floor : Floor) :
    (elevator_load_floor e floor).1.state = e.state ∧
      (elevator_load_floor e floor).1.direction = e.state ∧
      (elevator_load_floor e floor).1.current_floor = e.current_floor ∧
      (elevator_load_floor e floor).1.next_floor = e.next_floor ∧
      (elevator_load_floor e floor).1.stopping = e.stopping ∧
      (elevator_load_floor e floor).1.total_serviced = e.total_serviced := by
  rw [elevator_load_floor_eq]
  obtain ⟨h1, _, h3, h4, h5, h6⟩ := load_all_frame
    { e with direction := e.state, state := ElevatorState.LOADING }
    (accepted_front { e with direction := e.state, state := ElevatorState.LOADING } floor.queue)
  exact ⟨rfl, h1, h3, h4, h5, h6⟩

theorem enqueue_all_append (floor : Floor) (l m : List PassengerNode) :
    enqueue_all floor (l ++ m) = enqueue_all (enqueue_all floor l) m := by
  simp [enqueue_all, List.foldl_append]

theorem enqueue_all_queue (l : List PassengerNode) :
    ∀ floor : Floor, (enqueue_all floor l).queue = floor.queue ++ l := by
  induction l with
  | nil => intro floor; simp [enqueue_all]
  | cons p l ih =>
    intro floor
    have h : enqueue_all floor (p :: l) = enqueue_all (floor_enqueue_passenger floor p) l := rfl
    rw [h, ih]
    simp [floor_enqueue_passenger]

theorem floor_dequeue_passenger_counters (floor : Floor) (p : PassengerNode)
    (rest : List PassengerNode) (h : floor.queue = p :: rest) :
    (floor_dequeue_passenger floor).2.num_serviced = floor.num_serviced + 1 ∧
      (floor_dequeue_passenger floor).2.num_waiting = floor.num_waiting - 1 := by
  simp [floor_dequeue_passenger, h]

/-! ## Lemmas on starting a scan -/

theorem floors_get_ofNat (floors : List Floor) (j : Nat) :
    floors_get floors (j : Int) = floors[j]? := by
  simp [floors_get]

theorem elevator_try_to_start_scan_loop_skip (pre : List Int) :
    ∀ (rest : List Int) (s : System),
      (∀ i ∈ pre, ∃ fl, floors_get s.floors i = some fl ∧ fl.queue = []) →
      elevator_try_to_start_scan_loop (pre ++ rest) s =
        elevator_try_to_start_scan_loop rest s := by
  induction pre with
  | nil => intro rest s _; rfl
  | cons i pre ih =>
    intro rest s h
    obtain ⟨fl, hfl, hq⟩ := h i (List.mem_cons_self i pre)
    have hrest := ih rest s (fun j hj => h j (List.mem_cons_of_mem i hj))
    simp only [List.cons_append, elevator_try_to_start_scan_loop, hfl]
    rw [if_neg (by simp [hq])]
    exact hrest

theorem floor_indices_split (F : Nat) (hF : F < 10) :
    ∃ post, floor_indices = (List.range F).map Int.ofNat ++ (F : Int) :: post := by
  interval_cases F <;> exact ⟨_, rfl⟩

theorem floor_indices_mem (i : Int) (h : i ∈ floor_indices) :
    ∃ j : Nat, j < 10 ∧ i = (j : Int) := by
  simp only [floor_indices, List.mem_map, List.mem_range] at h
  obtain ⟨j, hj, rfl⟩ := h
  exact ⟨j, by simpa [MAX_FLOOR] using hj, rfl⟩

/-- With no waiting passenger on any floor the call only yields. -/
theorem elevator_try_to_start_scan_idle (s : System) (hlen : s.floors.length = NUM_FLOORS)
    (hempty : ∀ fl ∈ s.floors, fl.queue = []) : elevator_try_to_start_scan s = some s := by
  have h := elevator_try_to_start_scan_loop_skip floor_indices [] s (by
    intro i hi
    obtain ⟨j, hj, rfl⟩ := floor_indices_mem i hi
    have hjl : j < s.floors.length := by rw [hlen]; exact hj
    exact ⟨s.floors[j], by rw [floors_get_ofNat]; exact List.getElem?_eq_getElem hjl,
      hempty _ (List.getElem_mem hjl)⟩)
  rw [List.append_nil] at h
  rw [elevator_try_to_start_scan, h]
  rfl

/-- The call in closed form when `F` is the lowest floor with a waiting passenger:
the loading pass runs on floor `F` from the car `scan_start_car`, then the car steps. -/
theorem elevator_try_to_start_scan_eq (s : System) (F : Nat) (flF : Floor) (p : PassengerNode)
    (rest : List PassengerNode) (hF : F < 10) (hget : s.floors[F]? = some flF)
    (hq : flF.queue = p :: rest)
    (hlow : ∀ j < F, ∃ fl, s.floors[j]? = some fl ∧ fl.queue = []) :
    elevator_try_to_start_scan s =
      some { floors := s.floors.set F (elevator_load_floor (scan_start_car s.elevator F p) flF).2,
             elevator := elevator_step
               (elevator_load_floor (scan_start_car s.elevator F p) flF).1 } := by
  obtain ⟨post, hpost⟩ := floor_indices_split F hF
  have hskip := elevator_try_to_start_scan_loop_skip ((List.range F).map Int.ofNat)
    ((F : Int) :: post) s (by
      intro i hi
      simp only [List.mem_map, List.mem_range] at hi
      obtain ⟨j, hj, rfl⟩ := hi
      obtain ⟨fl, hfl, hfq⟩ := hlow j hj
      exact ⟨fl, by rw [← hfl]; exact floors_get_ofNat s.floors j, hfq⟩)
  have hgetF : floors_get s.floors (F : Int) = some flF := by rw [floors_get_ofNat, hget]
  have hne : flF.queue ≠ [] := by simp [hq]
  rw [elevator_try_to_start_scan, hpost, hskip]
  simp only [elevator_try_to_start_scan_loop, hgetF]
  rw [if_pos hne]
  simp only [system_setup_scan, elevator_move_to_eq, hgetF, elevator_setup_scan, hq,
    system_load_floor, Int.toNat_ofNat, scan_start_car]
  by_cases hd : p.destination_floor > (F : Int) <;> simp [hd]

theorem elevator_run_n_succ_of (n : Nat) (s s1 : System)
    (h : elevator_run_iteration s = some s1) :
    elevator_run_n (n + 1) s = elevator_run_n n s1 := by
  simp only [elevator_run_n, h]

/-- The first scheduler iteration of the two-passenger scenario, for any idle car. -/
theorem scan_example_first_iteration (c1 c2 : PassengerType)
    (cur next total stopping : Int) (dir : ElevatorState) :
    elevator_run_iteration (scan_example c1 c2 (idle_car cur next total stopping dir)) =
      some { floors := (scan_example c1 c2 (idle_car cur next total stopping dir)).floors.set 2
               (elevator_load_floor
                 (scan_start_car (idle_car cur next total stopping dir) 2 ⟨c1, 7⟩)
                 (floor_enqueue_passenger (floor_create 2) ⟨c1, 7⟩)).2,
             elevator := elevator_step
               (elevator_load_floor
                 (scan_start_car (idle_car cur next total stopping dir) 2 ⟨c1, 7⟩)
                 (floor_enqueue_passenger (floor_create 2) ⟨c1, 7⟩)).1 } := by
  have h := elevator_try_to_start_scan_eq
    (scan_example c1 c2 (idle_car cur next total stopping dir)) 2
    (floor_enqueue_passenger (floor_create 2) ⟨c1, 7⟩) ⟨c1, 7⟩ [] (by decide) rfl rfl (by
      intro j hj
      interval_cases j
      · exact ⟨floor_create 0, rfl, rfl⟩
      · exact ⟨floor_create 1, rfl, rfl⟩)
  have hidle : (scan_example c1 c2 (idle_car cur next total stopping dir)).elevator.state =
      ElevatorState.IDLE := rfl
  rw [elevator_run_iteration, if_pos hidle]
  exact h

/-! ## Lemmas on the floors of the drain passes and on the moves -/

/-- The car after the first pass and step of the drain: still at floor 0. -/
theorem drain_after_first_pass (elv : Elevator) :
    (elevator_step (elevator_unload_floor (drain_start elv))).state = ElevatorState.UP ∧
      (elevator_step (elevator_unload_floor (drain_start elv))).current_floor = 0 ∧
      (elevator_step (elevator_unload_floor (drain_start elv))).next_floor = 1 := by
  obtain ⟨f1, _, _, f4, _⟩ := elevator_unload_floor_frame (drain_start elv)
  simp only [drain_start, elevator_move_to_eq] at f1 f4
  refine ⟨?_, ?_, ?_⟩
  · simp [elevator_step, drain_start, elevator_move_to_eq, f1]
  · simp [elevator_step, drain_start, elevator_move_to_eq, f4]
  · simp [elevator_step, drain_start, elevator_move_to_eq, f1, f4]

theorem elevator_unload_all_loop_floors_sweep (n : Nat) :
    ∀ elv : Elevator, elv.state = ElevatorState.UP → elv.next_floor = elv.current_floor + 1 →
      elevator_unload_all_loop_floors n elv =
        (List.range n).map (fun (i : Nat) => elv.current_floor + (i : Int)) := by
  induction n with
  | zero => intro elv _ _; rfl
  | succ n ih =>
    intro elv hs hn
    obtain ⟨f1, _, f3, f4, _⟩ := elevator_unload_floor_frame elv
    have hs2 : (elevator_step (elevator_unload_floor elv)).state = ElevatorState.UP := by
      simp [elevator_step, f1, hs]
    have hc2 : (elevator_step (elevator_unload_floor elv)).current_floor =
        elv.current_floor + 1 := by
      simp [elevator_step, f4, hn]
    have hn2 : (elevator_step (elevator_unload_floor elv)).next_floor =
        (elevator_step (elevator_unload_floor elv)).current_floor + 1 := by
      simp [elevator_step, f1, hs]
    simp only [elevator_unload_all_loop_floors]
    rw [ih _ hs2 hn2, hc2, List.range_succ_eq_map]
    simp only [List.map_cons, List.map_map, Nat.cast_zero, add_zero, List.cons.injEq, true_and]
    apply List.map_congr_left
    intro i _
    simp only [Function.comp_apply, Nat.cast_succ]
    ring

theorem elevator_move_to_loop_progress (k : Nat) :
    ∀ (elv : Elevator) (dest delta : Int),
      ((delta = 1 ∧ (k : Int) ≤ dest - elv.current_floor) ∨
        (delta = -1 ∧ (k : Int) ≤ elv.current_floor - dest)) →
      (elevator_move_to_loop k elv dest delta).current_floor =
        elv.current_floor + (k : Int) * delta := by
  induction k with
  | zero => intro elv dest delta _; simp [elevator_move_to_loop]
  | succ k ih =>
    intro elv dest delta h
    have hc : elv.current_floor ≠ dest := by
      rcases h with ⟨_, h⟩ | ⟨_, h⟩ <;> push_cast at h <;> omega
    simp only [elevator_move_to_loop, hc, ne_eq, not_false_eq_true, if_true]
    rw [ih { elv with current_floor := elv.current_floor + delta } dest delta (by
      rcases h with ⟨hd, h⟩ | ⟨hd, h⟩ <;> push_cast at h <;> simp only [hd]
      · left; exact ⟨trivial, by omega⟩
      · right; exact ⟨trivial, by omega⟩)]
    push_cast
    ring

theorem elevator_move_to_loop_done (m : Nat) (elv : Elevator) (dest delta : Int)
    (h : elv.current_floor = dest) : elevator_move_to_loop m elv dest delta = elv := by
  cases m with
  | zero => rfl
  | succ m => simp [elevator_move_to_loop, h]

theorem elevator_move_to_loop_add (k : Nat) :
    ∀ (m : Nat) (elv : Elevator) (dest delta : Int),
      elevator_move_to_loop (k + m) elv dest delta =
        elevator_move_to_loop m (elevator_move_to_loop k elv dest delta) dest delta := by
  induction k with
  | zero => intro m elv dest delta; simp [elevator_move_to_loop]
  | succ k ih =>
    intro m elv dest delta
    have hk : k + 1 + m = (k + m) + 1 := by omega
    rw [hk]
    by_cases hc : elv.current_floor = dest
    · simp only [elevator_move_to_loop, hc, ne_eq, not_true_eq_false, if_false]
      rw [elevator_move_to_loop_done m _ _ _ hc]
    · simp only [elevator_move_to_loop, hc, ne_eq, not_false_eq_true, if_true]
      exact ih m _ dest delta

/-! ## Lemmas on the status text -/

theorem c_format_int (rest : List Char) (i : Int) (args : List FormatArg) :
    c_format ('%' :: 'd' :: rest) (FormatArg.int i :: args) =
      (toString i).toList ++ c_format rest args := by
  simp [c_format]

theorem c_format_str (rest : List Char) (t : String) (args : List FormatArg) :
    c_format ('%' :: 's' :: rest) (FormatArg.str t :: args) =
      t.toList ++ c_format rest args := by
  simp [c_format]

/-- Characters other than `%` are copied. -/
theorem c_format_lit (l : List Char) :
    ∀ (rest : List Char) (args : List FormatArg), '%' ∉ l →
      c_format (l ++ rest) args = l ++ c_format rest args := by
  induction l with
  | nil => intro rest args _; rfl
  | cons c l ih =>
    intro rest args h
    have hc : c ≠ '%' := fun hc => h (by simp [hc])
    have hl : '%' ∉ l := fun hl => h (List.mem_cons_of_mem c hl)
    have hrec := ih rest args hl
    cases hlr : l ++ rest with
    | nil =>
      have hl0 : l = [] := (List.append_eq_nil.mp hlr).1
      have hr0 : rest = [] := (List.append_eq_nil.mp hlr).2
      subst hl0 hr0
      simp [c_format]
    | cons d tl =>
      rw [hlr] at hrec
      simp only [List.cons_append, hlr, c_format, hc, false_and, if_false]
      rw [hrec]

set_option maxRecDepth 100000 in
theorem elevator_print_format_segments :
    elevator_print_format.toList =
      "Elevator status\nState: \t\t\t".toList ++ '%' :: 's' ::
      ("\nFloor:\t\t\t".toList ++ '%' :: 'd' ::
      ("\nNext floor:\t\t".toList ++ '%' :: 'd' ::
      ("\nLoad (weight):\t\t".toList ++ '%' :: 'd' ::
      (".".toList ++ '%' :: 'd' ::
      ("\nLoad (units):\t\t".toList ++ '%' :: 'd' ::
      ("\nNum serviced:\t\t".toList ++ '%' :: 'd' ::
      ("\n--------------------------------------------------------------\n".toList ++
        []))))))) := by
  decide

set_option maxRecDepth 100000 in
theorem floor_print_format_segments :
    floor_print_format.toList =
      "Floor ".toList ++ '%' :: 'd' ::
      (" status\nLoad (weight):\t\t".toList ++ '%' :: 'd' ::
      (".".toList ++ '%' :: 'd' ::
      ("\nLoad (units):\t\t".toList ++ '%' :: 'd' ::
      ("\nTotal waiting:\t\t".toList ++ '%' :: 'd' ::
      ("\nTotal serviced:\t\t".toList ++ '%' :: 'd' ::
      ("\n--------------------------------------------------------------\n".toList ++
        [])))))) := by
  decide

theorem half_digit (h : Int) :
    (toString (if h ≠ 0 then (5 : Int) else 0)).toList = if h ≠ 0 then ['5'] else ['0'] := by
  by_cases hh : h ≠ 0
  · rw [if_pos hh, if_pos hh]; decide
  · rw [if_neg hh, if_neg hh]; decide

/-- With ten floors the reader gets the elevator text and then the ten floor texts. -/
theorem elevator_proc_read_eq (s : System) (hlen : s.floors.length = NUM_FLOORS) :
    elevator_proc_read s =
      some (elevator_print_buf s.elevator ++ s.floors.flatMap floor_print_buf) := by
  obtain ⟨floors, e⟩ := s
  simp only at hlen
  rcases floors with _ | ⟨f0, _ | ⟨f1, _ | ⟨f2, _ | ⟨f3, _ | ⟨f4, _ | ⟨f5, _ | ⟨f6, _ | ⟨f7, _ | ⟨f8, _ | ⟨f9, _ | ⟨f10, tl⟩⟩⟩⟩⟩⟩⟩⟩⟩⟩⟩
  all_goals first
    | (simp only [List.length_cons, List.length_nil, NUM_FLOORS] at hlen; omega)
    | simp [elevator_proc_read, floor_indices, MAX_FLOOR, List.range, List.range.loop,
        elevator_proc_read_floors, floors_get]

/-! ## Lemmas on the scheduler invariant -/

theorem floors_get_of_range (floors : List Floor) (hlen : floors.length = NUM_FLOORS)
    (i : Int) (h0 : 0 ≤ i) (h9 : i ≤ 9) :
    ∃ fl, floors_get floors i = some fl ∧ floors[i.toNat]? = some fl := by
  have hi : i.toNat < floors.length := by rw [hlen]; simp only [NUM_FLOORS]; omega
  exact ⟨floors[i.toNat], by simp [floors_get, h0, List.getElem?_eq_getElem hi],
    List.getElem?_eq_getElem hi⟩

theorem floors_get_eq_some (floors : List Floor) (i : Int) (fl : Floor)
    (h : floors_get floors i = some fl) : 0 ≤ i ∧ floors[i.toNat]? = some fl := by
  unfold floors_get at h
  by_cases h0 : 0 ≤ i
  · rw [if_pos h0] at h; exact ⟨h0, h⟩
  · rw [if_neg h0] at h; cases h

theorem FloorsOk_set (floors : List Floor) (k : Nat) (fl1 : Floor) (h : FloorsOk floors)
    (hq : ∀ p ∈ fl1.queue, 0 ≤ p.destination_floor ∧ p.destination_floor ≤ 9 ∧
      p.destination_floor ≠ (k : Int)) :
    FloorsOk (floors.set k fl1) := by
  refine ⟨by rw [List.length_set]; exact h.1, ?_⟩
  intro i fl hfl p hp
  by_cases hki : k = i
  · subst hki
    rw [List.getElem?_set] at hfl
    simp only [if_true] at hfl
    by_cases hk : k < floors.length
    · rw [if_pos hk] at hfl
      simp only [Option.some.injEq] at hfl
      rw [← hfl] at hp
      exact hq p hp
    · rw [if_neg hk] at hfl
      cases hfl
  · rw [List.getElem?_set_ne hki] at hfl
    exact h.2 i fl hfl p hp

theorem FloorsOk_update (floors : List Floor) (i : Int) (f : Floor → Floor)
    (h : FloorsOk floors)
    (hf : ∀ fl : Floor,
      (∀ p ∈ fl.queue, 0 ≤ p.destination_floor ∧ p.destination_floor ≤ 9 ∧
        p.destination_floor ≠ i) →
      ∀ p ∈ (f fl).queue, 0 ≤ p.destination_floor ∧ p.destination_floor ≤ 9 ∧
        p.destination_floor ≠ i) :
    FloorsOk (floors_update floors i f) := by
  unfold floors_update
  by_cases h0 : 0 ≤ i
  · rw [if_pos h0]
    have hcast : ((i.toNat : Nat) : Int) = i := Int.toNat_of_nonneg h0
    cases hget : floors[i.toNat]? with
    | none => exact h
    | some fl =>
      apply FloorsOk_set floors i.toNat (f fl) h
      rw [hcast]
      apply hf fl
      have := h.2 i.toNat fl hget
      rw [hcast] at this
      exact this
  · rw [if_neg h0]; exact h

theorem issue_request_FloorsOk (s : System) (alloc_ok : Bool) (type start dest : Int)
    (h : FloorsOk s.floors) : FloorsOk (issue_request s alloc_ok type start dest).2.floors := by
  unfold issue_request
  simp only [MIN_FLOOR, MAX_FLOOR, NUM_PASSENGER_TYPES, passenger_node_create]
  generalize int32_wrap (start - 1) = a
  generalize int32_wrap (dest - 1) = b
  generalize int32_wrap (type - 1) = t
  split_ifs with h1 h2 h3 h4
  · exact h
  · exact h
  · exact FloorsOk_update _ _ _ h (fun fl hfl p hp => hfl p hp)
  · apply FloorsOk_update _ _ _ h
    intro fl hfl p hp
    simp only [floor_enqueue_passenger, List.mem_append, List.mem_singleton] at hp
    rcases hp with hp | hp
    · exact hfl p hp
    · rw [hp]
      simp only
      omega
  · exact h

theorem issue_request_elevator (s : System) (alloc_ok : Bool) (type start dest : Int) :
    (issue_request s alloc_ok type start dest).2.elevator = s.elevator := by
  unfold issue_request
  simp only [passenger_node_create]
  split_ifs <;> rfl

/-- Where the passengers of the two queues come from after a loading pass. -/
theorem elevator_load_floor_members (e : Elevator) (fl : Floor) :
    (∀ q ∈ (elevator_load_floor e fl).2.queue, q ∈ fl.queue) ∧
      (∀ q ∈ (elevator_load_floor e fl).1.queue,
        q ∈ e.queue ∨
          (q ∈ fl.queue ∧
            ((e.state = ElevatorState.UP ∧ q.destination_floor > e.current_floor) ∨
              (e.state = ElevatorState.DOWN ∧ q.destination_floor < e.current_floor)))) := by
  obtain ⟨hsplit, hq⟩ := elevator_load_floor_split e fl
  have hdir := accepted_front_same_direction
    { e with direction := e.state, state := ElevatorState.LOADING } fl.queue
  refine ⟨?_, ?_⟩
  · intro q hmem
    rw [hsplit]
    exact List.mem_append_right _ hmem
  · intro q hmem
    rw [hq] at hmem
    rcases List.mem_append.mp hmem with h | h
    · exact Or.inl h
    · refine Or.inr ⟨by rw [hsplit]; exact List.mem_append_left _ h, ?_⟩
      have := hdir q h
      simpa [should_load_same_direction] using this

theorem system_init_RunInv : RunInv system_init := by
  refine ⟨⟨rfl, ?_⟩, ?_, Or.inl ⟨Or.inr rfl, rfl⟩⟩
  · intro i fl hfl p hp
    simp only [system_init, create_floors_array, List.getElem?_map] at hfl
    cases hr : (List.range NUM_FLOORS)[i]? with
    | none => rw [hr] at hfl; cases hfl
    | some j =>
      rw [hr] at hfl
      simp only [Option.map_some', Option.some.injEq] at hfl
      rw [← hfl] at hp
      simp [floor_create] at hp
  · simp [CarConsistent, system_init, elevator_create, units_sum, half_weight_sum]

theorem elevator_step_fields (e : Elevator) :
    (elevator_step e).state = e.state ∧ (elevator_step e).queue = e.queue ∧
      (elevator_step e).current_floor = e.next_floor ∧
      (elevator_step e).next_floor =
        e.next_floor + (if e.state = ElevatorState.UP then 1 else -1) := by
  simp [elevator_step]

theorem elevator_step_consistent (e : Elevator) (h : CarConsistent e) :
    CarConsistent (elevator_step e) :=
  CarConsistent_congr e _ rfl rfl rfl rfl rfl h

/-- The scheduler invariant after a scan was started at floor `i`. -/
theorem scan_start_inv (floors : List Floor) (e : Elevator) (i : Int) (fl : Floor)
    (p : PassengerNode) (rest : List PassengerNode) (hf : FloorsOk floors)
    (hc : CarConsistent e) (hq : e.queue = []) (h0 : 0 ≤ i) (h9 : i ≤ 9)
    (hget : floors[i.toNat]? = some fl) (hfq : fl.queue = p :: rest) :
    RunInv { floors := floors.set i.toNat (elevator_load_floor (scan_start_car e i p) fl).2,
             elevator := elevator_step (elevator_load_floor (scan_start_car e i p) fl).1 } := by
  have hcast : ((i.toNat : Nat) : Int) = i := Int.toNat_of_nonneg h0
  have hfl := hf.2 i.toNat fl hget
  rw [hcast] at hfl
  obtain ⟨hm2, hm1⟩ := elevator_load_floor_members (scan_start_car e i p) fl
  obtain ⟨l1, _, _, l4, _⟩ := elevator_load_floor_frame (scan_start_car e i p) fl
  obtain ⟨s1, s2, s3, s4⟩ :=
    elevator_step_fields (elevator_load_floor (scan_start_car e i p) fl).1
  have hc1 : CarConsistent (scan_start_car e i p) := CarConsistent_congr e _ rfl rfl rfl rfl rfl hc
  have hc2 := elevator_step_consistent _ (elevator_load_floor_consistent _ fl hc1)
  have hp := hfl p (by rw [hfq]; exact List.mem_cons_self p rest)
  have hstart_q : (scan_start_car e i p).queue = [] := hq
  have hstart_c : (scan_start_car e i p).current_floor = i := rfl
  refine ⟨FloorsOk_set floors i.toNat _ hf ?_, hc2, ?_⟩
  · intro q hq2
    rw [hcast]
    exact hfl q (hm2 q hq2)
  · by_cases hd : p.destination_floor > i
    · have hst : (scan_start_car e i p).state = ElevatorState.UP := by
        simp [scan_start_car, hd]
      have hnx : (scan_start_car e i p).next_floor = i + 1 := by simp [scan_start_car, hd]
      right; left
      rw [s1, s3, s4, s2, l1, l4, hst, hnx]
      refine ⟨rfl, by omega, by omega, by simp, ?_⟩
      intro q hq2
      rcases hm1 q hq2 with h | ⟨hmem, h⟩
      · rw [hstart_q] at h; cases h
      · have hb := hfl q hmem
        rw [hst, hstart_c] at h
        rcases h with ⟨_, h⟩ | ⟨h, _⟩
        · omega
        · cases h
    · have hst : (scan_start_car e i p).state = ElevatorState.DOWN := by
        simp [scan_start_car, hd]
      have hnx : (scan_start_car e i p).next_floor = i - 1 := by simp [scan_start_car, hd]
      right; right
      rw [s1, s3, s4, s2, l1, l4, hst, hnx]
      refine ⟨rfl, by omega, by omega, by simp; ring, ?_⟩
      intro q hq2
      rcases hm1 q hq2 with h | ⟨hmem, h⟩
      · rw [hstart_q] at h; cases h
      · have hb := hfl q hmem
        rw [hst, hstart_c] at h
        rcases h with ⟨h, _⟩ | ⟨_, h⟩
        · cases h
        · omega

/-- The body of the loop of `elevator_try_to_start_scan` at a floor with a waiting
passenger, in closed form. -/
theorem scan_start_body_eq (s : System) (i : Int) (fl : Floor) (p : PassengerNode)
    (rest : List PassengerNode) (hget : floors_get s.floors i = some fl)
    (hq : fl.queue = p :: rest) :
    (match system_setup_scan { s with elevator := elevator_move_to s.elevator i } with
      | none => none
      | some s1 =>
        match system_load_floor s1 with
        | none => none
        | some s2 => some { s2 with elevator := elevator_step s2.elevator }) =
      some { floors := s.floors.set i.toNat
               (elevator_load_floor (scan_start_car s.elevator i p) fl).2,
             elevator := elevator_step
               (elevator_load_floor (scan_start_car s.elevator i p) fl).1 } := by
  simp only [system_setup_scan, elevator_move_to_eq, hget, elevator_setup_scan, hq,
    system_load_floor, scan_start_car]
  by_cases hd : p.destination_floor > i <;> simp [hd]

theorem elevator_try_to_start_scan_loop_inv (is : List Int) :
    ∀ s : System, (∀ i ∈ is, 0 ≤ i ∧ i ≤ 9) → FloorsOk s.floors →
      CarConsistent s.elevator → s.elevator.queue = [] →
      s.elevator.state = ElevatorState.IDLE →
      ∃ s1, elevator_try_to_start_scan_loop is s = some s1 ∧ RunInv s1 := by
  induction is with
  | nil =>
    intro s _ hf hc hq hst
    exact ⟨s, rfl, hf, hc, Or.inl ⟨Or.inl hst, hq⟩⟩
  | cons i rest ih =>
    intro s his hf hc hq hst
    obtain ⟨h0, h9⟩ := his i (List.mem_cons_self i rest)
    obtain ⟨fl, hget, hidx⟩ := floors_get_of_range s.floors hf.1 i h0 h9
    simp only [elevator_try_to_start_scan_loop, hget]
    cases hfq : fl.queue with
    | nil =>
      rw [if_neg (by simp)]
      exact ih s (fun j hj => his j (List.mem_cons_of_mem i hj)) hf hc hq hst
    | cons p tl =>
      rw [if_pos (by simp)]
      rw [scan_start_body_eq s i fl p tl hget hfq]
      exact ⟨_, rfl, scan_start_inv s.floors s.elevator i fl p tl hf hc hq h0 h9 hidx hfq⟩

theorem floor_indices_range (i : Int) (h : i ∈ floor_indices) : 0 ≤ i ∧ i ≤ 9 := by
  obtain ⟨j, hj, rfl⟩ := floor_indices_mem i h
  omega

/-- A stop cycle keeps the scheduler invariant, and its floor lookup is in range. -/
theorem stop_cycle_inv (s : System) (hf : FloorsOk s.floors) (hc : CarConsistent s.elevator)
    (hmove : (s.elevator.state = ElevatorState.UP ∧ 0 ≤ s.elevator.current_floor ∧
        s.elevator.current_floor ≤ 9 ∧ s.elevator.next_floor = s.elevator.current_floor + 1 ∧
        ∀ p ∈ s.elevator.queue, s.elevator.current_floor ≤ p.destination_floor ∧
          p.destination_floor ≤ 9) ∨
      (s.elevator.state = ElevatorState.DOWN ∧ 0 ≤ s.elevator.current_floor ∧
        s.elevator.current_floor ≤ 9 ∧ s.elevator.next_floor = s.elevator.current_floor - 1 ∧
        ∀ p ∈ s.elevator.queue, 0 ≤ p.destination_floor ∧
          p.destination_floor ≤ s.elevator.current_floor)) :
    ∃ s1, elevator_run_iteration s = some s1 ∧ RunInv s1 := by
  have hidle : s.elevator.state ≠ ElevatorState.IDLE := by
    rcases hmove with ⟨h, _⟩ | ⟨h, _⟩ <;> rw [h] <;> decide
  obtain ⟨u1, _, u3, u4, _⟩ := elevator_unload_floor_frame s.elevator
  have uq := elevator_unload_floor_queue s.elevator
  have uc := elevator_unload_floor_consistent s.elevator hc
  have h0 : 0 ≤ s.elevator.current_floor := by
    rcases hmove with ⟨_, h, _⟩ | ⟨_, h, _⟩ <;> exact h
  have h9 : s.elevator.current_floor ≤ 9 := by
    rcases hmove with ⟨_, _, h, _⟩ | ⟨_, _, h, _⟩ <;> exact h
  have hcast : ((s.elevator.current_floor.toNat : Nat) : Int) = s.elevator.current_floor :=
    Int.toNat_of_nonneg h0
  by_cases hn : (elevator_unload_floor s.elevator).num_passengers = 0
  · refine ⟨{ floors := s.floors,
              elevator := { elevator_unload_floor s.elevator with
                            state := ElevatorState.IDLE } }, ?_, hf,
      CarConsistent_congr _ _ rfl rfl rfl rfl rfl uc, Or.inl ⟨Or.inl rfl, ?_⟩⟩
    · simp only [elevator_run_iteration, if_neg hidle, hn, if_true]
    · have hlen := uc.2.2.2
      rw [hn] at hlen
      exact List.length_eq_zero.mp (by exact_mod_cast hlen.symm)
  · obtain ⟨fl, hget, hidx⟩ := floors_get_of_range s.floors hf.1 _ h0 h9
    have hfl := hf.2 _ fl hidx
    rw [hcast] at hfl
    obtain ⟨hm2, hm1⟩ := elevator_load_floor_members (elevator_unload_floor s.elevator) fl
    obtain ⟨l1, _, _, l4, _⟩ := elevator_load_floor_frame (elevator_unload_floor s.elevator) fl
    obtain ⟨s1, s2, s3, s4⟩ :=
      elevator_step_fields (elevator_load_floor (elevator_unload_floor s.elevator) fl).1
    have hc2 := elevator_step_consistent _ (elevator_load_floor_consistent _ fl uc)
    have hne : (elevator_unload_floor s.elevator).queue ≠ [] := by
      intro hq
      apply hn
      rw [uc.2.2.2, hq]
      rfl
    obtain ⟨w, hw⟩ := List.exists_mem_of_ne_nil _ hne
    rw [uq, List.mem_filter] at hw
    have hwd : w.destination_floor ≠ s.elevator.current_floor := by simpa using hw.2
    refine ⟨{ floors := s.floors.set s.elevator.current_floor.toNat
                (elevator_load_floor (elevator_unload_floor s.elevator) fl).2,
              elevator := elevator_step
                (elevator_load_floor (elevator_unload_floor s.elevator) fl).1 }, ?_,
      FloorsOk_set _ _ _ hf ?_, hc2, ?_⟩
    · simp only [elevator_run_iteration, if_neg hidle, if_neg hn, system_load_floor, u3, hget]
    · intro q hq2
      rw [hcast]
      exact hfl q (hm2 q hq2)
    · rcases hmove with ⟨hst, _, _, hnx, hall⟩ | ⟨hst, _, _, hnx, hall⟩
      · have hwb := hall w hw.1
        right; left
        rw [s1, s3, s4, s2, l1, l4, u1, u4, hst, hnx]
        refine ⟨rfl, by omega, by omega, by simp, ?_⟩
        intro q hq2
        rcases hm1 q hq2 with h | ⟨hmem, h⟩
        · rw [uq, List.mem_filter] at h
          have hqd : q.destination_floor ≠ s.elevator.current_floor := by simpa using h.2
          have hqb := hall q h.1
          omega
        · have hb := hfl q hmem
          rw [u1, u3, hst] at h
          rcases h with ⟨_, h⟩ | ⟨h, _⟩
          · omega
          · cases h
      · have hwb := hall w hw.1
        right; right
        rw [s1, s3, s4, s2, l1, l4, u1, u4, hst, hnx]
        refine ⟨rfl, by omega, by omega, by simp; ring, ?_⟩
        intro q hq2
        rcases hm1 q hq2 with h | ⟨hmem, h⟩
        · rw [uq, List.mem_filter] at h
          have hqd : q.destination_floor ≠ s.elevator.current_floor := by simpa using h.2
          have hqb := hall q h.1
          omega
        · have hb := hfl q hmem
          rw [u1, u3, hst] at h
          rcases h with ⟨h, _⟩ | ⟨_, h⟩
          · cases h
          · omega

/-- Every iteration of the scheduler from a state that satisfies the invariant, with
the elevator not `OFFLINE`, succeeds (no floor lookup out of range) and keeps it. -/
theorem elevator_run_iteration_inv (s : System) (h : RunInv s)
    (hrun : s.elevator.state ≠ ElevatorState.OFFLINE) :
    ∃ s1, elevator_run_iteration s = some s1 ∧ RunInv s1 := by
  obtain ⟨hf, hc, hcases⟩ := h
  rcases hcases with ⟨hst, hq⟩ | hup | hdown
  · have hidle : s.elevator.state = ElevatorState.IDLE := by
      rcases hst with h | h
      · exact h
      · exact absurd h hrun
    obtain ⟨s1, h1, h2⟩ := elevator_try_to_start_scan_loop_inv floor_indices s
      floor_indices_range hf hc hq hidle
    exact ⟨s1, by rw [elevator_run_iteration, if_pos hidle]; exact h1, h2⟩
  · exact stop_cycle_inv s hf hc (Or.inl hup)
  · exact stop_cycle_inv s hf hc (Or.inr hdown)

theorem RunReachable_inv (s : System) (h : RunReachable s) : RunInv s := by
  induction h with
  | init => exact system_init_RunInv
  | request s alloc_ok type start dest _ ih =>
    refine ⟨issue_request_FloorsOk s alloc_ok type start dest ih.1, ?_⟩
    rw [issue_request_elevator]
    exact ih.2
  | start s spawn_error _ ih =>
    refine ⟨ih.1, ?_⟩
    by_cases hoff : s.elevator.state = ElevatorState.OFFLINE
    · obtain ⟨hc, hcases⟩ := ih.2
      have hq : s.elevator.queue = [] := by
        rcases hcases with ⟨_, hq⟩ | ⟨h, _⟩ | ⟨h, _⟩
        · exact hq
        · rw [hoff] at h; cases h
        · rw [hoff] at h; cases h
      have hst : (elevator_start s.elevator spawn_error).2 =
          { s.elevator with state := ElevatorState.IDLE, stopping := 0 } := by
        cases spawn_error <;> simp [elevator_start, hoff]
      simp only [hst]
      exact ⟨CarConsistent_congr s.elevator _ rfl rfl rfl rfl rfl hc, Or.inl ⟨Or.inl rfl, hq⟩⟩
    · have hst : (elevator_start s.elevator spawn_error).2 = s.elevator := by
        simp [elevator_start, hoff]
      simp only [hst]
      exact ih.2
  | iteration s s1 _ hrun hit ih =>
    obtain ⟨s2, h2, hinv⟩ := elevator_run_iteration_inv s ih hrun
    rw [hit] at h2
    cases h2
    exact hinv

/-- With ten floors, the lookup of `elevator_load_floor` fails exactly when
`current_floor` is outside `0..9`. -/
theorem system_load_floor_eq_none_iff (s : System) (hlen : s.floors.length = NUM_FLOORS) :
    system_load_floor s = none ↔ (s.elevator.current_floor < 0 ∨ 9 < s.elevator.current_floor) := by
  constructor
  · intro h
    by_contra hc
    obtain ⟨fl, hget, _⟩ := floors_get_of_range s.floors hlen s.elevator.current_floor
      (by omega) (by omega)
    simp [system_load_floor, hget] at h
  · intro h
    have hget : floors_get s.floors s.elevator.current_floor = none := by
      unfold floors_get
      by_cases h0 : 0 ≤ s.elevator.current_floor
      · rw [if_pos h0]
        apply List.getElem?_eq_none
        rw [hlen]
        simp only [NUM_FLOORS]
        omega
      · rw [if_neg h0]
    simp [system_load_floor, hget]

/-! ## Lemmas on the passenger counters -/

theorem load_all_num_passengers (l : List PassengerNode) :
    ∀ e : Elevator, (load_all e l).num_passengers = e.num_passengers + (l.length : Int) := by
  induction l with
  | nil => intro e; simp [load_all_nil]
  | cons p l ih =>
    intro e
    rw [load_all_cons, ih]
    simp only [elevator_load_passenger, List.length_cons]
    push_cast
    ring

theorem elevator_load_floor_num_passengers (e : Elevator) (fl : Floor) :
    (elevator_load_floor e fl).1.num_passengers - ((elevator_load_floor e fl).1.queue.length : Int)
      = e.num_passengers - (e.queue.length : Int) := by
  have hq := (elevator_load_floor_split e fl).2
  rw [hq, elevator_load_floor_eq]
  simp only [load_all_num_passengers, List.length_append]
  push_cast
  ring

/-- An empty car accepts the front passenger of any class that is bound for a floor
ahead in the direction of the car. -/
theorem should_load_passenger_empty_car (e : Elevator) (p : PassengerNode)
    (hu : e.load_in_units = 0) (hw : e.load_in_weight = 0) (hh : e.load_in_weight_half = 0)
    (hd : (e.direction = ElevatorState.UP ∧ p.destination_floor > e.current_floor) ∨
      (e.direction = ElevatorState.DOWN ∧ p.destination_floor < e.current_floor)) :
    should_load_passenger e p = true := by
  have hfit : should_load_can_fit e p = true := by
    simp only [should_load_can_fit, hu, hw, hh, MAX_LOAD_WEIGHT, MAX_LOAD_UNITS]
    cases hc : p.passenger_type <;> simp [PASSENGER_WEIGHTS, PASSENGER_UNITS]
  have hdir : should_load_same_direction e p = true := by
    simp only [should_load_same_direction]
    rcases hd with ⟨h1, h2⟩ | ⟨h1, h2⟩ <;> simp [h1, h2]
  simp [should_load_passenger, hfit, hdir]

/-! ## Lemmas on the serviced counters -/

theorem serviced_sum_set (floors : List Floor) :
    ∀ (i : Nat) (fl fl1 : Floor), floors[i]? = some fl →
      serviced_sum (floors.set i fl1) =
        serviced_sum floors - fl.num_serviced + fl1.num_serviced := by
  induction floors with
  | nil => intro i fl fl1 h; simp at h
  | cons x xs ih =>
    intro i fl fl1 h
    cases i with
    | zero =>
      simp only [List.getElem?_cons_zero, Option.some.injEq] at h
      subst h
      simp only [serviced_sum, List.set_cons_zero, List.map_cons, List.sum_cons]
      ring
    | succ j =>
      simp only [List.getElem?_cons_succ] at h
      have := ih j fl fl1 h
      simp only [serviced_sum] at this
      simp only [serviced_sum, List.set_cons_succ, List.map_cons, List.sum_cons, this]
      ring

theorem elevator_load_floor_loop_counters (n : Nat) :
    ∀ (e : Elevator) (fl : Floor),
      (elevator_load_floor_loop n e fl).1.num_passengers -
          (elevator_load_floor_loop n e fl).2.num_serviced =
        e.num_passengers - fl.num_serviced ∧
      (elevator_load_floor_loop n e fl).1.total_serviced = e.total_serviced := by
  induction n with
  | zero => intro e fl; simp [elevator_load_floor_loop]
  | succ n ih =>
    intro e fl
    cases hq : fl.queue with
    | nil => simp [elevator_load_floor_loop, hq]
    | cons p rest =>
      by_cases hs : should_load_passenger e p = true
      · obtain ⟨hd1, _⟩ := floor_dequeue_passenger_cons fl p rest hq
        obtain ⟨hc1, _⟩ := floor_dequeue_passenger_counters fl p rest hq
        obtain ⟨i1, i2⟩ := ih (elevator_load_passenger e (floor_dequeue_passenger fl).1)
          (floor_dequeue_passenger fl).2
        simp only [elevator_load_floor_loop, hq, should_load, hs, reduceCtorEq, if_false]
        rw [i1, i2, hc1, hd1]
        simp only [elevator_load_passenger]
        exact ⟨by ring, trivial⟩
      · have hs2 : should_load_passenger e p = false := by simpa using hs
        simp [elevator_load_floor_loop, hq, should_load, hs2]

theorem elevator_load_floor_counters (e : Elevator) (fl : Floor) :
    (elevator_load_floor e fl).1.num_passengers - (elevator_load_floor e fl).2.num_serviced =
        e.num_passengers - fl.num_serviced ∧
      (elevator_load_floor e fl).1.total_serviced = e.total_serviced := by
  obtain ⟨h1, h2⟩ := elevator_load_floor_loop_counters fl.queue.length
    { e with direction := e.state, state := ElevatorState.LOADING } fl
  exact ⟨h1, h2⟩

theorem elevator_unload_floor_loop_counters (nodes : List PassengerNode) :
    ∀ e : Elevator,
      (elevator_unload_floor_loop nodes e).total_serviced +
          (elevator_unload_floor_loop nodes e).num_passengers =
        e.total_serviced + e.num_passengers := by
  induction nodes with
  | nil => intro e; rfl
  | cons a rest ih =>
    intro e
    by_cases ha : a.destination_floor = e.current_floor
    · simp only [elevator_unload_floor_loop, ha, if_true]
      rw [ih]
      simp only [elevator_unload_passenger]
      ring
    · simp only [elevator_unload_floor_loop, ha, if_false]
      exact ih e

theorem elevator_unload_floor_counters (e : Elevator) :
    (elevator_unload_floor e).total_serviced + (elevator_unload_floor e).num_passengers =
      e.total_serviced + e.num_passengers := by
  have h := elevator_unload_floor_loop_counters e.queue
    { e with direction := e.state, state := ElevatorState.LOADING }
  exact h

theorem elevator_unload_all_loop_counters (n : Nat) :
    ∀ e : Elevator,
      (elevator_unload_all_loop n e).total_serviced +
          (elevator_unload_all_loop n e).num_passengers =
        e.total_serviced + e.num_passengers := by
  induction n with
  | zero => intro e; rfl
  | succ n ih =>
    intro e
    simp only [elevator_unload_all_loop]
    rw [ih]
    exact elevator_unload_floor_counters e

theorem elevator_unload_all_counters (e : Elevator) :
    (elevator_unload_all e).total_serviced + (elevator_unload_all e).num_passengers =
      e.total_serviced + e.num_passengers := by
  rw [elevator_unload_all_eq_loop]
  have h := elevator_unload_all_loop_counters 10 (drain_start e)
  simp only [drain_start, elevator_move_to_eq] at h
  simpa [drain_start, elevator_move_to_eq] using h

/-- A loading pass on `floors[idx]` keeps the balance of the floor counters and the
car counters. -/
theorem load_at_counters (floors : List Floor) (idx : Nat) (fl : Floor) (e : Elevator)
    (hget : floors[idx]? = some fl) :
    serviced_sum (floors.set idx (elevator_load_floor e fl).2) -
        (elevator_load_floor e fl).1.num_passengers =
      serviced_sum floors - e.num_passengers ∧
    (elevator_load_floor e fl).1.total_serviced = e.total_serviced := by
  obtain ⟨h1, h2⟩ := elevator_load_floor_counters e fl
  refine ⟨?_, h2⟩
  rw [serviced_sum_set floors idx fl _ hget]
  omega

theorem system_load_floor_ServedInv (s s1 : System) (k : Int) (h : ServedInv s k)
    (hl : system_load_floor s = some s1) : ServedInv s1 k := by
  unfold system_load_floor at hl
  cases hf : floors_get s.floors s.elevator.current_floor with
  | none => simp [hf] at hl
  | some fl =>
    simp only [hf, Option.some.injEq] at hl
    obtain ⟨_, hidx⟩ := floors_get_eq_some _ _ _ hf
    obtain ⟨c1, c2⟩ := load_at_counters s.floors _ fl s.elevator hidx
    rw [← hl]
    refine ⟨by simp only [List.length_set]; exact h.1, ?_⟩
    simp only
    rw [c2]
    have := h.2
    omega

theorem scan_start_ServedInv (s : System) (k : Int) (i : Int) (fl : Floor) (p : PassengerNode)
    (h : ServedInv s k) (hget : floors_get s.floors i = some fl) :
    ServedInv
      { floors := s.floors.set i.toNat (elevator_load_floor (scan_start_car s.elevator i p) fl).2,
        elevator := elevator_step (elevator_load_floor (scan_start_car s.elevator i p) fl).1 }
      k := by
  obtain ⟨_, hidx⟩ := floors_get_eq_some _ _ _ hget
  obtain ⟨c1, c2⟩ := load_at_counters s.floors _ fl (scan_start_car s.elevator i p) hidx
  have hn : (scan_start_car s.elevator i p).num_passengers = s.elevator.num_passengers := rfl
  have ht : (scan_start_car s.elevator i p).total_serviced = s.elevator.total_serviced := rfl
  refine ⟨by simp only [List.length_set]; exact h.1, ?_⟩
  simp only [elevator_step]
  rw [c2, ht]
  have := h.2
  omega

theorem elevator_try_to_start_scan_loop_ServedInv (is : List Int) :
    ∀ (s s1 : System) (k : Int), ServedInv s k →
      elevator_try_to_start_scan_loop is s = some s1 → ServedInv s1 k := by
  induction is with
  | nil =>
    intro s s1 k h hl
    simp only [elevator_try_to_start_scan_loop, Option.some.injEq] at hl
    rw [← hl]; exact h
  | cons i rest ih =>
    intro s s1 k h hl
    simp only [elevator_try_to_start_scan_loop] at hl
    cases hf : floors_get s.floors i with
    | none => simp [hf] at hl
    | some fl =>
      simp only [hf] at hl
      cases hq : fl.queue with
      | nil =>
        rw [if_neg (by simp [hq])] at hl
        exact ih s s1 k h hl
      | cons p tl =>
        rw [if_pos (by simp [hq]), scan_start_body_eq s i fl p tl hf hq] at hl
        simp only [Option.some.injEq] at hl
        rw [← hl]
        exact scan_start_ServedInv s k i fl p h hf

theorem elevator_run_iteration_ServedInv (s s1 : System) (k : Int) (h : ServedInv s k)
    (hit : elevator_run_iteration s = some s1) : ServedInv s1 k := by
  unfold elevator_run_iteration at hit
  by_cases hi : s.elevator.state = ElevatorState.IDLE
  · rw [if_pos hi] at hit
    exact elevator_try_to_start_scan_loop_ServedInv _ s s1 k h hit
  · rw [if_neg hi] at hit
    have hu := elevator_unload_floor_counters s.elevator
    have hinv : ServedInv { s with elevator := elevator_unload_floor s.elevator } k := by
      refine ⟨h.1, ?_⟩
      have := h.2
      simp only
      omega
    by_cases hn : (elevator_unload_floor s.elevator).num_passengers = 0
    · rw [if_pos hn] at hit
      simp only [Option.some.injEq] at hit
      rw [← hit]
      exact ⟨hinv.1, hinv.2⟩
    · rw [if_neg hn] at hit
      cases h2 : system_load_floor { s with elevator := elevator_unload_floor s.elevator } with
      | none => simp [h2] at hit
      | some t2 =>
        simp only [h2, Option.some.injEq] at hit
        have ht := system_load_floor_ServedInv _ t2 k hinv h2
        rw [← hit]
        exact ⟨ht.1, ht.2⟩

theorem floors_update_serviced (floors : List Floor) (i : Int) (f : Floor → Floor) (d : Int)
    (hlen : floors.length = NUM_FLOORS) (h0 : 0 ≤ i) (h9 : i ≤ 9)
    (hf : ∀ fl, (f fl).num_serviced = fl.num_serviced + d) :
    (floors_update floors i f).length = NUM_FLOORS ∧
      serviced_sum (floors_update floors i f) = serviced_sum floors + d := by
  obtain ⟨fl, _, hidx⟩ := floors_get_of_range floors hlen i h0 h9
  simp only [floors_update, if_pos h0, hidx, List.length_set]
  refine ⟨hlen, ?_⟩
  rw [serviced_sum_set floors _ fl _ hidx, hf]
  ring

theorem issue_request_ServedInv (s : System) (k : Int) (alloc_ok : Bool) (type start dest : Int)
    (hs : -2147483648 ≤ start ∧ start ≤ 2147483647)
    (hd : -2147483648 ≤ dest ∧ dest ≤ 2147483647)
    (h : ServedInv s k) :
    ServedInv (issue_request s alloc_ok type start dest).2
      (k + (if (issue_request s alloc_ok type start dest).1 = 0 ∧ start = dest
        then 1 else 0)) := by
  unfold issue_request
  simp only [MIN_FLOOR, MAX_FLOOR, NUM_PASSENGER_TYPES, passenger_node_create]
  by_cases h1 : (int32_wrap (start - 1) < 0 ∨ int32_wrap (start - 1) > 9) ∨
      (int32_wrap (dest - 1) < 0 ∨ int32_wrap (dest - 1) > 9)
  · simp only [if_pos h1]
    simpa using h
  · simp only [if_neg h1]
    by_cases h2 : int32_wrap (type - 1) < 0 ∨ int32_wrap (type - 1) ≥ 4
    · simp only [if_pos h2]
      simpa using h
    · simp only [if_neg h2]
      by_cases h3 : int32_wrap (start - 1) = int32_wrap (dest - 1)
      · simp only [if_pos h3]
        have hsd : start = dest := by
          unfold int32_wrap at h1 h3
          omega
        obtain ⟨u1, u2⟩ := floors_update_serviced s.floors (int32_wrap (start - 1))
          (fun fl => { fl with num_serviced := fl.num_serviced + 1 }) 1 h.1 (by omega)
          (by omega) (fun fl => rfl)
        split_ifs with hg
        · refine ⟨u1, ?_⟩
          simp only
          rw [u2, h.2]
          ring
        · exact absurd ⟨trivial, hsd⟩ hg
      · simp only [if_neg h3]
        have hsd : start ≠ dest := fun hsd => h3 (by rw [hsd])
        cases alloc_ok with
        | false => simpa using h
        | true =>
          simp only [if_true]
          obtain ⟨u1, u2⟩ := floors_update_serviced s.floors (int32_wrap (start - 1))
            (fun fl => floor_enqueue_passenger fl
              ⟨PassengerType.ofInt (int32_wrap (type - 1)), int32_wrap (dest - 1)⟩) 0 h.1
            (by omega) (by omega) (fun fl => by simp [floor_enqueue_passenger])
          split_ifs with hg
          · exact absurd hg.2 hsd
          · refine ⟨u1, ?_⟩
            simp only [add_zero] at u2 ⊢
            rw [u2, h.2]

theorem ServedReachable_inv (s : System) (k : Int) (h : ServedReachable s k) :
    ServedInv s k := by
  induction h with
  | init => exact ⟨rfl, by decide⟩
  | request s k alloc_ok type start dest _ hs hd _ ih =>
    exact issue_request_ServedInv s k alloc_ok type start dest hs hd ih
  | start s k spawn_error _ ih =>
    refine ⟨ih.1, ?_⟩
    have hn : (elevator_start s.elevator spawn_error).2.num_passengers =
        s.elevator.num_passengers := by
      by_cases hoff : s.elevator.state = ElevatorState.OFFLINE <;> cases spawn_error <;>
        simp [elevator_start, hoff]
    have ht : (elevator_start s.elevator spawn_error).2.total_serviced =
        s.elevator.total_serviced := by
      by_cases hoff : s.elevator.state = ElevatorState.OFFLINE <;> cases spawn_error <;>
        simp [elevator_start, hoff]
    simp only [hn, ht]
    exact ih.2
  | iteration s s1 k _ hit ih => exact elevator_run_iteration_ServedInv s s1 k ih hit
  | stop s k _ ih =>
    unfold stop_and_drain
    by_cases hst : s.elevator.stopping ≠ 0
    · have hs : elevator_stop s.elevator = (1, s.elevator, false) := by
        simp [elevator_stop, hst]
      simp only [hs, Bool.false_eq_true, if_false]
      exact ih
    · have hs : elevator_stop s.elevator = (0, { s.elevator with stopping := 1 }, true) := by
        simp only [elevator_stop, if_neg hst]
      simp only [hs, if_true]
      refine ⟨ih.1, ?_⟩
      have hc := elevator_unload_all_counters { s.elevator with stopping := 1 }
      have := ih.2
      simp only at hc ⊢
      omega

/-! ## Lemmas on the end of a sweep -/

theorem filter_length_split (f : PassengerNode → Bool) (l : List PassengerNode) :
    ((l.filter (fun p => !f p)).length : Int) + ((l.filter f).length : Int) = (l.length : Int) := by
  induction l with
  | nil => simp
  | cons a l ih =>
    cases hfa : f a <;> simp [List.filter_cons, hfa] <;> omega

/-- Unloading lowers the counter `num_passengers` and the length of the onboard queue
by the same number. -/
theorem elevator_unload_floor_num_passengers (e : Elevator) :
    (elevator_unload_floor e).num_passengers - ((elevator_unload_floor e).queue.length : Int) =
      e.num_passengers - (e.queue.length : Int) := by
  obtain ⟨_, h2, _⟩ := elevator_unload_floor_loop_spec e.queue
    { e with direction := e.state, state := ElevatorState.LOADING } [] (by simp) (by simp)
  have hts : (elevator_unload_floor e).total_serviced = e.total_serviced +
      ((e.queue.filter (fun p => decide (p.destination_floor = e.current_floor))).length : Int) :=
    h2
  have hc := elevator_unload_floor_counters e
  have hq := elevator_unload_floor_queue e
  have hsplit := filter_length_split
    (fun p => decide (p.destination_floor = e.current_floor)) e.queue
  have hfun : (fun p : PassengerNode => !decide (p.destination_floor = e.current_floor)) =
      (fun p => decide (p.destination_floor ≠ e.current_floor)) := by
    funext p
    simp
  rw [hfun] at hsplit
  rw [hq]
  omega

theorem create_floors_array_FloorsOk : FloorsOk (create_floors_array NUM_FLOORS) :=
  system_init_RunInv.1

/-- One stop cycle of a sweep, for a car whose counter `num_passengers` is the length
of its onboard queue: the iteration returns, and either the car is now idle and
empty, or it is one floor further in the same direction, still within `0..9`, with
every onboard passenger bound for a floor from that one on. -/
theorem sweep_step (s : System) (hf : FloorsOk s.floors)
    (hn : s.elevator.num_passengers = (s.elevator.queue.length : Int))
    (hmove : (s.elevator.state = ElevatorState.UP ∧ 0 ≤ s.elevator.current_floor ∧
        s.elevator.current_floor ≤ 9 ∧ s.elevator.next_floor = s.elevator.current_floor + 1 ∧
        ∀ p ∈ s.elevator.queue, s.elevator.current_floor ≤ p.destination_floor ∧
          p.destination_floor ≤ 9) ∨
      (s.elevator.state = ElevatorState.DOWN ∧ 0 ≤ s.elevator.current_floor ∧
        s.elevator.current_floor ≤ 9 ∧ s.elevator.next_floor = s.elevator.current_floor - 1 ∧
        ∀ p ∈ s.elevator.queue, 0 ≤ p.destination_floor ∧
          p.destination_floor ≤ s.elevator.current_floor)) :
    ∃ s1, elevator_run_iteration s = some s1 ∧ FloorsOk s1.floors ∧
      s1.elevator.num_passengers = (s1.elevator.queue.length : Int) ∧
      ((s1.elevator.state = ElevatorState.IDLE ∧ s1.elevator.queue = []) ∨
        (s1.elevator.state = s.elevator.state ∧
          s1.elevator.current_floor = s.elevator.next_floor ∧
          0 ≤ s1.elevator.current_floor ∧ s1.elevator.current_floor ≤ 9 ∧
          s1.elevator.next_floor = s1.elevator.current_floor +
            (if s.elevator.state = ElevatorState.UP then 1 else -1) ∧
          ∀ p ∈ s1.elevator.queue,
            if s.elevator.state = ElevatorState.UP then
              s1.elevator.current_floor ≤ p.destination_floor ∧ p.destination_floor ≤ 9
            else 0 ≤ p.destination_floor ∧ p.destination_floor ≤ s1.elevator.current_floor)) := by
  have hidle : s.elevator.state ≠ ElevatorState.IDLE := by
    rcases hmove with ⟨h, _⟩ | ⟨h, _⟩ <;> rw [h] <;> decide
  obtain ⟨u1, _, u3, u4, _⟩ := elevator_unload_floor_frame s.elevator
  have uq := elevator_unload_floor_queue s.elevator
  have un := elevator_unload_floor_num_passengers s.elevator
  have un2 : (elevator_unload_floor s.elevator).num_passengers =
      ((elevator_unload_floor s.elevator).queue.length : Int) := by omega
  have h0 : 0 ≤ s.elevator.current_floor := by
    rcases hmove with ⟨_, h, _⟩ | ⟨_, h, _⟩ <;> exact h
  have h9 : s.elevator.current_floor ≤ 9 := by
    rcases hmove with ⟨_, _, h, _⟩ | ⟨_, _, h, _⟩ <;> exact h
  have hcast : ((s.elevator.current_floor.toNat : Nat) : Int) = s.elevator.current_floor :=
    Int.toNat_of_nonneg h0
  by_cases hz : (elevator_unload_floor s.elevator).num_passengers = 0
  · refine ⟨{ floors := s.floors,
              elevator := { elevator_unload_floor s.elevator with
                            state := ElevatorState.IDLE } }, ?_, hf, un2, Or.inl ⟨rfl, ?_⟩⟩
    · simp only [elevator_run_iteration, if_neg hidle, hz, if_true]
    · rw [hz] at un2
      exact List.length_eq_zero.mp (by exact_mod_cast un2.symm)
  · obtain ⟨fl, hget, hidx⟩ := floors_get_of_range s.floors hf.1 _ h0 h9
    have hfl := hf.2 _ fl hidx
    rw [hcast] at hfl
    obtain ⟨hm2, hm1⟩ := elevator_load_floor_members (elevator_unload_floor s.elevator) fl
    obtain ⟨l1, _, _, l4, _⟩ := elevator_load_floor_frame (elevator_unload_floor s.elevator) fl
    obtain ⟨s1, s2, s3, s4⟩ :=
      elevator_step_fields (elevator_load_floor (elevator_unload_floor s.elevator) fl).1
    have ln := elevator_load_floor_num_passengers (elevator_unload_floor s.elevator) fl
    have hne : (elevator_unload_floor s.elevator).queue ≠ [] := by
      intro hq
      apply hz
      rw [un2, hq]
      rfl
    obtain ⟨w, hw⟩ := List.exists_mem_of_ne_nil _ hne
    rw [uq, List.mem_filter] at hw
    have hwd : w.destination_floor ≠ s.elevator.current_floor := by simpa using hw.2
    refine ⟨{ floors := s.floors.set s.elevator.current_floor.toNat
                (elevator_load_floor (elevator_unload_floor s.elevator) fl).2,
              elevator := elevator_step
                (elevator_load_floor (elevator_unload_floor s.elevator) fl).1 }, ?_,
      FloorsOk_set _ _ _ hf ?_, ?_, Or.inr ?_⟩
    · simp only [elevator_run_iteration, if_neg hidle, if_neg hz, system_load_floor, u3, hget]
    · intro q hq2
      rw [hcast]
      exact hfl q (hm2 q hq2)
    · show (elevator_step
          (elevator_load_floor (elevator_unload_floor s.elevator) fl).1).num_passengers =
        (((elevator_step
          (elevator_load_floor (elevator_unload_floor s.elevator) fl).1).queue).length : Int)
      rw [s2]
      have hstep : (elevator_step
          (elevator_load_floor (elevator_unload_floor s.elevator) fl).1).num_passengers =
          (elevator_load_floor (elevator_unload_floor s.elevator) fl).1.num_passengers := rfl
      rw [hstep]
      omega
    · show (elevator_step _).state = _ ∧ (elevator_step _).current_floor = _ ∧
        0 ≤ (elevator_step _).current_floor ∧ (elevator_step _).current_floor ≤ 9 ∧
        (elevator_step _).next_floor = (elevator_step _).current_floor + _ ∧
        ∀ p ∈ (elevator_step _).queue, _
      rcases hmove with ⟨hst, _, _, hnx, hall⟩ | ⟨hst, _, _, hnx, hall⟩
      · have hwb := hall w hw.1
        rw [s1, s3, s4, s2, l1, l4, u1, u4, hst, hnx]
        refine ⟨rfl, rfl, by omega, by omega, by simp, ?_⟩
        intro q hq2
        rw [if_pos rfl]
        rcases hm1 q hq2 with h | ⟨hmem, h⟩
        · rw [uq, List.mem_filter] at h
          have hqd : q.destination_floor ≠ s.elevator.current_floor := by simpa using h.2
          have hqb := hall q h.1
          omega
        · have hb := hfl q hmem
          rw [u1, u3, hst] at h
          rcases h with ⟨_, h⟩ | ⟨h, _⟩
          · omega
          · cases h
      · have hwb := hall w hw.1
        have hdu : ElevatorState.DOWN ≠ ElevatorState.UP := by decide
        rw [s1, s3, s4, s2, l1, l4, u1, u4, hst, hnx]
        refine ⟨rfl, rfl, by omega, by omega, by simp, ?_⟩
        intro q hq2
        rw [if_neg hdu]
        rcases hm1 q hq2 with h | ⟨hmem, h⟩
        · rw [uq, List.mem_filter] at h
          have hqd : q.destination_floor ≠ s.elevator.current_floor := by simpa using h.2
          have hqb := hall q h.1
          omega
        · have hb := hfl q hmem
          rw [u1, u3, hst] at h
          rcases h with ⟨h, _⟩ | ⟨_, h⟩
          · cases h
          · omega

/-- A sweep ends within `k` stop cycles when the number of floors left in its
direction, the current one included, is at most `k`. -/
theorem sweep_bounded_by (k : Nat) :
    ∀ s : System, FloorsOk s.floors →
      s.elevator.num_passengers = (s.elevator.queue.length : Int) →
      ((s.elevator.state = ElevatorState.UP ∧ 0 ≤ s.elevator.current_floor ∧
          s.elevator.current_floor ≤ 9 ∧
          s.elevator.next_floor = s.elevator.current_floor + 1 ∧
          ∀ p ∈ s.elevator.queue, s.elevator.current_floor ≤ p.destination_floor ∧
            p.destination_floor ≤ 9) ∨
        (s.elevator.state = ElevatorState.DOWN ∧ 0 ≤ s.elevator.current_floor ∧
          s.elevator.current_floor ≤ 9 ∧
          s.elevator.next_floor = s.elevator.current_floor - 1 ∧
          ∀ p ∈ s.elevator.queue, 0 ≤ p.destination_floor ∧
            p.destination_floor ≤ s.elevator.current_floor)) →
      (if s.elevator.state = ElevatorState.UP then 10 - s.elevator.current_floor
        else s.elevator.current_floor + 1) ≤ (k : Int) →
      ∃ (n : Nat) (s1 : System), 1 ≤ n ∧
        (n : Int) ≤ (if s.elevator.state = ElevatorState.UP then 10 - s.elevator.current_floor
          else s.elevator.current_floor + 1) ∧
        elevator_run_n n s = some s1 ∧ s1.elevator.state = ElevatorState.IDLE ∧
        s1.elevator.queue = [] ∧ s1.elevator.num_passengers = 0 ∧
        ∀ m < n, ∃ sm, elevator_run_n m s = some sm ∧
          sm.elevator.state = s.elevator.state := by
  induction k with
  | zero =>
    intro s _ _ hmove hk
    exfalso
    rcases hmove with ⟨hst, h0, h9, _⟩ | ⟨hst, h0, h9, _⟩
    · rw [if_pos hst] at hk
      omega
    · have hdu : ¬ s.elevator.state = ElevatorState.UP := by rw [hst]; decide
      rw [if_neg hdu] at hk
      omega
  | succ k ih =>
    intro s hf hn hmove hk
    obtain ⟨s1, hit, hf1, hn1, hcase⟩ := sweep_step s hf hn hmove
    have hone : (1 : Int) ≤ (if s.elevator.state = ElevatorState.UP then
        10 - s.elevator.current_floor else s.elevator.current_floor + 1) := by
      rcases hmove with ⟨hst, h0, h9, _⟩ | ⟨hst, h0, h9, _⟩
      · rw [if_pos hst]
        omega
      · have hdu : ¬ s.elevator.state = ElevatorState.UP := by rw [hst]; decide
        rw [if_neg hdu]
        omega
    rcases hcase with ⟨hidle, hq⟩ | ⟨hst1, hcur, h0, h9, hnx, hall⟩
    · refine ⟨1, s1, le_refl 1, by exact_mod_cast hone, ?_, hidle, hq, ?_, ?_⟩
      · rw [elevator_run_n_succ_of 0 s s1 hit]
        rfl
      · rw [hn1, hq]
        rfl
      · intro m hm
        have hm0 : m = 0 := by omega
        rw [hm0]
        exact ⟨s, rfl, rfl⟩
    · have hmove1 : (s1.elevator.state = ElevatorState.UP ∧ 0 ≤ s1.elevator.current_floor ∧
            s1.elevator.current_floor ≤ 9 ∧
            s1.elevator.next_floor = s1.elevator.current_floor + 1 ∧
            ∀ p ∈ s1.elevator.queue, s1.elevator.current_floor ≤ p.destination_floor ∧
              p.destination_floor ≤ 9) ∨
          (s1.elevator.state = ElevatorState.DOWN ∧ 0 ≤ s1.elevator.current_floor ∧
            s1.elevator.current_floor ≤ 9 ∧
            s1.elevator.next_floor = s1.elevator.current_floor - 1 ∧
            ∀ p ∈ s1.elevator.queue, 0 ≤ p.destination_floor ∧
              p.destination_floor ≤ s1.elevator.current_floor) := by
        rcases hmove with ⟨hst, _⟩ | ⟨hst, _⟩
        · left
          rw [if_pos hst] at hnx
          refine ⟨by rw [hst1, hst], h0, h9, hnx, ?_⟩
          intro p hp
          have := hall p hp
          rw [if_pos hst] at this
          exact this
        · right
          have hdu : ¬ s.elevator.state = ElevatorState.UP := by rw [hst]; decide
          rw [if_neg hdu] at hnx
          refine ⟨by rw [hst1, hst], h0, h9, by rw [hnx]; ring, ?_⟩
          intro p hp
          have := hall p hp
          rw [if_neg hdu] at this
          exact this
      have hmeasure : (if s1.elevator.state = ElevatorState.UP then
            10 - s1.elevator.current_floor else s1.elevator.current_floor + 1) + 1 =
          (if s.elevator.state = ElevatorState.UP then
            10 - s.elevator.current_floor else s.elevator.current_floor + 1) := by
        rw [hst1, hcur]
        rcases hmove with ⟨hst, _, _, hnext, _⟩ | ⟨hst, _, _, hnext, _⟩
        · rw [if_pos hst, if_pos hst, hnext]
          ring
        · have hdu : ¬ s.elevator.state = ElevatorState.UP := by rw [hst]; decide
          rw [if_neg hdu, if_neg hdu, hnext]
          ring
      obtain ⟨n, s2, hn1le, hnle, hrun, hidle, hq, hz, hbefore⟩ :=
        ih s1 hf1 hn1 hmove1 (by push_cast at hk; omega)
      refine ⟨n + 1, s2, by omega, by push_cast; omega, ?_, hidle, hq, hz, ?_⟩
      · rw [elevator_run_n_succ_of n s s1 hit]
        exact hrun
      · intro m hm
        cases m with
        | zero => exact ⟨s, rfl, rfl⟩
        | succ m =>
          obtain ⟨sm, h1, h2⟩ := hbefore m (by omega)
          refine ⟨sm, ?_, by rw [h2, hst1]⟩
          rw [elevator_run_n_succ_of m s s1 hit]
          exact h1

theorem elevator_run_n_add (m n : Nat) :
    ∀ s : System, elevator_run_n (m + n) s = (elevator_run_n m s).bind (elevator_run_n n) := by
  induction m with
  | zero => intro s; simp [elevator_run_n]
  | succ m ih =>
    intro s
    rw [Nat.succ_add]
    simp only [elevator_run_n]
    cases elevator_run_iteration s with
    | none => rfl
    | some s1 => exact ih s1

/-- The counter `num_passengers` is the length of the onboard queue in every state
reached by requests, starts and scheduler iterations. -/
theorem RunReachable_num_passengers (s : System) (h : RunReachable s) :
    s.elevator.num_passengers = (s.elevator.queue.length : Int) :=
  (RunReachable_inv s h).2.1.2.2.2

theorem floor_enqueue_passenger_FloorsOk (floors : List Floor) (i : Int) (x : PassengerNode)
    (h : FloorsOk floors)
    (hx : 0 ≤ x.destination_floor ∧ x.destination_floor ≤ 9 ∧ x.destination_floor ≠ i) :
    FloorsOk (floors_update floors i (fun fl => floor_enqueue_passenger fl x)) := by
  apply FloorsOk_update _ _ _ h
  intro fl hfl p hp
  simp only [floor_enqueue_passenger, List.mem_append, List.mem_singleton] at hp
  rcases hp with hp | hp
  · exact hfl p hp
  · rw [hp]
    exact hx

theorem sweep_example_FloorsOk : FloorsOk sweep_example.floors :=
  floor_enqueue_passenger_FloorsOk _ 5 _
    (floor_enqueue_passenger_FloorsOk _ 4 _ create_floors_array_FloorsOk (by decide))
    (by decide)

/-! ## Lemmas on the `stopping` flag between two starts -/

/-- C2: the capacity part of `should_load` holds exactly when the units fit under
`MAX_LOAD_UNITS` with `<=` and the weight test of the specification holds: strict
`<` for a Child added to a car whose half flag is clear, and `+ 1` with `<=` in
every other case. -/
theorem should_load_can_fit_iff_spec (elv : Elevator) (p : PassengerNode) :
    should_load_can_fit elv p = true ↔
      (elv.load_in_units + PASSENGER_UNITS p.passenger_type ≤ MAX_LOAD_UNITS ∧
        (if p.passenger_type = PassengerType.CHILD ∧ elv.load_in_weight_half = 0 then
          elv.load_in_weight + PASSENGER_WEIGHTS p.passenger_type < MAX_LOAD_WEIGHT
        else
          elv.load_in_weight + PASSENGER_WEIGHTS p.passenger_type + 1 ≤ MAX_LOAD_WEIGHT)) := by
  unfold should_load_can_fit
  by_cases hc : p.passenger_type = PassengerType.CHILD <;>
    by_cases hh : elv.load_in_weight_half = 0 <;>
    simp [hc, hh, MAX_LOAD_WEIGHT, MAX_LOAD_UNITS] <;> omega

/-- C3: the passengers moved by `elevator_load_floor` are the front part `L` of the
floor queue; each of them was accepted by `should_load` against the car holding
the ones before it, and when passengers remain the new front one is rejected by
`should_load` in the final state, so nobody behind a rejected passenger is loaded. -/
theorem elevator_load_floor_stops_at_first_rejected (elv : Elevator) (floor : Floor) :
    ∃ L R, floor.queue = L ++ R ∧
      (elevator_load_floor elv floor).2.queue = R ∧
      (elevator_load_floor elv floor).1.queue = elv.queue ++ L ∧
      (∀ (i : Nat) (h : i < L.length),
        should_load_passenger
          (load_all { elv with direction := elv.state, state := ElevatorState.LOADING } (L.take i))
          (L.get ⟨i, h⟩) = true) ∧
      (R ≠ [] →
        should_load (elevator_load_floor elv floor).1 (elevator_load_floor elv floor).2 =
          some false) := by
  obtain ⟨hsplit, hq⟩ := elevator_load_floor_split elv floor
  refine ⟨_, _, hsplit, rfl, hq, accepted_front_chain _ _, ?_⟩
  intro hne
  obtain ⟨r, hr, hrej⟩ :=
    accepted_front_split { elv with direction := elv.state, state := ElevatorState.LOADING }
      floor.queue
  have hR : (elevator_load_floor elv floor).2.queue = r := by
    have h1 := hsplit
    nth_rewrite 1 [hr] at h1
    exact (List.append_cancel_left h1).symm
  cases hr1 : r with
  | nil => rw [hR, hr1] at hne; exact absurd rfl hne
  | cons p r1 =>
    have hrej1 := hrej p r1 hr1
    rw [hr1] at hR
    simp only [should_load, hR, Option.some.injEq]
    rw [← hrej1]
    apply should_load_passenger_congr <;> simp [elevator_load_floor_eq, load_all_frame]

/-- C4: every passenger moved by `elevator_load_floor` has its destination strictly
above the current floor when the state on entry is `UP` and strictly below it when
the state is `DOWN`; a front passenger whose destination is not strictly ahead is
not loaded (nobody is), and nobody is loaded when the state on entry is neither
`UP` nor `DOWN`. -/
theorem elevator_load_floor_same_direction (elv : Elevator) (floor : Floor) :
    ∃ L R, floor.queue = L ++ R ∧
      (elevator_load_floor elv floor).2.queue = R ∧
      (elevator_load_floor elv floor).1.queue = elv.queue ++ L ∧
      (elv.state = ElevatorState.UP → ∀ p ∈ L, p.destination_floor > elv.current_floor) ∧
      (elv.state = ElevatorState.DOWN → ∀ p ∈ L, p.destination_floor < elv.current_floor) ∧
      (elv.state ≠ ElevatorState.UP → elv.state ≠ ElevatorState.DOWN → L = []) ∧
      (∀ p rest, floor.queue = p :: rest → elv.state = ElevatorState.UP →
        p.destination_floor ≤ elv.current_floor → L = [] ∧ R = floor.queue) ∧
      (∀ p rest, floor.queue = p :: rest → elv.state = ElevatorState.DOWN →
        p.destination_floor ≥ elv.current_floor → L = [] ∧ R = floor.queue) := by
  obtain ⟨hsplit, hq⟩ := elevator_load_floor_split elv floor
  have hdir := accepted_front_same_direction
    { elv with direction := elv.state, state := ElevatorState.LOADING } floor.queue
  have hfront : ∀ p rest, floor.queue = p :: rest →
      should_load_same_direction
        { elv with direction := elv.state, state := ElevatorState.LOADING } p = false →
      accepted_front { elv with direction := elv.state, state := ElevatorState.LOADING }
        floor.queue = [] := by
    intro p rest hpq hp
    simp [hpq, accepted_front, should_load_passenger, hp]
  have hrest : ∀ p rest, floor.queue = p :: rest →
      should_load_same_direction
        { elv with direction := elv.state, state := ElevatorState.LOADING } p = false →
      accepted_front { elv with direction := elv.state, state := ElevatorState.LOADING }
        floor.queue = [] ∧ (elevator_load_floor elv floor).2.queue = floor.queue := by
    intro p rest hpq hp
    have h0 := hfront p rest hpq hp
    refine ⟨h0, ?_⟩
    have h1 := hsplit
    rw [h0] at h1
    simpa using h1.symm
  refine ⟨_, _, hsplit, rfl, hq, ?_, ?_, ?_, ?_, ?_⟩
  · intro hup p hp
    have := hdir p hp
    simpa [should_load_same_direction, hup] using this
  · intro hdown p hp
    have := hdir p hp
    simpa [should_load_same_direction, hdown] using this
  · intro hnu hnd
    cases hfq : floor.queue with
    | nil => simp [accepted_front]
    | cons p rest =>
      rw [← hfq]
      exact hfront p rest hfq (by simp [should_load_same_direction, hnu, hnd])
  · intro p rest hpq hup hle
    exact hrest p rest hpq (by simp [should_load_same_direction, hup]; omega)
  · intro p rest hpq hdown hge
    exact hrest p rest hpq (by simp [should_load_same_direction, hdown]; omega)

/-- C5: `elevator_load_floor` splits the floor queue `F` as `L ++ R`, leaves `R` on
the floor and appends `L` to the onboard queue `E`: no passenger is lost,
duplicated or reordered. -/
theorem elevator_load_floor_transfer (elv : Elevator) (floor : Floor) :
    ∃ L R, floor.queue = L ++ R ∧
      (elevator_load_floor elv floor).2.queue = R ∧
      (elevator_load_floor elv floor).1.queue = elv.queue ++ L := by
  obtain ⟨hsplit, hq⟩ := elevator_load_floor_split elv floor
  exact ⟨_, _, hsplit, rfl, hq⟩

/-- C6: `elevator_unload_floor` removes exactly the onboard passengers whose
destination is the current floor, keeps the others in their order, and adds the
number removed to `total_serviced`. -/
theorem elevator_unload_floor_filter (elv : Elevator) :
    (elevator_unload_floor elv).queue =
        elv.queue.filter (fun p => decide (p.destination_floor ≠ elv.current_floor)) ∧
      (elevator_unload_floor elv).total_serviced = elv.total_serviced +
        ((elv.queue.filter
          (fun p => decide (p.destination_floor = elv.current_floor))).length : Int) := by
  have h := elevator_unload_floor_loop_spec elv.queue
    { elv with direction := elv.state, state := ElevatorState.LOADING } [] (by simp) (by simp)
  simp only [List.nil_append] at h
  exact ⟨by simpa [elevator_unload_floor] using h.1, by simpa [elevator_unload_floor] using h.2.1⟩

/-- C1: in every state of the car reached from an empty car by loading passes and
unloading passes, `load_in_units` is at most `MAX_LOAD_UNITS` and the effective
weight `load_in_weight + 0.5 * load_in_weight_half` is strictly below
`MAX_LOAD_WEIGHT`. -/
theorem car_reachable_within_capacity (e : Elevator) (h : CarReachable e) :
    e.load_in_units ≤ MAX_LOAD_UNITS ∧
      (e.load_in_weight : ℚ) + (1 / 2 : ℚ) * (e.load_in_weight_half : ℚ) <
        (MAX_LOAD_WEIGHT : ℚ) := by
  obtain ⟨_, hu, hw⟩ := CarReachable_safe e h
  refine ⟨hu, ?_⟩
  have hq : ((2 * e.load_in_weight + e.load_in_weight_half : Int) : ℚ) <
      ((2 * MAX_LOAD_WEIGHT : Int) : ℚ) := by exact_mod_cast hw
  push_cast at hq
  linarith

/-- Witness of C1 at a car that has loaded one Adult. -/
theorem car_reachable_within_capacity_witness :
    reachable_example.queue = [⟨PassengerType.ADULT, 3⟩] ∧
      reachable_example.load_in_units ≤ MAX_LOAD_UNITS ∧
      (reachable_example.load_in_weight : ℚ) +
        (1 / 2 : ℚ) * (reachable_example.load_in_weight_half : ℚ) < (MAX_LOAD_WEIGHT : ℚ) :=
  ⟨by decide,
    car_reachable_within_capacity reachable_example
      (CarReachable.load_floor _ _ (CarReachable.empty _ rfl rfl rfl rfl rfl))⟩

/-- C7 (evaluation at the failing input): with an Adult for the top floor onboard,
the drain ends `OFFLINE` at floor 9 with that passenger still in the car. -/
theorem elevator_unload_all_leaves_top_floor_passenger :
    (elevator_unload_all drain_example_top).queue = [⟨PassengerType.ADULT, 9⟩] ∧
      (elevator_unload_all drain_example_top).num_passengers = 1 ∧
      (elevator_unload_all drain_example_top).load_in_units = 1 ∧
      (elevator_unload_all drain_example_top).load_in_weight = 1 ∧
      (elevator_unload_all drain_example_top).current_floor = 9 ∧
      (elevator_unload_all drain_example_top).state = ElevatorState.OFFLINE := by
  decide

/-- C8 (counterexample): the first pass of the drain is at floor 0 and the passenger
destined for floor 7 is still onboard after it. -/
theorem drain_first_pass_keeps_passenger :
    (drain_start drain_example_seven).current_floor = 0 ∧
      (elevator_unload_floor (drain_start drain_example_seven)).queue =
        [⟨PassengerType.ADULT, 7⟩] ∧
      (elevator_unload_all_loop 1 (drain_start drain_example_seven)).queue ≠ [] := by
  decide

/-- C8 (amended): at each floor pass of the drain, exactly the passengers still
onboard whose destination is the floor of that pass are removed; a passenger whose
destination differs from that floor stays onboard. -/
theorem drain_pass_respects_destinations (elv : Elevator) (k : Nat) :
    (elevator_unload_floor (elevator_unload_all_loop k (drain_start elv))).queue =
        (elevator_unload_all_loop k (drain_start elv)).queue.filter
          (fun p => decide (p.destination_floor ≠
            (elevator_unload_all_loop k (drain_start elv)).current_floor)) ∧
      ∀ p ∈ (elevator_unload_all_loop k (drain_start elv)).queue,
        (p ∈ (elevator_unload_floor (elevator_unload_all_loop k (drain_start elv))).queue ↔
          p.destination_floor ≠ (elevator_unload_all_loop k (drain_start elv)).current_floor) := by
  have h := (elevator_unload_floor_loop_spec (elevator_unload_all_loop k (drain_start elv)).queue
    { elevator_unload_all_loop k (drain_start elv) with
      direction := (elevator_unload_all_loop k (drain_start elv)).state,
      state := ElevatorState.LOADING } [] (by simp) (by simp)).1
  have hq : (elevator_unload_floor (elevator_unload_all_loop k (drain_start elv))).queue =
      (elevator_unload_all_loop k (drain_start elv)).queue.filter
        (fun p => decide (p.destination_floor ≠
          (elevator_unload_all_loop k (drain_start elv)).current_floor)) := by
    simpa [elevator_unload_floor] using h
  refine ⟨hq, ?_⟩
  intro p hp
  rw [hq, List.mem_filter]
  simp [hp]

theorem int32_wrap_of_range (x : Int) (h1 : -2147483648 ≤ x) (h2 : x ≤ 2147483647) :
    int32_wrap x = x := by
  unfold int32_wrap; omega

/-- C9: for 32-bit arguments and a successful allocation, `issue_request` returns a
non-zero value exactly when the start or destination floor is outside 1..10 or the
type is outside 1..4, and whenever it returns non-zero the floors and the elevator
are unchanged. -/
theorem issue_request_error_iff (s : System) (type start dest : Int)
    (ht : -2147483648 ≤ type ∧ type ≤ 2147483647)
    (hs : -2147483648 ≤ start ∧ start ≤ 2147483647)
    (hd : -2147483648 ≤ dest ∧ dest ≤ 2147483647) :
    ((issue_request s true type start dest).1 ≠ 0 ↔
        (start < 1 ∨ 10 < start ∨ dest < 1 ∨ 10 < dest ∨ type < 1 ∨ 4 < type)) ∧
      ((issue_request s true type start dest).1 ≠ 0 →
        (issue_request s true type start dest).2 = s) := by
  have hs1 : (int32_wrap (start - 1) < 0 ∨ int32_wrap (start - 1) > 9) ↔
      (start < 1 ∨ 10 < start) := by
    unfold int32_wrap; omega
  have hd1 : (int32_wrap (dest - 1) < 0 ∨ int32_wrap (dest - 1) > 9) ↔
      (dest < 1 ∨ 10 < dest) := by
    unfold int32_wrap; omega
  have ht1 : (int32_wrap (type - 1) < 0 ∨ int32_wrap (type - 1) ≥ 4) ↔
      (type < 1 ∨ 4 < type) := by
    unfold int32_wrap; omega
  unfold issue_request
  simp only [MIN_FLOOR, MAX_FLOOR, NUM_PASSENGER_TYPES, passenger_node_create, if_true, hs1,
    hd1, ht1]
  split_ifs with h1 h2 h3
  · exact ⟨⟨fun _ => by omega, fun _ => by simp⟩, fun _ => rfl⟩
  · exact ⟨⟨fun _ => by omega, fun _ => by simp⟩, fun _ => rfl⟩
  · exact ⟨⟨fun h => absurd rfl h, fun h => by omega⟩, fun h => absurd rfl h⟩
  · exact ⟨⟨fun h => absurd rfl h, fun h => by omega⟩, fun h => absurd rfl h⟩

/-- Witness of C9: type 5 is rejected in the initial state. -/
theorem issue_request_error_iff_witness :
    (issue_request system_init true 5 1 2).1 = 1 ∧
      (((issue_request system_init true 5 1 2).1 ≠ 0 ↔
          ((1 : Int) < 1 ∨ (10 : Int) < 1 ∨ (2 : Int) < 1 ∨ (10 : Int) < 2 ∨
            (5 : Int) < 1 ∨ (4 : Int) < 5)) ∧
        ((issue_request system_init true 5 1 2).1 ≠ 0 →
          (issue_request system_init true 5 1 2).2 = system_init)) :=
  ⟨by decide,
    issue_request_error_iff system_init 5 1 2 (by decide) (by decide) (by decide)⟩

/-- C10: a valid request with origin equal to destination returns 0, adds 1 to the
`num_serviced` of that floor and changes nothing else: no queue, no other counter
or aggregate of that floor, no other floor, and not the elevator. -/
theorem issue_request_same_floor (s : System) (alloc_ok : Bool) (type f : Int)
    (hlen : s.floors.length = NUM_FLOORS) (ht : 1 ≤ type ∧ type ≤ 4)
    (hf : 1 ≤ f ∧ f ≤ 10) :
    (issue_request s alloc_ok type f f).1 = 0 ∧
      (issue_request s alloc_ok type f f).2.elevator = s.elevator ∧
      (issue_request s alloc_ok type f f).2.floors.length = s.floors.length ∧
      (∃ fl, s.floors[(f - 1).toNat]? = some fl ∧
        (issue_request s alloc_ok type f f).2.floors[(f - 1).toNat]? =
          some { fl with num_serviced := fl.num_serviced + 1 }) ∧
      (∀ j : Nat, j ≠ (f - 1).toNat →
        (issue_request s alloc_ok type f f).2.floors[j]? = s.floors[j]?) := by
  have hwf : int32_wrap (f - 1) = f - 1 := int32_wrap_of_range _ (by omega) (by omega)
  have hwt : int32_wrap (type - 1) = type - 1 := int32_wrap_of_range _ (by omega) (by omega)
  have h1 : ¬ ((f - 1 < 0 ∨ f - 1 > 9) ∨ (f - 1 < 0 ∨ f - 1 > 9)) := by omega
  have h2 : ¬ (type - 1 < 0 ∨ type - 1 ≥ 4) := by omega
  have hidx : (f - 1).toNat < s.floors.length := by rw [hlen]; simp only [NUM_FLOORS]; omega
  have h0 : 0 ≤ f - 1 := by omega
  simp only [issue_request, hwf, hwt, MIN_FLOOR, MAX_FLOOR, NUM_PASSENGER_TYPES, h1, h2,
    floors_update, h0, ↓reduceIte]
  generalize (f - 1).toNat = i at hidx ⊢
  obtain ⟨fl, hfl⟩ : ∃ fl, s.floors[i]? = some fl :=
    ⟨s.floors[i], List.getElem?_eq_getElem hidx⟩
  simp only [hfl]
  refine ⟨trivial, trivial, by simp, ⟨fl, rfl, by simp [hidx]⟩, ?_⟩
  intro j hj
  simp [List.getElem?_set, Ne.symm hj]

/-- Witness of C10: a Child asking for floor 3 at floor 3 in the initial state. -/
theorem issue_request_same_floor_witness :
    (issue_request system_init true 1 3 3).1 = 0 ∧
      (issue_request system_init true 1 3 3).2.elevator = system_init.elevator ∧
      (issue_request system_init true 1 3 3).2.floors.length = system_init.floors.length ∧
      (∃ fl, system_init.floors[((3 : Int) - 1).toNat]? = some fl ∧
        (issue_request system_init true 1 3 3).2.floors[((3 : Int) - 1).toNat]? =
          some { fl with num_serviced := fl.num_serviced + 1 }) ∧
      (∀ j : Nat, j ≠ ((3 : Int) - 1).toNat →
        (issue_request system_init true 1 3 3).2.floors[j]? = system_init.floors[j]?) :=
  issue_request_same_floor system_init true 1 3 (by decide) (by decide) (by decide)

/-- C11 (counterexample): with a failing passenger allocation a valid request from
floor 1 to floor 9 returns 1 and enqueues nobody. -/
theorem issue_request_allocation_failure :
    (issue_request system_init false 2 1 9).1 = 1 ∧
      (issue_request system_init false 2 1 9).2 = system_init := by
  decide

/-- C11 (amended): for a valid type, valid floors with `start ≠ dest`, and a
successful passenger allocation, `issue_request` returns 0 and appends exactly one
passenger, of class index `type - 1` and destination `dest - 1`, at the tail of the
queue of `floors[start - 1]`; every other floor and the elevator are unchanged. -/
theorem issue_request_enqueues (s : System) (type start dest : Int)
    (hlen : s.floors.length = NUM_FLOORS) (ht : 1 ≤ type ∧ type ≤ 4)
    (hs : 1 ≤ start ∧ start ≤ 10) (hd : 1 ≤ dest ∧ dest ≤ 10) (hne : start ≠ dest) :
    (issue_request s true type start dest).1 = 0 ∧
      (issue_request s true type start dest).2.elevator = s.elevator ∧
      (issue_request s true type start dest).2.floors.length = s.floors.length ∧
      (∃ fl p, s.floors[(start - 1).toNat]? = some fl ∧
        p.passenger_type.toInt = type - 1 ∧ p.destination_floor = dest - 1 ∧
        (issue_request s true type start dest).2.floors[(start - 1).toNat]? =
          some (floor_enqueue_passenger fl p) ∧
        (floor_enqueue_passenger fl p).queue = fl.queue ++ [p]) ∧
      (∀ j : Nat, j ≠ (start - 1).toNat →
        (issue_request s true type start dest).2.floors[j]? = s.floors[j]?) := by
  have hws : int32_wrap (start - 1) = start - 1 := int32_wrap_of_range _ (by omega) (by omega)
  have hwd : int32_wrap (dest - 1) = dest - 1 := int32_wrap_of_range _ (by omega) (by omega)
  have hwt : int32_wrap (type - 1) = type - 1 := int32_wrap_of_range _ (by omega) (by omega)
  have h1 : ¬ ((start - 1 < 0 ∨ start - 1 > 9) ∨ (dest - 1 < 0 ∨ dest - 1 > 9)) := by omega
  have h2 : ¬ (type - 1 < 0 ∨ type - 1 ≥ 4) := by omega
  have h3 : ¬ (start - 1 = dest - 1) := by omega
  have hidx : (start - 1).toNat < s.floors.length := by
    rw [hlen]; simp only [NUM_FLOORS]; omega
  have h0 : 0 ≤ start - 1 := by omega
  have hcls : (PassengerType.ofInt (type - 1)).toInt = type - 1 := by
    have h4 : type = 1 ∨ type = 2 ∨ type = 3 ∨ type = 4 := by omega
    rcases h4 with h | h | h | h <;> subst h <;> decide
  simp only [issue_request, hws, hwd, hwt, MIN_FLOOR, MAX_FLOOR, NUM_PASSENGER_TYPES, h1, h2,
    h3, passenger_node_create, floors_update, h0, ↓reduceIte]
  generalize (start - 1).toNat = i at hidx ⊢
  obtain ⟨fl, hfl⟩ : ∃ fl, s.floors[i]? = some fl :=
    ⟨s.floors[i], List.getElem?_eq_getElem hidx⟩
  simp only [hfl]
  refine ⟨trivial, trivial, by simp, ⟨fl, ⟨PassengerType.ofInt (type - 1), dest - 1⟩, rfl,
    hcls, rfl, by simp [hidx], by simp [floor_enqueue_passenger]⟩, ?_⟩
  intro j hj
  simp [List.getElem?_set, Ne.symm hj]

/-- Witness of C11 (amended): an Adult from floor 1 to floor 9 in the initial state. -/
theorem issue_request_enqueues_witness :
    (issue_request system_init true 2 1 9).1 = 0 ∧
      (issue_request system_init true 2 1 9).2.elevator = system_init.elevator ∧
      (issue_request system_init true 2 1 9).2.floors.length = system_init.floors.length ∧
      (∃ fl p, system_init.floors[((1 : Int) - 1).toNat]? = some fl ∧
        p.passenger_type.toInt = 2 - 1 ∧ p.destination_floor = 9 - 1 ∧
        (issue_request system_init true 2 1 9).2.floors[((1 : Int) - 1).toNat]? =
          some (floor_enqueue_passenger fl p) ∧
        (floor_enqueue_passenger fl p).queue = fl.queue ++ [p]) ∧
      (∀ j : Nat, j ≠ ((1 : Int) - 1).toNat →
        (issue_request system_init true 2 1 9).2.floors[j]? = system_init.floors[j]?) :=
  issue_request_enqueues system_init 2 1 9 (by decide) (by decide) (by decide) (by decide)
    (by decide)

/-- C12: after every sequence of `floor_enqueue_passenger` and
`floor_dequeue_passenger` calls on a freshly created floor, `num_waiting` is the
queue length, `load_in_units` is the sum of the queued passengers' units,
`load_in_weight_half` is 0 or 1, and `load_in_weight + 0.5 * load_in_weight_half`
is the sum of the queued passengers' weights. -/
theorem floor_aggregates_match_queue (f : Floor) (h : FloorReachable f) :
    f.num_waiting = (f.queue.length : Int) ∧ f.load_in_units = units_sum f.queue ∧
      (f.load_in_weight_half = 0 ∨ f.load_in_weight_half = 1) ∧
      (f.load_in_weight : ℚ) + (1 / 2 : ℚ) * (f.load_in_weight_half : ℚ) =
        weight_sum f.queue := by
  obtain ⟨hn, hu, hw, hh⟩ := FloorReachable_consistent f h
  exact ⟨hn, hu, hh, effective_weight_of_half_units _ _ _ hw⟩

/-- Witness of C12: a fresh floor after a Child and a RoomService passenger were
enqueued and the Child dequeued. -/
theorem floor_aggregates_match_queue_witness :
    (floor_dequeue_passenger (floor_enqueue_passenger (floor_enqueue_passenger (floor_create 0)
        ⟨PassengerType.CHILD, 4⟩) ⟨PassengerType.ROOM_SERVICE, 2⟩)).2.queue =
        [⟨PassengerType.ROOM_SERVICE, 2⟩] ∧
      (floor_dequeue_passenger (floor_enqueue_passenger (floor_enqueue_passenger (floor_create 0)
        ⟨PassengerType.CHILD, 4⟩) ⟨PassengerType.ROOM_SERVICE, 2⟩)).2.load_in_weight = 3 ∧
      (floor_dequeue_passenger (floor_enqueue_passenger (floor_enqueue_passenger (floor_create 0)
        ⟨PassengerType.CHILD, 4⟩) ⟨PassengerType.ROOM_SERVICE, 2⟩)).2.load_in_weight_half = 0 :=
  ⟨by decide, by decide,
    ((floor_aggregates_match_queue _
      (FloorReachable.dequeue _ (FloorReachable.enqueue _ ⟨PassengerType.ROOM_SERVICE, 2⟩
        (FloorReachable.enqueue _ ⟨PassengerType.CHILD, 4⟩
          (FloorReachable.fresh 0))))).2.2.1).resolve_right (by decide)⟩

/-- C13: after every sequence of `elevator_load_passenger` and
`elevator_unload_passenger` calls (and of loading and unloading passes) from an
empty car, `num_passengers` is the onboard queue length, `load_in_units` is the sum
of the onboard passengers' units, `load_in_weight_half` is 0 or 1, and
`load_in_weight + 0.5 * load_in_weight_half` is the sum of their weights. -/
theorem car_aggregates_match_queue (e : Elevator) (h : CarOpsReachable e) :
    e.num_passengers = (e.queue.length : Int) ∧ e.load_in_units = units_sum e.queue ∧
      (e.load_in_weight_half = 0 ∨ e.load_in_weight_half = 1) ∧
      (e.load_in_weight : ℚ) + (1 / 2 : ℚ) * (e.load_in_weight_half : ℚ) =
        weight_sum e.queue := by
  obtain ⟨hu, hw, hh, hn⟩ := CarOpsReachable_consistent e h
  exact ⟨hn, hu, hh, effective_weight_of_half_units _ _ _ hw⟩

/-- Witness of C13: an empty car that loaded two Children and unloaded one of them. -/
theorem car_aggregates_match_queue_witness :
    (elevator_unload_passenger (elevator_load_passenger (elevator_load_passenger
        elevator_create (some ⟨PassengerType.CHILD, 4⟩)) (some ⟨PassengerType.CHILD, 6⟩))
        ⟨PassengerType.CHILD, 4⟩).queue = [⟨PassengerType.CHILD, 6⟩] ∧
      (elevator_unload_passenger (elevator_load_passenger (elevator_load_passenger
        elevator_create (some ⟨PassengerType.CHILD, 4⟩)) (some ⟨PassengerType.CHILD, 6⟩))
        ⟨PassengerType.CHILD, 4⟩).load_in_units =
        units_sum [⟨PassengerType.CHILD, 6⟩] :=
  ⟨by decide,
    (car_aggregates_match_queue _
      (CarOpsReachable.unload_passenger _ ⟨PassengerType.CHILD, 4⟩ (by decide)
        (CarOpsReachable.load_passenger _ (some ⟨PassengerType.CHILD, 6⟩)
          (CarOpsReachable.load_passenger _ (some ⟨PassengerType.CHILD, 4⟩)
            (CarOpsReachable.empty elevator_create rfl rfl rfl rfl rfl))))).2.1⟩

/-- C14: on a floor whose half flag is clear and whose integer weight is `w`,
enqueuing one Child leaves `load_in_weight` at `w` and sets the half flag, and
enqueuing a second Child right after gives `w + 1` with the half flag clear again. -/
theorem floor_enqueue_two_children (floor : Floor) (d1 d2 : Int)
    (hh : floor.load_in_weight_half = 0) :
    (floor_enqueue_passenger floor ⟨PassengerType.CHILD, d1⟩).load_in_weight =
        floor.load_in_weight ∧
      (floor_enqueue_passenger floor ⟨PassengerType.CHILD, d1⟩).load_in_weight_half = 1 ∧
      (floor_enqueue_passenger (floor_enqueue_passenger floor ⟨PassengerType.CHILD, d1⟩)
        ⟨PassengerType.CHILD, d2⟩).load_in_weight = floor.load_in_weight + 1 ∧
      (floor_enqueue_passenger (floor_enqueue_passenger floor ⟨PassengerType.CHILD, d1⟩)
        ⟨PassengerType.CHILD, d2⟩).load_in_weight_half = 0 := by
  simp [floor_enqueue_passenger, hh, c_not, PASSENGER_WEIGHTS]

/-- Witness of C14 on a fresh floor. -/
theorem floor_enqueue_two_children_witness :
    (floor_enqueue_passenger (floor_create 3) ⟨PassengerType.CHILD, 5⟩).load_in_weight =
        (floor_create 3).load_in_weight ∧
      (floor_enqueue_passenger (floor_create 3) ⟨PassengerType.CHILD, 5⟩).load_in_weight_half
        = 1 ∧
      (floor_enqueue_passenger (floor_enqueue_passenger (floor_create 3)
        ⟨PassengerType.CHILD, 5⟩) ⟨PassengerType.CHILD, 8⟩).load_in_weight =
        (floor_create 3).load_in_weight + 1 ∧
      (floor_enqueue_passenger (floor_enqueue_passenger (floor_create 3)
        ⟨PassengerType.CHILD, 5⟩) ⟨PassengerType.CHILD, 8⟩).load_in_weight_half = 0 :=
  floor_enqueue_two_children (floor_create 3) 5 8 rfl

/-- C18: `elevator_start` returns 1 and changes no field when the state is not
`OFFLINE`; from `OFFLINE`, with the thread created, it returns 0, sets the state to
`IDLE` and clears `stopping`, and leaves every other field as it was. -/
theorem elevator_start_spec (elv : Elevator) :
    (elv.state ≠ ElevatorState.OFFLINE →
        ∀ spawn_error, elevator_start elv spawn_error = (1, elv)) ∧
      (elv.state = ElevatorState.OFFLINE →
        elevator_start elv none =
          (0, { elv with state := ElevatorState.IDLE, stopping := 0 }) ∧
        (elevator_start elv none).2.current_floor = elv.current_floor ∧
        (elevator_start elv none).2.queue = elv.queue ∧
        (elevator_start elv none).2.num_passengers = elv.num_passengers ∧
        (elevator_start elv none).2.load_in_units = elv.load_in_units ∧
        (elevator_start elv none).2.load_in_weight = elv.load_in_weight ∧
        (elevator_start elv none).2.load_in_weight_half = elv.load_in_weight_half) := by
  refine ⟨fun h spawn_error => by simp [elevator_start, h], fun h => ?_⟩
  simp [elevator_start, h]

/-- C20: after the passengers `ps` are enqueued onto a floor with an empty queue,
the `k`-th following call of `floor_dequeue_passenger` returns the `k`-th of them,
adds 1 to `num_serviced` and takes 1 from `num_waiting`; the call after the last
one returns no passenger and changes no field. -/
theorem floor_queue_fifo (floor : Floor) (ps : List PassengerNode) (h0 : floor.queue = []) :
    (∀ (k : Nat) (hk : k < ps.length),
        (floor_dequeue_passenger (dequeue_n k (enqueue_all floor ps))).1 =
            some (ps.get ⟨k, hk⟩) ∧
          (dequeue_n (k + 1) (enqueue_all floor ps)).num_serviced =
            (dequeue_n k (enqueue_all floor ps)).num_serviced + 1 ∧
          (dequeue_n (k + 1) (enqueue_all floor ps)).num_waiting =
            (dequeue_n k (enqueue_all floor ps)).num_waiting - 1) ∧
      floor_dequeue_passenger (dequeue_n ps.length (enqueue_all floor ps)) =
        (none, dequeue_n ps.length (enqueue_all floor ps)) := by
  have hq : (enqueue_all floor ps).queue = ps := by rw [enqueue_all_queue, h0]; simp
  refine ⟨?_, ?_⟩
  · intro k hk
    have hdrop : (dequeue_n k (enqueue_all floor ps)).queue =
        ps.get ⟨k, hk⟩ :: ps.drop (k + 1) := by
      rw [dequeue_n_queue, hq, List.drop_eq_getElem_cons hk]
      rfl
    have hsucc : dequeue_n (k + 1) (enqueue_all floor ps) =
        (floor_dequeue_passenger (dequeue_n k (enqueue_all floor ps))).2 := by
      simp only [dequeue_n, Function.iterate_succ_apply']
    rw [hsucc]
    exact ⟨(floor_dequeue_passenger_cons _ _ _ hdrop).1,
      floor_dequeue_passenger_counters _ _ _ hdrop⟩
  · have hempty : (dequeue_n ps.length (enqueue_all floor ps)).queue = [] := by
      rw [dequeue_n_queue, hq]; simp
    simp [floor_dequeue_passenger, hempty]

/-- Witness of C20: an Adult and then a Child enqueued onto a fresh floor. -/
theorem floor_queue_fifo_witness :
    (floor_dequeue_passenger (enqueue_all (floor_create 0)
        [⟨PassengerType.ADULT, 4⟩, ⟨PassengerType.CHILD, 2⟩])).1 =
        some ⟨PassengerType.ADULT, 4⟩ ∧
      floor_dequeue_passenger (dequeue_n 2 (enqueue_all (floor_create 0)
        [⟨PassengerType.ADULT, 4⟩, ⟨PassengerType.CHILD, 2⟩])) =
        (none, dequeue_n 2 (enqueue_all (floor_create 0)
          [⟨PassengerType.ADULT, 4⟩, ⟨PassengerType.CHILD, 2⟩])) :=
  ⟨((floor_queue_fifo (floor_create 0)
      [⟨PassengerType.ADULT, 4⟩, ⟨PassengerType.CHILD, 2⟩] rfl).1 0 (by decide)).1,
    (floor_queue_fifo (floor_create 0)
      [⟨PassengerType.ADULT, 4⟩, ⟨PassengerType.CHILD, 2⟩] rfl).2⟩

/-- C15: when no floor has a waiting passenger, `elevator_try_to_start_scan` changes
nothing (an `IDLE` car stays `IDLE`); otherwise, with `F` the lowest floor whose
queue is not empty and `p` its front passenger, the car is moved to `F`, takes the
direction `UP` if `p.destination_floor > F` and `DOWN` otherwise, runs the loading
pass at `F` and steps one floor in that direction, whatever its floor before and
whatever the floors above `F` hold. -/
theorem elevator_try_to_start_scan_spec (s : System) (hlen : s.floors.length = NUM_FLOORS) :
    ((∀ fl ∈ s.floors, fl.queue = []) → elevator_try_to_start_scan s = some s) ∧
      (∀ (F : Nat) (flF : Floor) (p : PassengerNode) (rest : List PassengerNode),
        s.floors[F]? = some flF → flF.queue = p :: rest →
        (∀ j < F, ∀ fl, s.floors[j]? = some fl → fl.queue = []) →
        ∃ s1, elevator_try_to_start_scan s = some s1 ∧
          (scan_start_car s.elevator F p).current_floor = F ∧
          s1.elevator = elevator_step
            (elevator_load_floor (scan_start_car s.elevator F p) flF).1 ∧
          s1.floors = s.floors.set F
            (elevator_load_floor (scan_start_car s.elevator F p) flF).2 ∧
          s1.elevator.state =
            (if p.destination_floor > (F : Int) then ElevatorState.UP
              else ElevatorState.DOWN) ∧
          s1.elevator.direction = s1.elevator.state ∧
          s1.elevator.current_floor =
            (if p.destination_floor > (F : Int) then (F : Int) + 1 else (F : Int) - 1)) := by
  refine ⟨elevator_try_to_start_scan_idle s hlen, ?_⟩
  intro F flF p rest hget hq hlow
  have hF : F < 10 := by
    have := (List.getElem?_eq_some_iff.mp hget).1
    rw [hlen] at this
    exact this
  have hlow2 : ∀ j < F, ∃ fl, s.floors[j]? = some fl ∧ fl.queue = [] := by
    intro j hj
    have hjl : j < s.floors.length := by rw [hlen]; simp only [NUM_FLOORS]; omega
    exact ⟨s.floors[j], List.getElem?_eq_getElem hjl,
      hlow j hj _ (List.getElem?_eq_getElem hjl)⟩
  refine ⟨_, elevator_try_to_start_scan_eq s F flF p rest hF hget hq hlow2, rfl, rfl, rfl, ?_,
    ?_, ?_⟩
  · have hfr := (elevator_load_floor_frame (scan_start_car s.elevator F p) flF).1
    simp only [elevator_step]
    rw [hfr]
    rfl
  · obtain ⟨h1, h2, _⟩ := elevator_load_floor_frame (scan_start_car s.elevator F p) flF
    simp only [elevator_step, h1, h2]
  · obtain ⟨_, _, _, h4, _⟩ := elevator_load_floor_frame (scan_start_car s.elevator F p) flF
    simp only [elevator_step]
    rw [h4]
    rfl

/-- Witness of C15: the initial floors with an idle car. -/
theorem elevator_try_to_start_scan_spec_witness :
    elevator_try_to_start_scan
        { system_init with elevator := { elevator_create with state := ElevatorState.IDLE } } =
      some { system_init with elevator := { elevator_create with state := ElevatorState.IDLE } } :=
  (elevator_try_to_start_scan_spec
    { system_init with elevator := { elevator_create with state := ElevatorState.IDLE } }
    (by decide)).1 (by decide)

/-- C17: after `issue_request` for an Adult from floor 1 to floor 9 and a successful
start (both calls return 0), nine scheduler iterations reach a state with
`total_serviced == 1`, the origin floor's `num_serviced == 1`, and every floor queue
and the onboard queue empty. The floors are read as the 1-indexed arguments of the
call (first part) and as internal 0-indexed floors (second part). -/
theorem adult_request_is_served :
    (issue_request system_init true 2 1 9).1 = 0 ∧
      (issue_request system_init true 2 2 10).1 = 0 ∧
      (elevator_start (issue_request system_init true 2 1 9).2.elevator none).1 = 0 ∧
      (elevator_start (issue_request system_init true 2 2 10).2.elevator none).1 = 0 ∧
      (∃ n s, elevator_run_n n (served_example 1 9) = some s ∧
        s.elevator.total_serviced = 1 ∧
        (floors_get s.floors 0).map Floor.num_serviced = some 1 ∧
        s.elevator.queue = [] ∧ ∀ fl ∈ s.floors, fl.queue = []) ∧
      (∃ n s, elevator_run_n n (served_example 2 10) = some s ∧
        s.elevator.total_serviced = 1 ∧
        (floors_get s.floors 1).map Floor.num_serviced = some 1 ∧
        s.elevator.queue = [] ∧ ∀ fl ∈ s.floors, fl.queue = []) := by
  refine ⟨by decide, by decide, by decide, by decide, ⟨9, _, rfl, ?_⟩, ⟨9, _, rfl, ?_⟩⟩ <;>
    decide

set_option maxHeartbeats 4000000 in
/-- C16: from any idle elevator with an empty car, with one passenger waiting at
floor 2 for floor 7 and one at floor 5 for floor 1 (of any classes), the first
scheduler iteration loads the floor-2 passenger going `UP`; the floor-5 passenger
stays in the queue of floor 5 at every stop of the upward sweep (floors 3, 4, 5 and
6, then floor 7 where the car empties and goes `IDLE`), and is loaded by the next
scan, which starts at floor 5 going `DOWN`. The tuples are the state and floor of
the car, the onboard queue, the queues of floors 2 and 5, and whether all other
floor queues are empty. -/
theorem scan_serves_lowest_floor_first (c1 c2 : PassengerType)
    (cur next total stopping : Int) (dir : ElevatorState) :
    scan_snapshot (elevator_run_n 1 (scan_example c1 c2 (idle_car cur next total stopping dir)))
        = some (ElevatorState.UP, 3, [⟨c1, 7⟩], [], [⟨c2, 1⟩], true) ∧
      scan_snapshot
          (elevator_run_n 2 (scan_example c1 c2 (idle_car cur next total stopping dir)))
        = some (ElevatorState.UP, 4, [⟨c1, 7⟩], [], [⟨c2, 1⟩], true) ∧
      scan_snapshot
          (elevator_run_n 3 (scan_example c1 c2 (idle_car cur next total stopping dir)))
        = some (ElevatorState.UP, 5, [⟨c1, 7⟩], [], [⟨c2, 1⟩], true) ∧
      scan_snapshot
          (elevator_run_n 4 (scan_example c1 c2 (idle_car cur next total stopping dir)))
        = some (ElevatorState.UP, 6, [⟨c1, 7⟩], [], [⟨c2, 1⟩], true) ∧
      scan_snapshot
          (elevator_run_n 5 (scan_example c1 c2 (idle_car cur next total stopping dir)))
        = some (ElevatorState.UP, 7, [⟨c1, 7⟩], [], [⟨c2, 1⟩], true) ∧
      scan_snapshot
          (elevator_run_n 6 (scan_example c1 c2 (idle_car cur next total stopping dir)))
        = some (ElevatorState.IDLE, 7, [], [], [⟨c2, 1⟩], true) ∧
      scan_snapshot
          (elevator_run_n 7 (scan_example c1 c2 (idle_car cur next total stopping dir)))
        = some (ElevatorState.DOWN, 4, [⟨c2, 1⟩], [], [], true) := by
  have h := scan_example_first_iteration c1 c2 cur next total stopping dir
  simp only [elevator_run_n_succ_of _ _ _ h]
  cases c1 <;> cases c2 <;> refine ⟨?_, ?_, ?_, ?_, ?_, ?_, ?_⟩ <;>
    simp [elevator_run_n, elevator_run_iteration, scan_snapshot, scan_example, idle_car,
      scan_start_car, elevator_step, elevator_load_floor, elevator_load_floor_loop, should_load,
      should_load_passenger, should_load_can_fit, should_load_same_direction,
      floor_dequeue_passenger, elevator_load_passenger, floor_enqueue_passenger, floor_create,
      create_floors_array, floors_update, floors_get, system_load_floor, elevator_unload_floor,
      elevator_unload_floor_loop, elevator_unload_passenger, NUM_FLOORS, List.range,
      List.range.loop, c_not, MAX_LOAD_WEIGHT, MAX_LOAD_UNITS, PASSENGER_WEIGHTS,
      PASSENGER_UNITS, elevator_try_to_start_scan, elevator_try_to_start_scan_loop,
      floor_indices, MAX_FLOOR, system_setup_scan, elevator_setup_scan, elevator_move_to_eq]

/-- C28: for every load state and passenger class, the capacity result of
`should_load` is `load_in_weight + weight < MAX_LOAD_WEIGHT` and
`load_in_units + units <= MAX_LOAD_UNITS`, whatever the half flag of the car and of
the class: the two branches are the same test. -/
theorem should_load_can_fit_same_test (elv : Elevator) (p : PassengerNode) :
    should_load_can_fit elv p =
      (decide (elv.load_in_weight + PASSENGER_WEIGHTS p.passenger_type < MAX_LOAD_WEIGHT) &&
        decide (elv.load_in_units + PASSENGER_UNITS p.passenger_type ≤ MAX_LOAD_UNITS)) := by
  unfold should_load_can_fit
  have hlt : (elv.load_in_weight + PASSENGER_WEIGHTS p.passenger_type + 1 ≤ MAX_LOAD_WEIGHT) ↔
      (elv.load_in_weight + PASSENGER_WEIGHTS p.passenger_type < MAX_LOAD_WEIGHT) := by
    constructor <;> intro h <;> omega
  simp only [hlt, ite_self]

/-- C23 (counterexample): a Child is accepted by the capacity test of a car loaded
with 14.5, and the effective weight after loading is 15, not below `MAX_LOAD_WEIGHT`. -/
theorem should_load_can_fit_reaches_ceiling :
    should_load_can_fit heavy_half_car ⟨PassengerType.CHILD, 9⟩ = true ∧
      (elevator_load_passenger heavy_half_car (some ⟨PassengerType.CHILD, 9⟩)).load_in_weight
        = 15 ∧
      (elevator_load_passenger heavy_half_car
        (some ⟨PassengerType.CHILD, 9⟩)).load_in_weight_half = 0 ∧
      ¬ (((elevator_load_passenger heavy_half_car
            (some ⟨PassengerType.CHILD, 9⟩)).load_in_weight : ℚ) +
          (1 / 2 : ℚ) * ((elevator_load_passenger heavy_half_car
            (some ⟨PassengerType.CHILD, 9⟩)).load_in_weight_half : ℚ) <
        (MAX_LOAD_WEIGHT : ℚ)) := by
  refine ⟨by decide, by decide, by decide, ?_⟩
  have h1 : (elevator_load_passenger heavy_half_car
      (some ⟨PassengerType.CHILD, 9⟩)).load_in_weight = 15 := by decide
  have h2 : (elevator_load_passenger heavy_half_car
      (some ⟨PassengerType.CHILD, 9⟩)).load_in_weight_half = 0 := by decide
  rw [h1, h2]
  norm_num [MAX_LOAD_WEIGHT]

/-- C23 (amended): for every load state with half flag 0 or 1 and every passenger
class, if the capacity test of `should_load` accepts the passenger then the
effective weight after `elevator_load_passenger` is at most `MAX_LOAD_WEIGHT`, and
strictly below it unless a Child is added to a car whose half flag is set. -/
theorem should_load_can_fit_weight_bound (elv : Elevator) (p : PassengerNode)
    (hh : elv.load_in_weight_half = 0 ∨ elv.load_in_weight_half = 1)
    (hfit : should_load_can_fit elv p = true) :
    ((elevator_load_passenger elv (some p)).load_in_weight : ℚ) +
          (1 / 2 : ℚ) * ((elevator_load_passenger elv (some p)).load_in_weight_half : ℚ) ≤
        (MAX_LOAD_WEIGHT : ℚ) ∧
      (¬ (p.passenger_type = PassengerType.CHILD ∧ elv.load_in_weight_half = 1) →
        ((elevator_load_passenger elv (some p)).load_in_weight : ℚ) +
            (1 / 2 : ℚ) * ((elevator_load_passenger elv (some p)).load_in_weight_half : ℚ) <
          (MAX_LOAD_WEIGHT : ℚ)) := by
  have hint : 2 * (elevator_load_passenger elv (some p)).load_in_weight +
        (elevator_load_passenger elv (some p)).load_in_weight_half ≤ 2 * MAX_LOAD_WEIGHT ∧
      (¬ (p.passenger_type = PassengerType.CHILD ∧ elv.load_in_weight_half = 1) →
        2 * (elevator_load_passenger elv (some p)).load_in_weight +
          (elevator_load_passenger elv (some p)).load_in_weight_half < 2 * MAX_LOAD_WEIGHT) := by
    simp only [should_load_can_fit, MAX_LOAD_WEIGHT, MAX_LOAD_UNITS] at hfit
    simp only [elevator_load_passenger, c_not, MAX_LOAD_WEIGHT]
    rcases hh with hh | hh <;> by_cases hc : p.passenger_type = PassengerType.CHILD <;>
      simp [hh, hc, PASSENGER_WEIGHTS] at hfit ⊢ <;> omega
  obtain ⟨h1, h2⟩ := hint
  have c1 : ((2 * (elevator_load_passenger elv (some p)).load_in_weight +
      (elevator_load_passenger elv (some p)).load_in_weight_half : Int) : ℚ) ≤
      ((2 * MAX_LOAD_WEIGHT : Int) : ℚ) := by exact_mod_cast h1
  push_cast at c1
  refine ⟨by linarith, fun hn => ?_⟩
  have c2 : ((2 * (elevator_load_passenger elv (some p)).load_in_weight +
      (elevator_load_passenger elv (some p)).load_in_weight_half : Int) : ℚ) <
      ((2 * MAX_LOAD_WEIGHT : Int) : ℚ) := by exact_mod_cast h2 hn
  push_cast at c2
  linarith

/-- Witness of C23 (amended): a Child accepted into an empty car. -/
theorem should_load_can_fit_weight_bound_witness :
    ((elevator_load_passenger elevator_create (some ⟨PassengerType.CHILD, 3⟩)).load_in_weight
          : ℚ) +
        (1 / 2 : ℚ) * ((elevator_load_passenger elevator_create
          (some ⟨PassengerType.CHILD, 3⟩)).load_in_weight_half : ℚ) ≤ (MAX_LOAD_WEIGHT : ℚ) :=
  (should_load_can_fit_weight_bound elevator_create ⟨PassengerType.CHILD, 3⟩
    (Or.inl rfl) (by decide)).1

/-- C24 (evaluation, for every car on which the drain starts): the ten unload passes
of `elevator_unload_all` are at floors 0, 0, 1, .., 8; floor 9 gets no pass. -/
theorem drain_pass_floors (elv : Elevator) :
    elevator_unload_all_loop_floors (MAX_FLOOR + 1).toNat (drain_start elv) =
        [0, 0, 1, 2, 3, 4, 5, 6, 7, 8] ∧
      (9 : Int) ∉ elevator_unload_all_loop_floors (MAX_FLOOR + 1).toNat (drain_start elv) := by
  obtain ⟨hs, hc, hn⟩ := drain_after_first_pass elv
  have hstart : (drain_start elv).current_floor = 0 := by
    simp [drain_start, elevator_move_to_eq]
  have hloop : elevator_unload_all_loop_floors (MAX_FLOOR + 1).toNat (drain_start elv) =
      (drain_start elv).current_floor ::
        elevator_unload_all_loop_floors 9
          (elevator_step (elevator_unload_floor (drain_start elv))) := rfl
  have hlist : elevator_unload_all_loop_floors (MAX_FLOOR + 1).toNat (drain_start elv) =
      [0, 0, 1, 2, 3, 4, 5, 6, 7, 8] := by
    rw [hloop, hstart, elevator_unload_all_loop_floors_sweep 9 _ hs (by rw [hn, hc]; rfl), hc]
    decide
  rw [hlist]
  exact ⟨rfl, by decide⟩

/-- C25 (evaluation, for every car on which the drain starts): at the start of the
drain loop the state is `UP` and the car is at floor 0, and `elevator_step` leaves
it at floor 0 instead of moving it to floor 1. -/
theorem elevator_step_stays_on_floor (elv : Elevator) :
    (drain_start elv).state = ElevatorState.UP ∧
      (drain_start elv).current_floor = 0 ∧
      (elevator_step (drain_start elv)).current_floor = 0 ∧
      (elevator_step (drain_start elv)).current_floor ≠ (drain_start elv).current_floor + 1 := by
  simp [drain_start, elevator_move_to_eq, elevator_step]

/-- C26: `elevator_move_to` ends with the car at `dest_floor`; its loop moves the car
one floor per iteration towards it, is still running before `|dest_floor -
current_floor|` iterations and has ended after that many; only `state`,
`next_floor` and `current_floor` are written, so the onboard queue, the counters
and the aggregates are as before, and so are the floors. -/
theorem elevator_move_to_spec (elv : Elevator) (dest_floor : Int) :
    (elevator_move_to elv dest_floor).current_floor = dest_floor ∧
      (∀ k : Nat, k ≤ (dest_floor - elv.current_floor).natAbs →
        (elevator_move_to_loop k
            { elv with
              state := if dest_floor > elv.current_floor then ElevatorState.UP
                else ElevatorState.DOWN
              next_floor := dest_floor }
            dest_floor (if dest_floor > elv.current_floor then 1 else -1)).current_floor =
          elv.current_floor +
            (k : Int) * (if dest_floor > elv.current_floor then 1 else -1) ∧
        (k < (dest_floor - elv.current_floor).natAbs →
          (elevator_move_to_loop k
            { elv with
              state := if dest_floor > elv.current_floor then ElevatorState.UP
                else ElevatorState.DOWN
              next_floor := dest_floor }
            dest_floor (if dest_floor > elv.current_floor then 1 else -1)).current_floor ≠
            dest_floor)) ∧
      (∀ m : Nat,
        elevator_move_to_loop ((dest_floor - elv.current_floor).natAbs + m)
            { elv with
              state := if dest_floor > elv.current_floor then ElevatorState.UP
                else ElevatorState.DOWN
              next_floor := dest_floor }
            dest_floor (if dest_floor > elv.current_floor then 1 else -1) =
          elevator_move_to elv dest_floor) ∧
      (elevator_move_to elv dest_floor).queue = elv.queue ∧
      (elevator_move_to elv dest_floor).num_passengers = elv.num_passengers ∧
      (elevator_move_to elv dest_floor).total_serviced = elv.total_serviced ∧
      (elevator_move_to elv dest_floor).load_in_units = elv.load_in_units ∧
      (elevator_move_to elv dest_floor).load_in_weight = elv.load_in_weight ∧
      (elevator_move_to elv dest_floor).load_in_weight_half = elv.load_in_weight_half ∧
      (∀ floors : List Floor,
        ({ floors := floors, elevator := elevator_move_to elv dest_floor } : System).floors =
          floors) := by
  have hprog : ∀ k : Nat, k ≤ (dest_floor - elv.current_floor).natAbs →
      (elevator_move_to_loop k
          { elv with
            state := if dest_floor > elv.current_floor then ElevatorState.UP
              else ElevatorState.DOWN
            next_floor := dest_floor }
          dest_floor (if dest_floor > elv.current_floor then 1 else -1)).current_floor =
        elv.current_floor + (k : Int) * (if dest_floor > elv.current_floor then 1 else -1) := by
    intro k hk
    rw [elevator_move_to_loop_progress]
    by_cases h : dest_floor > elv.current_floor
    · left; simp only [h, if_true]; exact ⟨trivial, by omega⟩
    · right; simp only [h, if_false]; exact ⟨trivial, by omega⟩
  refine ⟨by simp [elevator_move_to_eq], fun k hk => ⟨hprog k hk, fun hlt => ?_⟩, fun m => ?_,
    by simp [elevator_move_to_eq], by simp [elevator_move_to_eq], by simp [elevator_move_to_eq],
    by simp [elevator_move_to_eq], by simp [elevator_move_to_eq], by simp [elevator_move_to_eq],
    fun _ => rfl⟩
  · rw [hprog k hk]
    by_cases h : dest_floor > elv.current_floor
    · simp only [h, if_true]; omega
    · simp only [h, if_false]; omega
  · rw [elevator_move_to_loop_add]
    have hdone : (elevator_move_to_loop (dest_floor - elv.current_floor).natAbs
        { elv with
          state := if dest_floor > elv.current_floor then ElevatorState.UP
            else ElevatorState.DOWN
          next_floor := dest_floor }
        dest_floor (if dest_floor > elv.current_floor then 1 else -1)) =
        elevator_move_to elv dest_floor := rfl
    rw [hdone]
    exact elevator_move_to_loop_done m _ _ _ (by simp [elevator_move_to_eq])

/-- C27: a scheduler iteration in state `UP` or `DOWN` with `next_floor` the adjacent
floor first unloads at `current_floor`; if `num_passengers` is then 0 (the car is
empty) it only sets the state to `IDLE`: the floors are untouched and the car does
not move; otherwise it runs the loading pass at `current_floor` and steps, which
puts the car one floor further in the same direction. -/
theorem elevator_run_iteration_stop_cycle (s : System)
    (hstate : s.elevator.state = ElevatorState.UP ∨ s.elevator.state = ElevatorState.DOWN)
    (hnext : s.elevator.next_floor = s.elevator.current_floor +
      (if s.elevator.state = ElevatorState.UP then 1 else -1)) :
    (elevator_unload_floor s.elevator).queue =
        s.elevator.queue.filter
          (fun p => decide (p.destination_floor ≠ s.elevator.current_floor)) ∧
      (CarConsistent s.elevator →
        ((elevator_unload_floor s.elevator).num_passengers = 0 ↔
          (elevator_unload_floor s.elevator).queue = [])) ∧
      ((elevator_unload_floor s.elevator).num_passengers = 0 →
        elevator_run_iteration s =
          some { floors := s.floors,
                 elevator := { elevator_unload_floor s.elevator with
                               state := ElevatorState.IDLE } } ∧
        (elevator_unload_floor s.elevator).current_floor = s.elevator.current_floor) ∧
      ((elevator_unload_floor s.elevator).num_passengers ≠ 0 →
        ∀ fl, floors_get s.floors s.elevator.current_floor = some fl →
          elevator_run_iteration s =
            some { floors := s.floors.set s.elevator.current_floor.toNat
                     (elevator_load_floor (elevator_unload_floor s.elevator) fl).2,
                   elevator := elevator_step
                     (elevator_load_floor (elevator_unload_floor s.elevator) fl).1 } ∧
          (elevator_step
              (elevator_load_floor (elevator_unload_floor s.elevator) fl).1).current_floor =
            s.elevator.current_floor +
              (if s.elevator.state = ElevatorState.UP then 1 else -1) ∧
          (elevator_step
              (elevator_load_floor (elevator_unload_floor s.elevator) fl).1).state =
            s.elevator.state) := by
  have hidle : s.elevator.state ≠ ElevatorState.IDLE := by
    rcases hstate with h | h <;> rw [h] <;> decide
  obtain ⟨u1, _, u3, u4, _⟩ := elevator_unload_floor_frame s.elevator
  refine ⟨elevator_unload_floor_queue s.elevator, fun hc => ?_, fun h0 => ⟨?_, u3⟩,
    fun hne fl hfl => ⟨?_, ?_, ?_⟩⟩
  · have hn := (elevator_unload_floor_consistent s.elevator hc).2.2.2
    rw [hn]
    constructor
    · intro h
      exact List.length_eq_zero.mp (by exact_mod_cast h)
    · intro h
      rw [h]
      rfl
  · simp only [elevator_run_iteration, if_neg hidle, h0, if_true]
  · have hfl2 : floors_get s.floors (elevator_unload_floor s.elevator).current_floor =
        some fl := by rw [u3]; exact hfl
    simp only [elevator_run_iteration, if_neg hidle, if_neg hne, system_load_floor, u3, hfl]
  · obtain ⟨_, _, _, l4, _⟩ := elevator_load_floor_frame (elevator_unload_floor s.elevator) fl
    simp only [elevator_step]
    rw [l4, u4, hnext]
  · obtain ⟨l1, _⟩ := elevator_load_floor_frame (elevator_unload_floor s.elevator) fl
    simp only [elevator_step]
    rw [l1, u1]

/-- Witness of C27: a car going up at floor 3 with one Adult for floor 6 onboard. -/
theorem elevator_run_iteration_stop_cycle_witness :
    (elevator_unload_floor
        { elevator_create with
          queue := [⟨PassengerType.ADULT, 6⟩], state := ElevatorState.UP,
          direction := ElevatorState.UP, current_floor := 3, next_floor := 4,
          num_passengers := 1, load_in_units := 1, load_in_weight := 1 }).queue =
      ([⟨PassengerType.ADULT, 6⟩] : List PassengerNode).filter
        (fun p => decide (p.destination_floor ≠ 3)) :=
  (elevator_run_iteration_stop_cycle
    { floors := create_floors_array NUM_FLOORS,
      elevator :=
        { elevator_create with
          queue := [⟨PassengerType.ADULT, 6⟩], state := ElevatorState.UP,
          direction := ElevatorState.UP, current_floor := 3, next_floor := 4,
          num_passengers := 1, load_in_units := 1, load_in_weight := 1 } }
    (Or.inl rfl) (by decide)).1

/-- C21: the elevator text shows `current_floor + 1`, then `-1` as next floor when
the state is `IDLE` and `next_floor + 1` otherwise, and the weight as
`load_in_weight`, a point, and the digit 5 when the half flag is set and 0 when it
is not; each floor text shows `floor_num + 1` and its weight in the same way; with
ten floors the status text is the elevator text followed by the floor texts. -/
theorem status_text_spec (elv : Elevator) (floor : Floor) :
    elevator_print_buf elv =
        "Elevator status\nState: \t\t\t".toList ++ (ELEVATOR_STATE_STRINGS elv.state).toList ++
        "\nFloor:\t\t\t".toList ++ (toString (elv.current_floor + 1)).toList ++
        "\nNext floor:\t\t".toList ++
        (toString (if elv.state = ElevatorState.IDLE then (-1 : Int)
          else elv.next_floor + 1)).toList ++
        "\nLoad (weight):\t\t".toList ++ (toString elv.load_in_weight).toList ++
        ".".toList ++ (if elv.load_in_weight_half ≠ 0 then ['5'] else ['0']) ++
        "\nLoad (units):\t\t".toList ++ (toString elv.load_in_units).toList ++
        "\nNum serviced:\t\t".toList ++ (toString elv.total_serviced).toList ++
        "\n--------------------------------------------------------------\n".toList ∧
      floor_print_buf floor =
        "Floor ".toList ++ (toString (floor.floor_num + 1)).toList ++
        " status\nLoad (weight):\t\t".toList ++ (toString floor.load_in_weight).toList ++
        ".".toList ++ (if floor.load_in_weight_half ≠ 0 then ['5'] else ['0']) ++
        "\nLoad (units):\t\t".toList ++ (toString floor.load_in_units).toList ++
        "\nTotal waiting:\t\t".toList ++ (toString floor.num_waiting).toList ++
        "\nTotal serviced:\t\t".toList ++ (toString floor.num_serviced).toList ++
        "\n--------------------------------------------------------------\n".toList ∧
      (∀ s : System, s.floors.length = NUM_FLOORS →
        elevator_proc_read s =
          some (elevator_print_buf s.elevator ++ s.floors.flatMap floor_print_buf)) := by
  refine ⟨?_, ?_, elevator_proc_read_eq⟩
  · have hnext : (if elv.state ≠ ElevatorState.IDLE then elv.next_floor + 1 else (-1 : Int)) =
        (if elv.state = ElevatorState.IDLE then (-1 : Int) else elv.next_floor + 1) := by
      by_cases h : elv.state = ElevatorState.IDLE <;> simp [h]
    unfold elevator_print_buf
    rw [elevator_print_format_segments, hnext]
    rw [c_format_lit _ _ _ (by decide), c_format_str, c_format_lit _ _ _ (by decide),
      c_format_int, c_format_lit _ _ _ (by decide), c_format_int,
      c_format_lit _ _ _ (by decide), c_format_int, c_format_lit _ _ _ (by decide),
      c_format_int, c_format_lit _ _ _ (by decide), c_format_int,
      c_format_lit _ _ _ (by decide), c_format_int, c_format_lit _ _ _ (by decide),
      half_digit]
    simp only [c_format, List.append_assoc, List.append_nil]
  · unfold floor_print_buf
    rw [floor_print_format_segments]
    rw [c_format_lit _ _ _ (by decide), c_format_int, c_format_lit _ _ _ (by decide),
      c_format_int, c_format_lit _ _ _ (by decide), c_format_int,
      c_format_lit _ _ _ (by decide), c_format_int, c_format_lit _ _ _ (by decide),
      c_format_int, c_format_lit _ _ _ (by decide), c_format_int,
      c_format_lit _ _ _ (by decide), half_digit]
    simp only [c_format, List.append_assoc, List.append_nil]

/-- C22 (evaluation of the failing interleaving, for each floor `c` in 0..9): the
loading pass at floor `c` takes the floor lock and then the elevator lock, the
status read takes the elevator lock and then each floor lock; after the scheduler
has locked `floors[c]` and the reader has locked the elevator and passed the floors
below `c`, both threads are blocked for good. -/
theorem load_floor_and_proc_read_deadlock :
    ∀ c : Fin 10,
      (elevator_load_floor_locks (c.val : Int)).take 2 =
          [LockOp.lock (Lock.floor (c.val : Int)), LockOp.lock Lock.elevator] ∧
        elevator_proc_read_locks.take 2 =
          [LockOp.lock Lock.elevator, LockOp.lock (Lock.floor 0)] ∧
        (run_schedule (true :: List.replicate (2 * c.val + 1) false)
            { scheduler := elevator_load_floor_locks (c.val : Int),
              reader := elevator_proc_read_locks,
              scheduler_holds := [], reader_holds := [] }).map deadlocked = some true := by
  decide

/-- C29: in every state reached from the initial state by `issue_request` calls,
starts and scheduler iterations (no stop), with the elevator not `OFFLINE`, the next
scheduler iteration completes: every `floors[current_floor]` it looks up (in
`elevator_load_floor` and `elevator_setup_scan`) is in range; the floor array has
ten entries, and while the car is going up or down `current_floor` is in 0..9. -/
theorem scheduler_lookups_in_range (s : System) (h : RunReachable s)
    (hrun : s.elevator.state ≠ ElevatorState.OFFLINE) :
    (∃ s1, elevator_run_iteration s = some s1) ∧
      s.floors.length = NUM_FLOORS ∧
      ((s.elevator.state = ElevatorState.UP ∨ s.elevator.state = ElevatorState.DOWN) →
        0 ≤ s.elevator.current_floor ∧ s.elevator.current_floor ≤ 9 ∧
          system_load_floor s ≠ none) := by
  have hinv := RunReachable_inv s h
  obtain ⟨s1, h1, _⟩ := elevator_run_iteration_inv s hinv hrun
  refine ⟨⟨s1, h1⟩, hinv.1.1, fun hst => ?_⟩
  have hrange : 0 ≤ s.elevator.current_floor ∧ s.elevator.current_floor ≤ 9 := by
    rcases hinv.2.2 with ⟨hio, _⟩ | ⟨_, h0, h9, _⟩ | ⟨_, h0, h9, _⟩
    · rcases hio with hi | ho <;> rcases hst with hu | hd <;> simp_all
    · exact ⟨h0, h9⟩
    · exact ⟨h0, h9⟩
  refine ⟨hrange.1, hrange.2, ?_⟩
  rw [Ne, system_load_floor_eq_none_iff s hinv.1.1]
  omega

/-- Witness of C29: the state after a request and a start. -/
theorem scheduler_lookups_in_range_witness :
    ∃ s1, elevator_run_iteration (served_example 1 9) = some s1 :=
  (scheduler_lookups_in_range (served_example 1 9)
    (RunReachable.start _ none (RunReachable.request _ true 2 1 9 RunReachable.init))
    (by decide)).1

/-- C30 (evaluation at the failing input): after a stop whose drain leaves the
passenger for floor 9 onboard and a restart, a request going down starts a scan
that never empties the car; three scheduler iterations later the car is at floor
-1 going down, and the next iteration looks up `floors[-1]`. -/
theorem restart_lookup_out_of_range :
    ∃ s s3, restart_example = some s ∧
      s.elevator.state = ElevatorState.IDLE ∧
      s.elevator.queue = [⟨PassengerType.ADULT, 9⟩] ∧
      elevator_run_n 3 s = some s3 ∧
      s3.elevator.state = ElevatorState.DOWN ∧
      s3.elevator.current_floor = -1 ∧
      (elevator_unload_floor s3.elevator).num_passengers = 1 ∧
      system_load_floor { s3 with elevator := elevator_unload_floor s3.elevator } = none ∧
      elevator_run_iteration s3 = none := by
  refine ⟨_, _, rfl, ?_, ?_, rfl, ?_, ?_, ?_, ?_, ?_⟩ <;> decide

/-- C32: with an empty car (all aggregates zero), if `F` is the lowest floor with a
waiting passenger and its front passenger `p`, of any class, has a destination
other than `F`, then after `elevator_try_to_start_scan` the passenger `p` is the
first of the onboard queue, `num_passengers` is at least 1, and the car is one
floor from `F` in the direction of the destination of `p`. -/
theorem scan_start_picks_front (s : System) (F : Nat) (flF : Floor) (p : PassengerNode)
    (rest : List PassengerNode) (hlen : s.floors.length = NUM_FLOORS)
    (hget : s.floors[F]? = some flF) (hq : flF.queue = p :: rest)
    (hlow : ∀ j < F, ∀ fl, s.floors[j]? = some fl → fl.queue = [])
    (hempty : s.elevator.queue = [] ∧ s.elevator.num_passengers = 0 ∧
      s.elevator.load_in_units = 0 ∧ s.elevator.load_in_weight = 0 ∧
      s.elevator.load_in_weight_half = 0)
    (hne : p.destination_floor ≠ (F : Int)) :
    ∃ s1, elevator_try_to_start_scan s = some s1 ∧
      s1.elevator.queue.head? = some p ∧
      1 ≤ s1.elevator.num_passengers ∧
      s1.elevator.state =
        (if p.destination_floor > (F : Int) then ElevatorState.UP else ElevatorState.DOWN) ∧
      s1.elevator.current_floor =
        (if p.destination_floor > (F : Int) then (F : Int) + 1 else (F : Int) - 1) := by
  obtain ⟨hq0, hn0, hu0, hw0, hh0⟩ := hempty
  have hF : F < 10 := by
    have := (List.getElem?_eq_some_iff.mp hget).1
    rw [hlen] at this
    exact this
  have hlow2 : ∀ j < F, ∃ fl, s.floors[j]? = some fl ∧ fl.queue = [] := by
    intro j hj
    have hjl : j < s.floors.length := by rw [hlen]; simp only [NUM_FLOORS]; omega
    exact ⟨s.floors[j], List.getElem?_eq_getElem hjl,
      hlow j hj _ (List.getElem?_eq_getElem hjl)⟩
  have hacc : should_load_passenger
      { scan_start_car s.elevator F p with
        direction := (scan_start_car s.elevator F p).state, state := ElevatorState.LOADING }
      p = true := by
    refine should_load_passenger_empty_car _ p ?_ ?_ ?_ ?_
    · exact hu0
    · exact hw0
    · exact hh0
    by_cases hd : p.destination_floor > (F : Int)
    · left; simp [scan_start_car, hd]
    · right; simp only [scan_start_car, hd, if_false]; exact ⟨trivial, by omega⟩
  obtain ⟨_, hsq⟩ := elevator_load_floor_split (scan_start_car s.elevator F p) flF
  have hfront : (elevator_load_floor (scan_start_car s.elevator F p) flF).1.queue =
      p :: accepted_front
        (elevator_load_passenger
          { scan_start_car s.elevator F p with
            direction := (scan_start_car s.elevator F p).state,
            state := ElevatorState.LOADING } (some p)) rest := by
    rw [hsq, hq]
    simp only [accepted_front, hacc, if_true]
    have : (scan_start_car s.elevator F p).queue = [] := hq0
    rw [this]
    rfl
  have hcount := elevator_load_floor_num_passengers (scan_start_car s.elevator F p) flF
  have hcq : (scan_start_car s.elevator F p).queue = [] := hq0
  have hcn : (scan_start_car s.elevator F p).num_passengers = 0 := hn0
  rw [hfront, hcq, hcn] at hcount
  simp only [List.length_cons, List.length_nil] at hcount
  obtain ⟨l1, _, _, l4, _⟩ := elevator_load_floor_frame (scan_start_car s.elevator F p) flF
  obtain ⟨s1, s2, s3, _⟩ :=
    elevator_step_fields (elevator_load_floor (scan_start_car s.elevator F p) flF).1
  refine ⟨_, elevator_try_to_start_scan_eq s F flF p rest hF hget hq hlow2, ?_, ?_, ?_, ?_⟩
  · simp only [s2, hfront, List.head?_cons]
  · have hstep : (elevator_step
        (elevator_load_floor (scan_start_car s.elevator F p) flF).1).num_passengers =
        (elevator_load_floor (scan_start_car s.elevator F p) flF).1.num_passengers := rfl
    simp only [hstep]
    push_cast at hcount
    omega
  · simp only [s1, l1]
    rfl
  · simp only [s3, l4]
    rfl

/-- Witness of C32: an idle empty car and a Child at floor 4 bound for floor 1. -/
theorem scan_start_picks_front_witness :
    ∃ s1, elevator_try_to_start_scan
        { floors := floors_update (create_floors_array NUM_FLOORS) 4
            (fun fl => floor_enqueue_passenger fl ⟨PassengerType.CHILD, 1⟩),
          elevator := idle_car 0 0 0 0 ElevatorState.OFFLINE } = some s1 ∧
      s1.elevator.queue.head? = some ⟨PassengerType.CHILD, 1⟩ ∧
      1 ≤ s1.elevator.num_passengers ∧
      s1.elevator.state =
        (if (1 : Int) > ((4 : Nat) : Int) then ElevatorState.UP else ElevatorState.DOWN) ∧
      s1.elevator.current_floor =
        (if (1 : Int) > ((4 : Nat) : Int) then ((4 : Nat) : Int) + 1 else ((4 : Nat) : Int) - 1) :=
  scan_start_picks_front
    { floors := floors_update (create_floors_array NUM_FLOORS) 4
        (fun fl => floor_enqueue_passenger fl ⟨PassengerType.CHILD, 1⟩),
      elevator := idle_car 0 0 0 0 ElevatorState.OFFLINE }
    4 (floor_enqueue_passenger (floor_create 4) ⟨PassengerType.CHILD, 1⟩)
    ⟨PassengerType.CHILD, 1⟩ [] (by decide) (by decide) (by decide)
    (by
      intro j hj fl hfl
      interval_cases j <;> simp_all [floors_update, create_floors_array, floor_create,
        NUM_FLOORS, List.range, List.range.loop] <;> subst hfl <;> rfl)
    (by decide) (by decide)

/-- C33: in every state reached from the initial state by starts, `issue_request`
calls, scheduler iterations and stops with their drain, the sum of `num_serviced`
over the floors is `total_serviced` plus `num_passengers` plus the number `k` of
accepted requests with origin equal to destination. -/
theorem serviced_counters_conserved (s : System) (k : Int) (h : ServedReachable s k) :
    serviced_sum s.floors = s.elevator.total_serviced + s.elevator.num_passengers + k :=
  (ServedReachable_inv s k h).2

/-- Witness of C33: the initial state after one accepted request from floor 3 to
floor 3. -/
theorem serviced_counters_conserved_witness :
    (issue_request system_init true 1 3 3).1 = 0 ∧
      serviced_sum (issue_request system_init true 1 3 3).2.floors =
        (issue_request system_init true 1 3 3).2.elevator.total_serviced +
          (issue_request system_init true 1 3 3).2.elevator.num_passengers +
          (0 + (if (issue_request system_init true 1 3 3).1 = 0 ∧ (3 : Int) = 3
            then 1 else 0)) :=
  ⟨by decide,
    serviced_counters_conserved _ _
      (ServedReachable.request system_init 0 true 1 3 3 (by decide) (by decide) (by decide)
        ServedReachable.init)⟩

/-- C31: every sweep ends. From a state at the start of a stop cycle, with ten floors
whose waiting passengers are bound for floors in `0..9` other than their own, the
car on a floor in `0..9`, and either state `UP`, `next_floor` the floor above and
every onboard destination in `current_floor..9`, or state `DOWN`, `next_floor` the
floor below and every onboard destination in `0..current_floor`: some number `n` of
scheduler iterations, at most `10 - current_floor` going up and `current_floor + 1`
going down, ends in state `IDLE` with an empty onboard queue and `num_passengers`
0, and each of these `n` iterations starts in the state of the sweep (so it is a
stop cycle). The counter `num_passengers`, which the loop tests, is the number of
passengers in the onboard queue, as it is in every state of the scheduler
(`RunReachable_num_passengers`). -/
theorem sweep_ends (s : System) (hf : FloorsOk s.floors)
    (hn : s.elevator.num_passengers = (s.elevator.queue.length : Int))
    (h0 : 0 ≤ s.elevator.current_floor) (h9 : s.elevator.current_floor ≤ 9)
    (hmove : (s.elevator.state = ElevatorState.UP ∧
        s.elevator.next_floor = s.elevator.current_floor + 1 ∧
        ∀ p ∈ s.elevator.queue, s.elevator.current_floor ≤ p.destination_floor ∧
          p.destination_floor ≤ 9) ∨
      (s.elevator.state = ElevatorState.DOWN ∧
        s.elevator.next_floor = s.elevator.current_floor - 1 ∧
        ∀ p ∈ s.elevator.queue, 0 ≤ p.destination_floor ∧
          p.destination_floor ≤ s.elevator.current_floor)) :
    ∃ (n : Nat) (s1 : System),
      (n : Int) ≤ (if s.elevator.state = ElevatorState.UP then 10 - s.elevator.current_floor
        else s.elevator.current_floor + 1) ∧
      elevator_run_n n s = some s1 ∧ s1.elevator.state = ElevatorState.IDLE ∧
      s1.elevator.queue = [] ∧ s1.elevator.num_passengers = 0 ∧
      ∀ m < n, ∃ sm, elevator_run_n m s = some sm ∧
        sm.elevator.state = s.elevator.state := by
  have hmove2 : (s.elevator.state = ElevatorState.UP ∧ 0 ≤ s.elevator.current_floor ∧
        s.elevator.current_floor ≤ 9 ∧ s.elevator.next_floor = s.elevator.current_floor + 1 ∧
        ∀ p ∈ s.elevator.queue, s.elevator.current_floor ≤ p.destination_floor ∧
          p.destination_floor ≤ 9) ∨
      (s.elevator.state = ElevatorState.DOWN ∧ 0 ≤ s.elevator.current_floor ∧
        s.elevator.current_floor ≤ 9 ∧ s.elevator.next_floor = s.elevator.current_floor - 1 ∧
        ∀ p ∈ s.elevator.queue, 0 ≤ p.destination_floor ∧
          p.destination_floor ≤ s.elevator.current_floor) := by
    rcases hmove with ⟨a, b, c⟩ | ⟨a, b, c⟩
    · exact Or.inl ⟨a, h0, h9, b, c⟩
    · exact Or.inr ⟨a, h0, h9, b, c⟩
  have hbound : (if s.elevator.state = ElevatorState.UP then 10 - s.elevator.current_floor
      else s.elevator.current_floor + 1) ≤ ((11 : Nat) : Int) := by
    split_ifs <;> push_cast <;> omega
  obtain ⟨n, s1, _, hrest⟩ := sweep_bounded_by 11 s hf hn hmove2 hbound
  exact ⟨n, s1, hrest⟩

/-- Witness of C31: a car going up at floor 3 with one Adult for floor 6 onboard and
ten floors, a Child for floor 8 waiting on floor 4 and an Adult for floor 0 waiting
on floor 5, is idle and empty after at most 7 stop cycles. -/
theorem sweep_ends_witness :
    ∃ (n : Nat) (s1 : System),
      (n : Int) ≤ (if sweep_example.elevator.state = ElevatorState.UP
        then 10 - sweep_example.elevator.current_floor
        else sweep_example.elevator.current_floor + 1) ∧
      elevator_run_n n sweep_example = some s1 ∧ s1.elevator.state = ElevatorState.IDLE ∧
      s1.elevator.queue = [] ∧ s1.elevator.num_passengers = 0 ∧
      ∀ m < n, ∃ sm, elevator_run_n m sweep_example = some sm ∧
        sm.elevator.state = sweep_example.elevator.state :=
  sweep_ends sweep_example sweep_example_FloorsOk (by decide) (by decide) (by decide)
    (Or.inl ⟨rfl, by decide, by decide⟩)

end OSProjects
